import Mathlib

/-!
Verification of the 2aside-platform batch matching and settlement engine.

Shallow embedding of the funding-service core:
* `smart_match_requests` and its greedy cursor loop
  (funding-service/celery_batch_matching.py, lines 54-95);
* `match_with_admin_wallet` (same file, lines 98-143);
* `run_merge_cycle` (same file, lines 150-283);
* `check_expired_deadlines` (same file, lines 382-455);
* the settlement endpoints `upload_proof`, `confirm_proof`,
  `request_extension`, `cancel_funding_request`, `cancel_withdrawal_request`
  (funding-service/main.py).

Conventions: Decimal amounts become `ℤ`; UTC datetimes become `ℕ` seconds;
`uuid4` identifiers become `ℕ` drawn from a fresh counter; SQLAlchemy rows
become Lean structures and tables become lists, with `find?` for the
`filter(...).first()` queries and an id-preserving `map` for row updates.
A branch where the python code raises after rolling back is modelled as
returning the input state together with an error value; the one branch that
commits before raising (the late-upload punitive branch) returns the
mutated state together with its error value.
-/

namespace TwoAside

/-! ### Matching algorithm (celery_batch_matching.py, smart_match_requests) -/

/-- The cursor loop of `smart_match_requests`.  Each list entry is
`(request id, amount_remaining)`.  At every step the smaller of the two head
remainders is matched, both heads are decremented, and a cursor advances when
its remainder reaches zero.  Because the matched amount is `min f w`, at least
one of `f - m = 0`, `w - m = 0` always holds, so the python loop always
advances a cursor; the fourth combination is unreachable and is therefore not
a branch here. -/
def smartMatchLoop : List (Nat × ℤ) → List (Nat × ℤ) → List (Nat × Nat × ℤ)
  | [], _ => []
  | _ :: _, [] => []
  | (fid, f) :: fs, (wid, w) :: ws =>
    let m := min f w
    (fid, wid, m) ::
      (if f - m = 0 then
        if w - m = 0 then smartMatchLoop fs ws
        else smartMatchLoop fs ((wid, w - m) :: ws)
      else smartMatchLoop ((fid, f - m) :: fs) ws)
  termination_by fs ws => fs.length + ws.length
  decreasing_by all_goals simp_arith

/-- `sorted(requests, key=lambda x: x.amount_remaining)`: python `sorted` is a
stable sort, modelled by the stable `List.insertionSort` on the remainder
component. -/
def sortByRemaining (l : List (Nat × ℤ)) : List (Nat × ℤ) :=
  l.insertionSort (fun a b => a.2 ≤ b.2)

/-- `smart_match_requests`: sort both sides ascending by `amount_remaining`,
then run the cursor loop.  Returns `(funding_id, withdrawal_id, amount)`
triples. -/
def smart_match_requests (funding withdrawal : List (Nat × ℤ)) :
    List (Nat × Nat × ℤ) :=
  smartMatchLoop (sortByRemaining funding) (sortByRemaining withdrawal)

/-- Total amount carried by a list of match triples. -/
def matchAmountsSum (ms : List (Nat × Nat × ℤ)) : ℤ :=
  (ms.map (fun t => t.2.2)).sum

/-- Total outstanding remainder carried by one side of the matching input. -/
def remainingSum (l : List (Nat × ℤ)) : ℤ :=
  (l.map (fun x => x.2)).sum

/-- Bound checker for the loop: along the very same recursion as
`smartMatchLoop`, check that every emitted amount is at most both current
head remainders, i.e. at most either participating side remaining amount at
the moment the triple is computed. -/
def smartMatchBounded : List (Nat × ℤ) → List (Nat × ℤ) → Bool
  | [], _ => true
  | _ :: _, [] => true
  | (fid, f) :: fs, (wid, w) :: ws =>
    let m := min f w
    (decide (m ≤ f ∧ m ≤ w)) &&
      (if f - m = 0 then
        if w - m = 0 then smartMatchBounded fs ws
        else smartMatchBounded fs ((wid, w - m) :: ws)
      else smartMatchBounded ((fid, f - m) :: fs) ws)
  termination_by fs ws => fs.length + ws.length
  decreasing_by all_goals simp_arith

theorem remainingSum_nil : remainingSum [] = 0 := rfl

theorem remainingSum_cons (a : Nat) (q : ℤ) (l : List (Nat × ℤ)) :
    remainingSum ((a, q) :: l) = q + remainingSum l := by
  simp [remainingSum]

theorem matchAmountsSum_nil : matchAmountsSum [] = 0 := rfl

theorem matchAmountsSum_cons (a b : Nat) (q : ℤ) (l : List (Nat × Nat × ℤ)) :
    matchAmountsSum ((a, b, q) :: l) = q + matchAmountsSum l := by
  simp [matchAmountsSum]

theorem remainingSum_nonneg {l : List (Nat × ℤ)} (h : ∀ x ∈ l, 0 < x.2) :
    0 ≤ remainingSum l := by
  refine List.sum_nonneg ?_
  intro q hq
  rcases List.mem_map.mp hq with ⟨x, hx, rfl⟩
  exact (h x hx).le

/-- Core sum identity of the cursor loop: with strictly positive remainders
on both sides, the emitted amounts total exactly the smaller of the two side
totals. -/
theorem smartMatchLoop_sum :
    ∀ fs ws : List (Nat × ℤ), (∀ x ∈ fs, 0 < x.2) → (∀ x ∈ ws, 0 < x.2) →
      matchAmountsSum (smartMatchLoop fs ws) =
        min (remainingSum fs) (remainingSum ws) := by
  intro fs ws
  induction fs, ws using smartMatchLoop.induct with
  | case1 ws =>
    intro _ hw
    rw [smartMatchLoop]
    rw [matchAmountsSum_nil, remainingSum_nil]
    exact (min_eq_left (remainingSum_nonneg hw)).symm
  | case2 x fs =>
    intro hf _
    rw [smartMatchLoop]
    rw [matchAmountsSum_nil, remainingSum_nil]
    exact (min_eq_right (remainingSum_nonneg hf)).symm
  | case3 fid f fs wid w ws m ih1 ih2 ih3 =>
    intro hf hw
    have hm : m = min f w := rfl
    rw [hm] at ih2 ih3
    have hfpos : 0 < f := hf (fid, f) (by simp)
    have hwpos : 0 < w := hw (wid, w) (by simp)
    have hftail : ∀ x ∈ fs, 0 < x.2 := fun x hx => hf x (by simp [hx])
    have hwtail : ∀ x ∈ ws, 0 < x.2 := fun x hx => hw x (by simp [hx])
    rw [smartMatchLoop]
    by_cases hf0 : f - min f w = 0
    · by_cases hw0 : w - min f w = 0
      · have hfm : min f w = f := by
          have := sub_eq_zero.mp hf0
          linarith
        have hwf : w = f := by
          have := sub_eq_zero.mp hw0
          linarith
        subst hwf
        rw [if_pos hf0, if_pos hw0, matchAmountsSum_cons,
          ih1 hftail hwtail, remainingSum_cons, remainingSum_cons,
          min_add_add_left, min_self]
      · have hfm : min f w = f := by
          have := sub_eq_zero.mp hf0
          linarith
        have hwm : 0 < w - min f w :=
          lt_of_le_of_ne (by simp [min_le_right, sub_nonneg]) (Ne.symm hw0)
        have hwtail2 : ∀ x ∈ (wid, w - min f w) :: ws, 0 < x.2 := by
          intro x hx
          rcases List.mem_cons.mp hx with h | h
          · rw [h]; exact hwm
          · exact hwtail x h
        rw [if_pos hf0, if_neg hw0, matchAmountsSum_cons,
          ih2 hftail hwtail2, remainingSum_cons, remainingSum_cons,
          remainingSum_cons, hfm, ← min_add_add_left]
        congr 1
        ring
    · have hwm : min f w = w := by
        rcases min_choice f w with h | h
        · exact absurd (by linarith [sub_eq_zero.mpr h.symm]) hf0
        · exact h
      have hfm2 : 0 < f - min f w :=
        lt_of_le_of_ne (by simp [min_le_left, sub_nonneg]) (Ne.symm hf0)
      have hftail2 : ∀ x ∈ (fid, f - min f w) :: fs, 0 < x.2 := by
        intro x hx
        rcases List.mem_cons.mp hx with h | h
        · rw [h]; exact hfm2
        · exact hftail x h
      rw [if_neg hf0, matchAmountsSum_cons, ih3 hftail2 hwtail,
        remainingSum_cons, remainingSum_cons, remainingSum_cons, hwm,
        ← min_add_add_left]
      congr 1
      ring

/-- Along the loop, every emitted amount is bounded by both current head
remainders (the amount is their minimum). -/
theorem smartMatchBounded_true :
    ∀ fs ws : List (Nat × ℤ), smartMatchBounded fs ws = true := by
  intro fs ws
  induction fs, ws using smartMatchBounded.induct with
  | case1 ws => rw [smartMatchBounded]
  | case2 x fs => rw [smartMatchBounded]
  | case3 fid f fs wid w ws m ih1 ih2 ih3 =>
    have hm : m = min f w := rfl
    rw [hm] at ih2 ih3
    rw [smartMatchBounded]
    simp only [Bool.and_eq_true, decide_eq_true_eq]
    constructor
    · exact ⟨min_le_left f w, min_le_right f w⟩
    · split_ifs with h1 h2
      · exact ih1
      · exact ih2
      · exact ih3

theorem remainingSum_sortByRemaining (l : List (Nat × ℤ)) :
    remainingSum (sortByRemaining l) = remainingSum l := by
  unfold remainingSum sortByRemaining
  exact ((List.perm_insertionSort _ l).map _).sum_eq

theorem mem_sortByRemaining {x : Nat × ℤ} {l : List (Nat × ℤ)} :
    x ∈ sortByRemaining l ↔ x ∈ l :=
  (List.perm_insertionSort _ l).mem_iff

/-- C1.  For input lists of (request, remaining-amount) with all remainders
strictly positive, `smart_match_requests` emits triples whose amounts sum
exactly to the minimum of the two side totals, and every emitted amount is at
most either participating side remaining amount at the moment that triple is
computed (checked step by step along the loop by `smartMatchBounded`). -/
theorem smart_match_requests_sum_min_and_bounded
    (fs ws : List (Nat × ℤ))
    (hf : ∀ x ∈ fs, 0 < x.2) (hw : ∀ x ∈ ws, 0 < x.2) :
    matchAmountsSum (smart_match_requests fs ws) =
        min (remainingSum fs) (remainingSum ws) ∧
      smartMatchBounded (sortByRemaining fs) (sortByRemaining ws) = true := by
  constructor
  · rw [smart_match_requests,
      smartMatchLoop_sum (sortByRemaining fs) (sortByRemaining ws)
        (fun x hx => hf x (mem_sortByRemaining.mp hx))
        (fun x hx => hw x (mem_sortByRemaining.mp hx)),
      remainingSum_sortByRemaining, remainingSum_sortByRemaining]
  · exact smartMatchBounded_true _ _

/-- Witness for C1 at the spec Scenario 2 input: one funder of 7000 against
withdrawers of 3000 and 4000. -/
theorem smart_match_requests_sum_min_and_bounded_witness :
    (∀ x ∈ [((1 : Nat), (7000 : ℤ))], 0 < x.2) ∧
      (∀ x ∈ [((2 : Nat), (3000 : ℤ)), ((3 : Nat), (4000 : ℤ))], 0 < x.2) ∧
      (matchAmountsSum
          (smart_match_requests [((1 : Nat), (7000 : ℤ))]
            [((2 : Nat), (3000 : ℤ)), ((3 : Nat), (4000 : ℤ))]) =
          min (remainingSum [((1 : Nat), (7000 : ℤ))])
            (remainingSum [((2 : Nat), (3000 : ℤ)), ((3 : Nat), (4000 : ℤ))]) ∧
        smartMatchBounded
            (sortByRemaining [((1 : Nat), (7000 : ℤ))])
            (sortByRemaining
              [((2 : Nat), (3000 : ℤ)), ((3 : Nat), (4000 : ℤ))]) = true) :=
  ⟨by decide, by decide,
    smart_match_requests_sum_min_and_bounded _ _ (by decide) (by decide)⟩

/-! ### Data model (shared/models.py, restricted to the matching core) -/

/-- `Wallet` (shared/models.py): the fields the matching core reads or
writes. -/
structure Wallet where
  id : Nat
  currency : String
  balance : ℤ
  total_deposited : ℤ
  is_blocked : Bool
  block_reason : Option String
  deriving Repr, DecidableEq

/-- `FundingRequest` (shared/models.py), batch-matching fields. -/
structure FundingRequest where
  id : Nat
  wallet_id : Nat
  amount : ℤ
  amount_remaining : ℤ
  is_fully_matched : Bool
  is_completed : Bool
  opted_in : Bool
  opted_in_at : Option Nat
  merge_cycle_id : Option Nat
  requested_at : Nat
  matched_at : Option Nat
  deriving Repr, DecidableEq

/-- `WithdrawalRequest` (shared/models.py), batch-matching fields plus the
priority re-queue fields. -/
structure WithdrawalRequest where
  id : Nat
  wallet_id : Nat
  amount : ℤ
  amount_remaining : ℤ
  is_fully_matched : Bool
  is_completed : Bool
  opted_in : Bool
  opted_in_at : Option Nat
  merge_cycle_id : Option Nat
  requested_at : Nat
  matched_at : Option Nat
  is_priority : Bool
  priority_timestamp : Option Nat
  failed_match_count : Nat
  deriving Repr, DecidableEq

/-- `FundingMatchPair` (shared/models.py). -/
structure FundingMatchPair where
  id : Nat
  funding_request_id : Nat
  withdrawal_request_id : Nat
  merge_cycle_id : Nat
  amount : ℤ
  proof_uploaded : Bool
  proof_url : Option String
  proof_uploaded_at : Option Nat
  proof_confirmed : Bool
  proof_confirmed_at : Option Nat
  completed_at : Option Nat
  proof_deadline : Option Nat
  confirmation_deadline : Option Nat
  extension_requested : Bool
  extension_granted : Bool
  extended_deadline : Option Nat
  funder_missed_deadline : Bool
  withdrawer_missed_deadline : Bool
  created_at : Nat
  deriving Repr, DecidableEq

/-- `MergeCycle` (shared/models.py). -/
structure MergeCycle where
  id : Nat
  scheduled_time : Nat
  cutoff_time : Nat
  status : String
  total_funding_requests : Nat
  total_withdrawal_requests : Nat
  matched_pairs : Nat
  unmatched_funding : Nat
  unmatched_withdrawal : Nat
  started_at : Option Nat
  completed_at : Option Nat
  deriving Repr, DecidableEq

/-- `AdminWallet` (shared/models.py). -/
structure AdminWallet where
  wallet_type : String
  currency : String
  balance : ℤ
  total_funded : ℤ
  total_received : ℤ
  deriving Repr, DecidableEq

/-- `WalletLog` transaction record (shared/models.py). -/
structure WalletLog where
  wallet_id : Nat
  transaction_type : String
  amount : ℤ
  balance_after : ℤ
  deriving Repr, DecidableEq

/-- The persistent store: each SQLAlchemy table becomes a list.  `next_id`
replaces `uuid.uuid4()` as a source of fresh identifiers for rows created by
the merge cycle. -/
structure DB where
  wallets : List Wallet
  funding_requests : List FundingRequest
  withdrawal_requests : List WithdrawalRequest
  pairs : List FundingMatchPair
  merge_cycles : List MergeCycle
  admin_wallets : List AdminWallet
  wallet_logs : List WalletLog
  next_id : Nat
  deriving Repr, DecidableEq

/-- Four hours, in seconds (`timedelta(hours=4)`). -/
def fourHours : Nat := 14400

/-- One hour, in seconds (`timedelta(hours=1)`). -/
def oneHour : Nat := 3600

/-! `query(T).filter(T.id == x).first()` and the id-keyed row updates. -/

def findWallet (db : DB) (i : Nat) : Option Wallet :=
  db.wallets.find? (fun w => w.id == i)

def findFunding (db : DB) (i : Nat) : Option FundingRequest :=
  db.funding_requests.find? (fun r => r.id == i)

def findWithdrawal (db : DB) (i : Nat) : Option WithdrawalRequest :=
  db.withdrawal_requests.find? (fun r => r.id == i)

def findPair (db : DB) (i : Nat) : Option FundingMatchPair :=
  db.pairs.find? (fun p => p.id == i)

def findCycle (db : DB) (i : Nat) : Option MergeCycle :=
  db.merge_cycles.find? (fun c => c.id == i)

def findAdminWallet (db : DB) (wtype currency : String) : Option AdminWallet :=
  db.admin_wallets.find? (fun a => a.wallet_type == wtype && a.currency == currency)

def updWallet (db : DB) (i : Nat) (g : Wallet → Wallet) : DB :=
  { db with wallets := db.wallets.map (fun w => if w.id == i then g w else w) }

def updFunding (db : DB) (i : Nat) (g : FundingRequest → FundingRequest) : DB :=
  { db with funding_requests :=
      db.funding_requests.map (fun r => if r.id == i then g r else r) }

def updWithdrawal (db : DB) (i : Nat)
    (g : WithdrawalRequest → WithdrawalRequest) : DB :=
  { db with withdrawal_requests :=
      db.withdrawal_requests.map (fun r => if r.id == i then g r else r) }

def updPair (db : DB) (i : Nat)
    (g : FundingMatchPair → FundingMatchPair) : DB :=
  { db with pairs := db.pairs.map (fun p => if p.id == i then g p else p) }

def updCycle (db : DB) (i : Nat) (g : MergeCycle → MergeCycle) : DB :=
  { db with merge_cycles :=
      db.merge_cycles.map (fun c => if c.id == i then g c else c) }

/-! ### Settlement endpoints (funding-service/main.py)

Authentication and ownership checks resolve the same rows the business logic
then uses; a failed lookup in python raises and rolls the session back, which
is modelled by returning the input state with an error value. -/

inductive UploadProofResult where
  | pairNotFound
  | fundingNotFound
  | walletNotFound
  | alreadyUploaded
  | deadlinePassed
  | ok
  deriving Repr, DecidableEq

/-- Record an uploaded proof on a pair and start the 4 hour confirmation
window. -/
def stampProofUploaded (now : Nat) (url : String) (p : FundingMatchPair) :
    FundingMatchPair :=
  { p with
    proof_uploaded := true
    proof_url := some url
    proof_uploaded_at := some now
    confirmation_deadline := some (now + fourHours) }

/-- Success path of `upload_proof`. -/
def uploadProofOk (db : DB) (pair_id now : Nat) (url : String) :
    DB × UploadProofResult :=
  (updPair db pair_id (stampProofUploaded now url), .ok)

/-- Block a wallet with the documented late-proof reason
(`wallet.is_blocked = True; wallet.block_reason = ...`). -/
def blockFunderWallet (w : Wallet) : Wallet :=
  { w with
    is_blocked := true
    block_reason := some "Failed to upload payment proof within 4 hours. Please contact support at support@2aside.com to resolve this issue and unblock your account." }

/-- Re-queue a withdrawal request with priority after its funder missed the
proof deadline: priority flags, failure counter, cleared match state, and
the matched `amount` restored onto `amount_remaining`. -/
def requeueWithdrawal (amount : ℤ) (wr : WithdrawalRequest) :
    WithdrawalRequest :=
  { wr with
    is_priority := true
    priority_timestamp := some (wr.opted_in_at.getD wr.requested_at)
    failed_match_count := wr.failed_match_count + 1
    is_fully_matched := false
    opted_in := false
    merge_cycle_id := none
    matched_at := none
    amount_remaining := wr.amount_remaining + amount }

/-- Flag a pair whose funder missed the proof deadline. -/
def flagFunderMissed (p : FundingMatchPair) : FundingMatchPair :=
  { p with funder_missed_deadline := true }

/-- Punitive branch of `upload_proof`, reached when the proof deadline has
already passed: block the funder wallet with the documented reason, re-queue
the withdrawal request with priority and restore the matched amount, and
flag the pair.  These mutations are committed before the error is raised. -/
def uploadProofLate (db : DB) (pair : FundingMatchPair)
    (funding_req : FundingRequest) (pair_id : Nat) : DB :=
  let db1 := updWallet db funding_req.wallet_id blockFunderWallet
  let db2 :=
    match findWithdrawal db1 pair.withdrawal_request_id with
    | none => db1
    | some _wreq =>
      updWithdrawal db1 pair.withdrawal_request_id
        (requeueWithdrawal pair.amount)
  updPair db2 pair_id flagFunderMissed

/-- `upload_proof` (main.py, lines 999-1114).  The branch where the proof
deadline has already passed commits its punitive mutations before raising,
so that branch returns the mutated state together with the error. -/
def upload_proof (db : DB) (pair_id now : Nat) (url : String) :
    DB × UploadProofResult :=
  match findPair db pair_id with
  | none => (db, .pairNotFound)
  | some pair =>
    match findFunding db pair.funding_request_id with
    | none => (db, .fundingNotFound)
    | some funding_req =>
      match findWallet db funding_req.wallet_id with
      | none => (db, .walletNotFound)
      | some _wallet =>
        if pair.proof_uploaded then (db, .alreadyUploaded)
        else
          match pair.proof_deadline with
          | none => uploadProofOk db pair_id now url
          | some dl =>
            if now > dl then
              (uploadProofLate db pair funding_req pair_id, .deadlinePassed)
            else uploadProofOk db pair_id now url

inductive ConfirmProofResult where
  | pairNotFound
  | withdrawalNotFound
  | walletNotFound
  | noProofYet
  | alreadyConfirmed
  | deadlinePassed
  | fundingNotFound
  | funderWalletNotFound
  | ok
  deriving Repr, DecidableEq

/-- Stamp a pair as confirmed at `now`. -/
def confirmPairStamp (now : Nat) (p : FundingMatchPair) : FundingMatchPair :=
  { p with
    proof_confirmed := true
    proof_confirmed_at := some now
    completed_at := some now }

/-- Credit a wallet on settlement (`balance += amount;
total_deposited += amount`). -/
def creditWallet (amount : ℤ) (w : Wallet) : Wallet :=
  { w with
    balance := w.balance + amount
    total_deposited := w.total_deposited + amount }

/-- Debit a wallet on settlement (`balance -= amount`). -/
def debitWallet (amount : ℤ) (w : Wallet) : Wallet :=
  { w with balance := w.balance - amount }

/-- Mark a funding request completed. -/
def completeFunding (r : FundingRequest) : FundingRequest :=
  { r with is_completed := true }

/-- Mark a withdrawal request completed. -/
def completeWithdrawal (r : WithdrawalRequest) : WithdrawalRequest :=
  { r with is_completed := true }

/-- Success block of `confirm_proof`: mark the pair confirmed, credit the
funder wallet, debit the withdrawer wallet, append both transaction logs,
and mark each parent request completed once every one of its pairs is
confirmed. -/
def confirmProofOk (db : DB) (pair : FundingMatchPair)
    (withdrawal_req : WithdrawalRequest) (funding_req : FundingRequest)
    (pair_id now : Nat) : DB :=
  let db1 := updPair db pair_id (confirmPairStamp now)
  let db2 := updWallet db1 funding_req.wallet_id (creditWallet pair.amount)
  let db3 := updWallet db2 withdrawal_req.wallet_id (debitWallet pair.amount)
  let funder_after :=
    match findWallet db3 funding_req.wallet_id with
    | some w => w.balance
    | none => 0
  let withdrawer_after :=
    match findWallet db3 withdrawal_req.wallet_id with
    | some w => w.balance
    | none => 0
  let db4 := { db3 with wallet_logs := db3.wallet_logs ++
    [{ wallet_id := funding_req.wallet_id
       transaction_type := "DEPOSIT"
       amount := pair.amount
       balance_after := funder_after },
     { wallet_id := withdrawal_req.wallet_id
       transaction_type := "WITHDRAWAL"
       amount := pair.amount
       balance_after := withdrawer_after }] }
  let db5 :=
    if (db4.pairs.filter (fun p => p.funding_request_id == funding_req.id)).all
        (fun p => p.proof_confirmed) then
      updFunding db4 funding_req.id completeFunding
    else db4
  if (db5.pairs.filter
      (fun p => p.withdrawal_request_id == withdrawal_req.id)).all
      (fun p => p.proof_confirmed) then
    updWithdrawal db5 withdrawal_req.id completeWithdrawal
  else db5

/-- `confirm_proof` (main.py, lines 1117-1233): confirm receipt, move the
matched amount from the withdrawer wallet to the funder wallet, log both
sides, and complete each parent request once all of its pairs are
confirmed. -/
def confirm_proof (db : DB) (pair_id now : Nat) : DB × ConfirmProofResult :=
  match findPair db pair_id with
  | none => (db, .pairNotFound)
  | some pair =>
    match findWithdrawal db pair.withdrawal_request_id with
    | none => (db, .withdrawalNotFound)
    | some withdrawal_req =>
      match findWallet db withdrawal_req.wallet_id with
      | none => (db, .walletNotFound)
      | some _wallet =>
        if !pair.proof_uploaded then (db, .noProofYet)
        else if pair.proof_confirmed then (db, .alreadyConfirmed)
        else if (match pair.confirmation_deadline with
                 | some dl => decide (now > dl)
                 | none => false) then (db, .deadlinePassed)
        else
          match findFunding db pair.funding_request_id with
          | none => (db, .fundingNotFound)
          | some funding_req =>
            match findWallet db funding_req.wallet_id with
            | none => (db, .funderWalletNotFound)
            | some _funder_wallet =>
              (confirmProofOk db pair withdrawal_req funding_req pair_id now,
               .ok)

inductive ExtensionResult where
  | pairNotFound
  | fundingNotFound
  | walletNotFound
  | alreadyRequested
  | alreadyUploaded
  | noDeadlineError
  | deadlinePassed
  | ok
  deriving Repr, DecidableEq

/-- Grant the one-time extension: `extended_deadline = proof_deadline + 1h`.
`dl` is the current `proof_deadline`. -/
def grantExtension (dl : Nat) (p : FundingMatchPair) : FundingMatchPair :=
  { p with
    extension_requested := true
    extension_granted := true
    extended_deadline := some (dl + oneHour) }

/-- `request_extension` (main.py, lines 1236-1297): one-time, before upload
and before the original deadline; grants
`extended_deadline = proof_deadline + 1h`.  When `proof_deadline` is unset
the python grant line raises on `None + timedelta` and the session rolls
back, modelled by `noDeadlineError` with the state unchanged. -/
def request_extension (db : DB) (pair_id now : Nat) : DB × ExtensionResult :=
  match findPair db pair_id with
  | none => (db, .pairNotFound)
  | some pair =>
    match findFunding db pair.funding_request_id with
    | none => (db, .fundingNotFound)
    | some funding_req =>
      match findWallet db funding_req.wallet_id with
      | none => (db, .walletNotFound)
      | some _wallet =>
        if pair.extension_requested then (db, .alreadyRequested)
        else if pair.proof_uploaded then (db, .alreadyUploaded)
        else
          match pair.proof_deadline with
          | none => (db, .noDeadlineError)
          | some dl =>
            if now > dl then (db, .deadlinePassed)
            else (updPair db pair_id (grantExtension dl), .ok)

/-! ### Cancellation (main.py, lines 541-688) -/

inductive CancelResult where
  | notFound
  | alreadyCompleted
  | alreadyMatched
  | cutoffPassed
  | ok
  deriving Repr, DecidableEq

/-- `get_next_merge_cycle` (main.py, lines 132-139): first pending cycle
strictly after `now`, ordered by scheduled time. -/
def get_next_merge_cycle (db : DB) (now : Nat) : Option MergeCycle :=
  ((db.merge_cycles.filter (fun c =>
      decide (now < c.scheduled_time) && (c.status == "pending"))).insertionSort
    (fun a b => a.scheduled_time ≤ b.scheduled_time)).head?

/-- `cancel_funding_request` (main.py, lines 541-613). -/
def cancel_funding_request (db : DB) (request_id now : Nat) :
    DB × CancelResult :=
  match findFunding db request_id with
  | none => (db, .notFound)
  | some funding_req =>
    if funding_req.is_completed then (db, .alreadyCompleted)
    else if funding_req.is_fully_matched || funding_req.matched_at.isSome then
      (db, .alreadyMatched)
    else
      match get_next_merge_cycle db now with
      | none =>
        ({ db with funding_requests :=
            db.funding_requests.filter (fun r => r.id != request_id) }, .ok)
      | some next_cycle =>
        if now < next_cycle.cutoff_time then
          ({ db with funding_requests :=
              db.funding_requests.filter (fun r => r.id != request_id) }, .ok)
        else (db, .cutoffPassed)

/-- `cancel_withdrawal_request` (main.py, lines 616-688). -/
def cancel_withdrawal_request (db : DB) (request_id now : Nat) :
    DB × CancelResult :=
  match findWithdrawal db request_id with
  | none => (db, .notFound)
  | some withdrawal_req =>
    if withdrawal_req.is_completed then (db, .alreadyCompleted)
    else if withdrawal_req.is_fully_matched ||
        withdrawal_req.matched_at.isSome then
      (db, .alreadyMatched)
    else
      match get_next_merge_cycle db now with
      | none =>
        ({ db with withdrawal_requests :=
            db.withdrawal_requests.filter (fun r => r.id != request_id) }, .ok)
      | some next_cycle =>
        if now < next_cycle.cutoff_time then
          ({ db with withdrawal_requests :=
              db.withdrawal_requests.filter (fun r => r.id != request_id) },
           .ok)
        else (db, .cutoffPassed)

/-! ### Deadline enforcer (celery_batch_matching.py, check_expired_deadlines,
lines 382-455) -/

/-- Block a wallet without recording a reason (the sweep sets only
`is_blocked = True`). -/
def blockWallet (w : Wallet) : Wallet :=
  { w with is_blocked := true }

/-- Flag a pair whose withdrawer missed the confirmation deadline. -/
def flagWithdrawerMissed (p : FundingMatchPair) : FundingMatchPair :=
  { p with withdrawer_missed_deadline := true }

/-- One iteration of the expired-proof loop: flag the pair and block the
funder wallet (when it exists and is not already blocked).  Note that the
sweep, unlike the late branch of `upload_proof`, neither touches the
withdrawal request nor sets a block reason. -/
def expiredProofStep (db : DB) (pid : Nat) : DB :=
  let db1 := updPair db pid flagFunderMissed
  match findPair db1 pid with
  | none => db1
  | some pair =>
    match findFunding db1 pair.funding_request_id with
    | none => db1
    | some funding_req =>
      match findWallet db1 funding_req.wallet_id with
      | none => db1
      | some wallet =>
        if wallet.is_blocked then db1
        else updWallet db1 funding_req.wallet_id blockWallet

/-- One iteration of the expired-confirmation loop: flag the pair and block
the withdrawer wallet. -/
def expiredConfirmationStep (db : DB) (pid : Nat) : DB :=
  let db1 := updPair db pid flagWithdrawerMissed
  match findPair db1 pid with
  | none => db1
  | some pair =>
    match findWithdrawal db1 pair.withdrawal_request_id with
    | none => db1
    | some withdrawal_req =>
      match findWallet db1 withdrawal_req.wallet_id with
      | none => db1
      | some wallet =>
        if wallet.is_blocked then db1
        else updWallet db1 withdrawal_req.wallet_id blockWallet

/-- `check_expired_deadlines`: the one-minute sweep.  Both filters mirror the
two queries; the second query runs after the first loop has committed its
flag mutations into the session. -/
def check_expired_deadlines (db : DB) (now : Nat) : DB :=
  let expired_proof_pairs := db.pairs.filter (fun p =>
    (match p.proof_deadline with
     | some dl => decide (dl ≤ now)
     | none => false) && !p.proof_uploaded && !p.funder_missed_deadline)
  let db1 := (expired_proof_pairs.map (fun p => p.id)).foldl expiredProofStep db
  let expired_confirmation_pairs := db1.pairs.filter (fun p =>
    (match p.confirmation_deadline with
     | some dl => decide (dl ≤ now)
     | none => false) && p.proof_uploaded && !p.proof_confirmed &&
      !p.withdrawer_missed_deadline)
  (expired_confirmation_pairs.map (fun p => p.id)).foldl
    expiredConfirmationStep db1

/-! ### Admin wallet fallback (celery_batch_matching.py,
match_with_admin_wallet, lines 98-143) -/

/-- One iteration of the admin-as-funder loop: satisfy the withdrawal in
full when its remainder is positive and the running balance
(`admin_available`) still covers it. -/
def adminFunderStep (acc : List (String × Nat × ℤ) × ℤ)
    (w : WithdrawalRequest) : List (String × Nat × ℤ) × ℤ :=
  if 0 < w.amount_remaining ∧ w.amount_remaining ≤ acc.2 then
    (acc.1 ++ [("admin", w.id, w.amount_remaining)],
     acc.2 - w.amount_remaining)
  else acc

/-- `match_with_admin_wallet`: the admin pool absorbs every funding request
with positive remainder (unlimited deposits) and funds withdrawal requests in
input order while its running balance covers them.  Defined but never called
by `run_merge_cycle`. -/
def match_with_admin_wallet (unmatched_funding : List FundingRequest)
    (unmatched_withdrawal : List WithdrawalRequest) (currency : String)
    (db : DB) : List (Nat × String × ℤ) × List (String × Nat × ℤ) :=
  match findAdminWallet db "funding_pool" currency with
  | none => ([], [])
  | some admin_wallet =>
    let admin_as_withdrawer :=
      (unmatched_funding.filter (fun f => decide (0 < f.amount_remaining))).map
        (fun f => (f.id, "admin", f.amount_remaining))
    (admin_as_withdrawer,
     (unmatched_withdrawal.foldl adminFunderStep ([], admin_wallet.balance)).1)

/-! ### Merge cycle orchestrator (celery_batch_matching.py, run_merge_cycle,
lines 150-283) -/

/-- Currency of the wallet owning a request (the `join(Wallet)` in the
request queries). -/
def walletCurrency (db : DB) (wid : Nat) : Option String :=
  (findWallet db wid).map (fun w => w.currency)

/-- The funding-request query of `run_merge_cycle` for one currency. -/
def eligibleFunding (db : DB) (currency : String) (cutoff : Nat) :
    List FundingRequest :=
  db.funding_requests.filter (fun f =>
    (walletCurrency db f.wallet_id == some currency) && !f.is_fully_matched &&
      !f.is_completed && decide (f.requested_at < cutoff))

/-- The withdrawal-request query of `run_merge_cycle` for one currency. -/
def eligibleWithdrawal (db : DB) (currency : String) (cutoff : Nat) :
    List WithdrawalRequest :=
  db.withdrawal_requests.filter (fun w =>
    (walletCurrency db w.wallet_id == some currency) && !w.is_fully_matched &&
      !w.is_completed && decide (w.requested_at < cutoff))

/-- Decrement a funding request by a matched slice and flag full match when
the remainder reaches zero. -/
def settleFundingSlice (cycle_id now : Nat) (amount : ℤ)
    (f : FundingRequest) : FundingRequest :=
  let f1 := { f with amount_remaining := f.amount_remaining - amount }
  if f1.amount_remaining = 0 then
    { f1 with
      is_fully_matched := true
      matched_at := some now
      merge_cycle_id := some cycle_id }
  else f1

/-- Decrement a withdrawal request by a matched slice and flag full match
when the remainder reaches zero. -/
def settleWithdrawalSlice (cycle_id now : Nat) (amount : ℤ)
    (w : WithdrawalRequest) : WithdrawalRequest :=
  let w1 := { w with amount_remaining := w.amount_remaining - amount }
  if w1.amount_remaining = 0 then
    { w1 with
      is_fully_matched := true
      matched_at := some now
      merge_cycle_id := some cycle_id }
  else w1

/-- The row created for one match triple: 4 hour proof deadline, all proof
and failure fields cleared. -/
def newMatchPair (cycle_id now pid : Nat) (t : Nat × Nat × ℤ) :
    FundingMatchPair :=
  { id := pid
    funding_request_id := t.1
    withdrawal_request_id := t.2.1
    merge_cycle_id := cycle_id
    amount := t.2.2
    proof_uploaded := false
    proof_url := none
    proof_uploaded_at := none
    proof_confirmed := false
    proof_confirmed_at := none
    completed_at := none
    proof_deadline := some (now + fourHours)
    confirmation_deadline := none
    extension_requested := false
    extension_granted := false
    extended_deadline := none
    funder_missed_deadline := false
    withdrawer_missed_deadline := false
    created_at := now }

/-- Persist one `(funding_id, withdrawal_id, amount)` triple: create the
match pair with a 4 hour proof deadline, decrement both requests, flag
full-match when a remainder reaches zero, and bump the cycle pair counter. -/
def applyMatch (cycle_id now : Nat) (db : DB) (t : Nat × Nat × ℤ) : DB :=
  let pair := newMatchPair cycle_id now db.next_id t
  let db1 := { db with
    pairs := db.pairs ++ [pair]
    next_id := db.next_id + 1 }
  let db2 :=
    match findFunding db1 t.1 with
    | none => db1
    | some _ =>
      updFunding db1 t.1 (settleFundingSlice cycle_id now t.2.2)
  let db3 :=
    match findWithdrawal db2 t.2.1 with
    | none => db2
    | some _ =>
      updWithdrawal db2 t.2.1 (settleWithdrawalSlice cycle_id now t.2.2)
  updCycle db3 cycle_id (fun c => { c with matched_pairs := c.matched_pairs + 1 })

/-- One currency batch of `run_merge_cycle`.  Step 3 of the python loop, the
admin wallet fallback, is a comment in the source ("FUTURE IMPLEMENTATION"):
unmatched requests are only counted, never matched against the pool. -/
def processCurrency (cycle_id now : Nat) (db : DB) (currency : String) : DB :=
  match findCycle db cycle_id with
  | none => db
  | some cycle =>
    let funding_requests := eligibleFunding db currency cycle.cutoff_time
    let withdrawal_requests := eligibleWithdrawal db currency cycle.cutoff_time
    let db1 := updCycle db cycle_id (fun c =>
      { c with
        total_funding_requests :=
          c.total_funding_requests + funding_requests.length
        total_withdrawal_requests :=
          c.total_withdrawal_requests + withdrawal_requests.length })
    if funding_requests.isEmpty && withdrawal_requests.isEmpty then db1
    else
      let user_matches := smart_match_requests
        (funding_requests.map (fun f => (f.id, f.amount_remaining)))
        (withdrawal_requests.map (fun w => (w.id, w.amount_remaining)))
      let db2 := user_matches.foldl (applyMatch cycle_id now) db1
      let fids := funding_requests.map (fun f => f.id)
      let wids := withdrawal_requests.map (fun w => w.id)
      let unmatched_funding := db2.funding_requests.filter (fun f =>
        fids.contains f.id && decide (0 < f.amount_remaining))
      let unmatched_withdrawal := db2.withdrawal_requests.filter (fun w =>
        wids.contains w.id && decide (0 < w.amount_remaining))
      updCycle db2 cycle_id (fun c =>
        { c with
          unmatched_funding := c.unmatched_funding + unmatched_funding.length
          unmatched_withdrawal :=
            c.unmatched_withdrawal + unmatched_withdrawal.length })

/-- `run_merge_cycle`: the idempotency guard (`status == "pending"`), the
two currency batches, and the final completion stamp.  The `failed` status is
only reachable through the python exception handler, which has no counterpart
in the pure embedding. -/
def run_merge_cycle (db : DB) (cycle_id now : Nat) : DB :=
  match findCycle db cycle_id with
  | none => db
  | some cycle =>
    if cycle.status != "pending" then db
    else
      let db1 := updCycle db cycle_id (fun c =>
        { c with
          status := "processing"
          started_at := some now })
      let db2 := ["NAIRA", "USDT"].foldl (processCurrency cycle_id now) db1
      updCycle db2 cycle_id (fun c =>
        { c with
          status := "completed"
          completed_at := some now })

/-! ### The operations of the system, as one step relation -/

/-- The state-mutating operations of the matching core. -/
inductive Op where
  | uploadProof (pair_id now : Nat) (url : String)
  | confirmProof (pair_id now : Nat)
  | requestExtension (pair_id now : Nat)
  | sweepDeadlines (now : Nat)
  | cancelFunding (request_id now : Nat)
  | cancelWithdrawal (request_id now : Nat)
  | mergeCycle (cycle_id now : Nat)
  deriving Repr, DecidableEq

/-- State effect of one operation (discarding the response value). -/
def applyOp (op : Op) (db : DB) : DB :=
  match op with
  | .uploadProof pair_id now url => (upload_proof db pair_id now url).1
  | .confirmProof pair_id now => (confirm_proof db pair_id now).1
  | .requestExtension pair_id now => (request_extension db pair_id now).1
  | .sweepDeadlines now => check_expired_deadlines db now
  | .cancelFunding request_id now => (cancel_funding_request db request_id now).1
  | .cancelWithdrawal request_id now =>
      (cancel_withdrawal_request db request_id now).1
  | .mergeCycle cycle_id now => run_merge_cycle db cycle_id now

/-! ### Generic lemmas about the row queries and row updates -/

theorem find?_map_update {α : Type} (l : List α) (idOf : α → Nat) (i j : Nat)
    (g : α → α) (hg : ∀ x, idOf (g x) = idOf x) :
    (l.map (fun x => if idOf x == i then g x else x)).find?
        (fun x => idOf x == j) =
      (l.find? (fun x => idOf x == j)).map
        (fun x => if idOf x == i then g x else x) := by
  rw [List.find?_map]
  have hpred : ((fun x => idOf x == j) ∘
      fun x => if (idOf x == i) = true then g x else x) =
      (fun x => idOf x == j) := by
    funext x
    by_cases h : (idOf x == i) = true <;> simp [Function.comp, h, hg]
  rw [hpred]

theorem findWallet_updWallet (db : DB) (i j : Nat) (g : Wallet → Wallet)
    (hg : ∀ w, (g w).id = w.id) :
    findWallet (updWallet db i g) j =
      (findWallet db j).map (fun w => if w.id == i then g w else w) :=
  find?_map_update db.wallets (fun w => w.id) i j g hg

theorem findFunding_updFunding (db : DB) (i j : Nat)
    (g : FundingRequest → FundingRequest) (hg : ∀ r, (g r).id = r.id) :
    findFunding (updFunding db i g) j =
      (findFunding db j).map (fun r => if r.id == i then g r else r) :=
  find?_map_update db.funding_requests (fun r => r.id) i j g hg

theorem findWithdrawal_updWithdrawal (db : DB) (i j : Nat)
    (g : WithdrawalRequest → WithdrawalRequest) (hg : ∀ r, (g r).id = r.id) :
    findWithdrawal (updWithdrawal db i g) j =
      (findWithdrawal db j).map (fun r => if r.id == i then g r else r) :=
  find?_map_update db.withdrawal_requests (fun r => r.id) i j g hg

theorem findPair_updPair (db : DB) (i j : Nat)
    (g : FundingMatchPair → FundingMatchPair) (hg : ∀ p, (g p).id = p.id) :
    findPair (updPair db i g) j =
      (findPair db j).map (fun p => if p.id == i then g p else p) :=
  find?_map_update db.pairs (fun p => p.id) i j g hg

theorem findCycle_updCycle (db : DB) (i j : Nat)
    (g : MergeCycle → MergeCycle) (hg : ∀ c, (g c).id = c.id) :
    findCycle (updCycle db i g) j =
      (findCycle db j).map (fun c => if c.id == i then g c else c) :=
  find?_map_update db.merge_cycles (fun c => c.id) i j g hg

/-! Row updates leave every other table untouched; these equalities are all
definitional. -/

theorem findWallet_updPair (db : DB) (i : Nat) (g : FundingMatchPair →
    FundingMatchPair) (j : Nat) : findWallet (updPair db i g) j =
    findWallet db j := rfl

theorem findWallet_updFunding (db : DB) (i : Nat) (g : FundingRequest →
    FundingRequest) (j : Nat) : findWallet (updFunding db i g) j =
    findWallet db j := rfl

theorem findWallet_updWithdrawal (db : DB) (i : Nat)
    (g : WithdrawalRequest → WithdrawalRequest) (j : Nat) :
    findWallet (updWithdrawal db i g) j = findWallet db j := rfl

theorem findWallet_updCycle (db : DB) (i : Nat) (g : MergeCycle → MergeCycle)
    (j : Nat) : findWallet (updCycle db i g) j = findWallet db j := rfl

theorem findWallet_withLogs (db : DB) (L : List WalletLog) (j : Nat) :
    findWallet { db with wallet_logs := L } j = findWallet db j := rfl

theorem findFunding_updPair (db : DB) (i : Nat) (g : FundingMatchPair →
    FundingMatchPair) (j : Nat) : findFunding (updPair db i g) j =
    findFunding db j := rfl

theorem findFunding_updWallet (db : DB) (i : Nat) (g : Wallet → Wallet)
    (j : Nat) : findFunding (updWallet db i g) j = findFunding db j := rfl

theorem findFunding_updWithdrawal (db : DB) (i : Nat)
    (g : WithdrawalRequest → WithdrawalRequest) (j : Nat) :
    findFunding (updWithdrawal db i g) j = findFunding db j := rfl

theorem findFunding_updCycle (db : DB) (i : Nat) (g : MergeCycle → MergeCycle)
    (j : Nat) : findFunding (updCycle db i g) j = findFunding db j := rfl

theorem findFunding_withLogs (db : DB) (L : List WalletLog) (j : Nat) :
    findFunding { db with wallet_logs := L } j = findFunding db j := rfl

theorem findWithdrawal_updPair (db : DB) (i : Nat) (g : FundingMatchPair →
    FundingMatchPair) (j : Nat) : findWithdrawal (updPair db i g) j =
    findWithdrawal db j := rfl

theorem findWithdrawal_updWallet (db : DB) (i : Nat) (g : Wallet → Wallet)
    (j : Nat) : findWithdrawal (updWallet db i g) j = findWithdrawal db j :=
  rfl

theorem findWithdrawal_updFunding (db : DB) (i : Nat) (g : FundingRequest →
    FundingRequest) (j : Nat) : findWithdrawal (updFunding db i g) j =
    findWithdrawal db j := rfl

theorem findWithdrawal_updCycle (db : DB) (i : Nat)
    (g : MergeCycle → MergeCycle) (j : Nat) :
    findWithdrawal (updCycle db i g) j = findWithdrawal db j := rfl

theorem findWithdrawal_withLogs (db : DB) (L : List WalletLog) (j : Nat) :
    findWithdrawal { db with wallet_logs := L } j = findWithdrawal db j := rfl

theorem findPair_updWallet (db : DB) (i : Nat) (g : Wallet → Wallet)
    (j : Nat) : findPair (updWallet db i g) j = findPair db j := rfl

theorem findPair_updFunding (db : DB) (i : Nat) (g : FundingRequest →
    FundingRequest) (j : Nat) : findPair (updFunding db i g) j =
    findPair db j := rfl

theorem findPair_updWithdrawal (db : DB) (i : Nat)
    (g : WithdrawalRequest → WithdrawalRequest) (j : Nat) :
    findPair (updWithdrawal db i g) j = findPair db j := rfl

theorem findPair_updCycle (db : DB) (i : Nat) (g : MergeCycle → MergeCycle)
    (j : Nat) : findPair (updCycle db i g) j = findPair db j := rfl

theorem findPair_withLogs (db : DB) (L : List WalletLog) (j : Nat) :
    findPair { db with wallet_logs := L } j = findPair db j := rfl

theorem updWallet_pairs (db : DB) (i : Nat) (g : Wallet → Wallet) :
    (updWallet db i g).pairs = db.pairs := rfl

theorem updFunding_pairs (db : DB) (i : Nat)
    (g : FundingRequest → FundingRequest) :
    (updFunding db i g).pairs = db.pairs := rfl

theorem updWithdrawal_pairs (db : DB) (i : Nat)
    (g : WithdrawalRequest → WithdrawalRequest) :
    (updWithdrawal db i g).pairs = db.pairs := rfl

theorem updCycle_pairs (db : DB) (i : Nat) (g : MergeCycle → MergeCycle) :
    (updCycle db i g).pairs = db.pairs := rfl

theorem withLogs_pairs (db : DB) (L : List WalletLog) :
    ({ db with wallet_logs := L } : DB).pairs = db.pairs := rfl

theorem updPair_pairs (db : DB) (i : Nat)
    (g : FundingMatchPair → FundingMatchPair) :
    (updPair db i g).pairs = db.pairs.map (fun p =>
      if p.id == i then g p else p) := rfl

theorem findWallet_id {db : DB} {i : Nat} {w : Wallet}
    (h : findWallet db i = some w) : w.id = i := by
  have := List.find?_some h
  simpa using this

theorem findWallet_mem {db : DB} {i : Nat} {w : Wallet}
    (h : findWallet db i = some w) : w ∈ db.wallets :=
  List.mem_of_find?_eq_some h

theorem findFunding_id {db : DB} {i : Nat} {r : FundingRequest}
    (h : findFunding db i = some r) : r.id = i := by
  have := List.find?_some h
  simpa using this

theorem findFunding_mem {db : DB} {i : Nat} {r : FundingRequest}
    (h : findFunding db i = some r) : r ∈ db.funding_requests :=
  List.mem_of_find?_eq_some h

theorem findWithdrawal_id {db : DB} {i : Nat} {r : WithdrawalRequest}
    (h : findWithdrawal db i = some r) : r.id = i := by
  have := List.find?_some h
  simpa using this

theorem findWithdrawal_mem {db : DB} {i : Nat} {r : WithdrawalRequest}
    (h : findWithdrawal db i = some r) : r ∈ db.withdrawal_requests :=
  List.mem_of_find?_eq_some h

theorem findPair_id {db : DB} {i : Nat} {p : FundingMatchPair}
    (h : findPair db i = some p) : p.id = i := by
  have := List.find?_some h
  simpa using this

theorem findPair_mem {db : DB} {i : Nat} {p : FundingMatchPair}
    (h : findPair db i = some p) : p ∈ db.pairs :=
  List.mem_of_find?_eq_some h

theorem findCycle_id {db : DB} {i : Nat} {c : MergeCycle}
    (h : findCycle db i = some c) : c.id = i := by
  have := List.find?_some h
  simpa using this

theorem findCycle_mem {db : DB} {i : Nat} {c : MergeCycle}
    (h : findCycle db i = some c) : c ∈ db.merge_cycles :=
  List.mem_of_find?_eq_some h

/-! ### Shape of the pairs table under each operation -/

theorem foldl_inv {β : Type} (step : DB → β → DB) (Q : DB → Prop)
    (hstep : ∀ d x, Q d → Q (step d x)) :
    ∀ (xs : List β) (d : DB), Q d → Q (xs.foldl step d) := by
  intro xs
  induction xs with
  | nil => intro d h; exact h
  | cons x xs ih => intro d h; exact ih _ (hstep d x h)

theorem uploadProofLate_pairs (db : DB) (pair : FundingMatchPair)
    (funding_req : FundingRequest) (pair_id : Nat) :
    (uploadProofLate db pair funding_req pair_id).pairs =
      db.pairs.map (fun p =>
        if p.id == pair_id then flagFunderMissed p else p) := by
  simp only [uploadProofLate]
  split <;> rfl

theorem expiredProofStep_pairs (db : DB) (pid : Nat) :
    (expiredProofStep db pid).pairs =
      db.pairs.map (fun p => if p.id == pid then flagFunderMissed p else p) := by
  simp only [expiredProofStep]
  repeat' split
  all_goals rfl

theorem expiredConfirmationStep_pairs (db : DB) (pid : Nat) :
    (expiredConfirmationStep db pid).pairs =
      db.pairs.map (fun p =>
        if p.id == pid then flagWithdrawerMissed p else p) := by
  simp only [expiredConfirmationStep]
  repeat' split
  all_goals rfl

theorem applyMatch_pairs (cycle_id now : Nat) (db : DB) (t : Nat × Nat × ℤ) :
    (applyMatch cycle_id now db t).pairs =
      db.pairs ++ [newMatchPair cycle_id now db.next_id t] := by
  simp only [applyMatch]
  repeat' split
  all_goals rfl

/-! ### Concrete fixtures for counterexamples and witnesses -/

/-- Funder wallet. -/
def walletF : Wallet :=
  { id := 1
    currency := "NAIRA"
    balance := 0
    total_deposited := 0
    is_blocked := false
    block_reason := none }

/-- Withdrawer wallet. -/
def walletW : Wallet :=
  { id := 2
    currency := "NAIRA"
    balance := 0
    total_deposited := 0
    is_blocked := false
    block_reason := none }

/-- A fully matched funding request of 5000. -/
def fundingA : FundingRequest :=
  { id := 10
    wallet_id := 1
    amount := 5000
    amount_remaining := 0
    is_fully_matched := true
    is_completed := false
    opted_in := false
    opted_in_at := none
    merge_cycle_id := some 100
    requested_at := 0
    matched_at := some 0 }

/-- A fully matched withdrawal request of 5000. -/
def withdrawalA : WithdrawalRequest :=
  { id := 20
    wallet_id := 2
    amount := 5000
    amount_remaining := 0
    is_fully_matched := true
    is_completed := false
    opted_in := false
    opted_in_at := none
    merge_cycle_id := some 100
    requested_at := 0
    matched_at := some 0
    is_priority := false
    priority_timestamp := none
    failed_match_count := 0 }

/-- The match pair linking `fundingA` and `withdrawalA`, proof not yet
uploaded, proof deadline 4 hours after creation. -/
def pairA : FundingMatchPair :=
  { id := 1
    funding_request_id := 10
    withdrawal_request_id := 20
    merge_cycle_id := 100
    amount := 5000
    proof_uploaded := false
    proof_url := none
    proof_uploaded_at := none
    proof_confirmed := false
    proof_confirmed_at := none
    completed_at := none
    proof_deadline := some 14400
    confirmation_deadline := none
    extension_requested := false
    extension_granted := false
    extended_deadline := none
    funder_missed_deadline := false
    withdrawer_missed_deadline := false
    created_at := 0 }

/-- State after one merge cycle matched `fundingA` against `withdrawalA`. -/
def dbPair : DB :=
  { wallets := [walletF, walletW]
    funding_requests := [fundingA]
    withdrawal_requests := [withdrawalA]
    pairs := [pairA]
    merge_cycles := []
    admin_wallets := []
    wallet_logs := []
    next_id := 1000 }

/-- C4.  The one-time extension is granted as specified
(`extended_deadline = proof_deadline + 1h`, second request rejected), but
`upload_proof` checks only the original `proof_deadline`: an upload at
`now = 15000`, inside the granted window (14400 < 15000 ≤ 18000), is
rejected through the punitive deadline branch and the funder wallet is
blocked, contradicting both the spec and the code own extension feature. -/
theorem extension_granted_but_ignored_by_upload :
    (request_extension dbPair 1 100).2 = ExtensionResult.ok ∧
      ((findPair (request_extension dbPair 1 100).1 1).map
        (fun p => p.extended_deadline)) = some (some 18000) ∧
      (request_extension (request_extension dbPair 1 100).1 1 200).2 =
        ExtensionResult.alreadyRequested ∧
      (14400 < 15000 ∧ 15000 ≤ 18000) ∧
      (upload_proof (request_extension dbPair 1 100).1 1 15000 "p.jpg").2 =
        UploadProofResult.deadlinePassed ∧
      ((findWallet
          (upload_proof (request_extension dbPair 1 100).1 1 15000 "p.jpg").1
          1).map (fun w => w.is_blocked)) = some true := by
  decide

/-- C2 counterexample.  Running the Deadline Enforcer sweep on an expired,
unuploaded pair flags the pair and blocks the funder wallet, but does NOT
restore the pair amount onto the withdrawal request: `amount_remaining`
stays 0 instead of becoming 5000. -/
theorem sweep_does_not_restore_withdrawal :
    ((findPair (check_expired_deadlines dbPair 15000) 1).map
        (fun p => p.funder_missed_deadline)) = some true ∧
      ((findWallet (check_expired_deadlines dbPair 15000) 1).map
        (fun w => w.is_blocked)) = some true ∧
      ((findWithdrawal (check_expired_deadlines dbPair 15000) 20).map
        (fun w => w.amount_remaining)) = some 0 ∧
      pairA.amount = 5000 ∧ (0 : ℤ) ≠ 0 + 5000 := by
  decide

/-- C5 counterexample.  The late branch of `upload_proof` increases the
withdrawal request `amount_remaining` (0 to 5000 on the first late attempt),
and a second late attempt on the same pair restores again, pushing
`amount_remaining` to 10000, above the original `amount = 5000`. -/
theorem late_upload_increases_amount_remaining :
    ((findWithdrawal dbPair 20).map (fun w => w.amount_remaining)) =
        some 0 ∧
      ((findWithdrawal (upload_proof dbPair 1 15000 "p.jpg").1 20).map
        (fun w => w.amount_remaining)) = some 5000 ∧
      ((findWithdrawal
          (upload_proof (upload_proof dbPair 1 15000 "p.jpg").1
            1 15000 "p.jpg").1 20).map
        (fun w => w.amount_remaining)) = some 10000 ∧
      ((findWithdrawal dbPair 20).map (fun w => w.amount)) = some 5000 ∧
      ¬ ((0 : ℤ) ≥ 5000) ∧ ¬ ((10000 : ℤ) ≤ 5000) := by
  decide

/-- C6 counterexample.  Invoking `upload_proof` after the proof deadline is
a synchronous rejection, yet it does not leave state unchanged: the funder
wallet flips from unblocked to blocked (and the pair and withdrawal request
are also mutated) before the error is returned. -/
theorem late_upload_rejection_mutates_state :
    (upload_proof dbPair 1 15000 "p.jpg").2 =
        UploadProofResult.deadlinePassed ∧
      ((findWallet dbPair 1).map (fun w => w.is_blocked)) = some false ∧
      ((findWallet (upload_proof dbPair 1 15000 "p.jpg").1 1).map
        (fun w => w.is_blocked)) = some true ∧
      (upload_proof dbPair 1 15000 "p.jpg").1 ≠ dbPair := by
  decide

/-- A partially matched funding request: 3000 of 7000 matched, so
`is_fully_matched = false` and `matched_at = none` even though a pair
references it. -/
def fundingB : FundingRequest :=
  { id := 11
    wallet_id := 1
    amount := 7000
    amount_remaining := 4000
    is_fully_matched := false
    is_completed := false
    opted_in := false
    opted_in_at := none
    merge_cycle_id := none
    requested_at := 0
    matched_at := none }

/-- The pair that partially matched `fundingB`. -/
def pairB : FundingMatchPair :=
  { pairA with id := 2, funding_request_id := 11, amount := 3000 }

/-- A pending merge cycle whose cutoff is still ahead. -/
def cycleB : MergeCycle :=
  { id := 200
    scheduled_time := 10000
    cutoff_time := 9400
    status := "pending"
    total_funding_requests := 0
    total_withdrawal_requests := 0
    matched_pairs := 0
    unmatched_funding := 0
    unmatched_withdrawal := 0
    started_at := none
    completed_at := none }

/-- State with a partially matched funding request before cutoff. -/
def dbPartial : DB :=
  { dbPair with
    funding_requests := [fundingB]
    pairs := [pairB]
    merge_cycles := [cycleB] }

/-- C7 counterexample.  A request that was matched in a pair but only
partially (positive `amount_remaining`, `is_fully_matched = false`,
`matched_at = none`) CAN be cancelled before cutoff: the code only rejects on
the full-match flags, so the deletion succeeds although a match pair
references the request. -/
theorem partially_matched_request_cancellable :
    ((findFunding dbPartial 11).map (fun r => r.amount_remaining)) =
        some 4000 ∧
      ((findFunding dbPartial 11).map (fun r => r.amount)) = some 7000 ∧
      (∃ p ∈ dbPartial.pairs, p.funding_request_id = 11) ∧
      (100 : Nat) < 9400 ∧
      (cancel_funding_request dbPartial 11 100).2 = CancelResult.ok ∧
      findFunding (cancel_funding_request dbPartial 11 100).1 11 = none := by
  decide

/-- A withdrawal request of 5000 still waiting to be matched. -/
def withdrawalC : WithdrawalRequest :=
  { withdrawalA with
    amount_remaining := 5000
    is_fully_matched := false
    matched_at := none
    merge_cycle_id := none
    requested_at := 100 }

/-- The NAIRA admin liquidity pool, holding 10000. -/
def adminNaira : AdminWallet :=
  { wallet_type := "funding_pool"
    currency := "NAIRA"
    balance := 10000
    total_funded := 0
    total_received := 0 }

/-- The pending cycle the orchestrator is about to run. -/
def cycleC : MergeCycle := { cycleB with id := 100 }

/-- State entering a merge cycle with one unmatched withdrawal of 5000, no
funders, and an admin pool balance of 10000 that could cover it. -/
def dbLeftover : DB :=
  { wallets := [walletW]
    funding_requests := []
    withdrawal_requests := [withdrawalC]
    pairs := []
    merge_cycles := [cycleC]
    admin_wallets := [adminNaira]
    wallet_logs := []
    next_id := 1000 }

/-- C3 counterexample.  After the peer-matching step of `run_merge_cycle`
the leftover withdrawal request is NOT satisfied from the admin pool even
though the pool balance (10000) covers its remaining 5000: the request rolls
over with `amount_remaining` still 5000 and the pool is untouched (the admin
fallback is a "FUTURE IMPLEMENTATION" comment in the orchestrator). -/
theorem merge_cycle_ignores_admin_pool :
    (0 : ℤ) < 5000 ∧ (5000 : ℤ) ≤ adminNaira.balance ∧
      ((findWithdrawal (run_merge_cycle dbLeftover 100 10000) 20).map
        (fun w => w.amount_remaining)) = some 5000 ∧
      (run_merge_cycle dbLeftover 100 10000).admin_wallets = [adminNaira] ∧
      ((findCycle (run_merge_cycle dbLeftover 100 10000) 100).map
        (fun c => c.status)) = some "completed" := by
  norm_num [run_merge_cycle, findCycle, processCurrency, eligibleFunding,
    eligibleWithdrawal, walletCurrency, findWallet, findWithdrawal,
    findAdminWallet, updCycle, updWithdrawal, smart_match_requests,
    sortByRemaining, smartMatchLoop, applyMatch, dbLeftover, withdrawalC,
    withdrawalA, adminNaira, cycleC, cycleB, walletW, List.find?, List.filter,
    List.insertionSort, List.orderedInsert]
  decide

/-! ### Analysis of the confirm-proof success path -/

theorem findWithdrawal_updWithdrawal_complete (db : DB) (i j : Nat) :
    findWithdrawal (updWithdrawal db i completeWithdrawal) j =
      (findWithdrawal db j).map (fun r =>
        if r.id == i then completeWithdrawal r else r) :=
  findWithdrawal_updWithdrawal db i j completeWithdrawal (fun _ => rfl)

theorem confirmProofOk_findWallet (db : DB) (pair : FundingMatchPair)
    (wr : WithdrawalRequest) (fr : FundingRequest) (pair_id now j : Nat) :
    findWallet (confirmProofOk db pair wr fr pair_id now) j =
      findWallet (updWallet (updWallet (updPair db pair_id
        (confirmPairStamp now)) fr.wallet_id (creditWallet pair.amount))
        wr.wallet_id (debitWallet pair.amount)) j := by
  simp only [confirmProofOk]
  rw [apply_ite (fun d => findWallet d j)]
  simp only [findWallet_updWithdrawal, ite_self]
  rw [apply_ite (fun d => findWallet d j)]
  simp only [findWallet_updFunding, ite_self, findWallet_withLogs]

theorem confirmProofOk_pairs (db : DB) (pair : FundingMatchPair)
    (wr : WithdrawalRequest) (fr : FundingRequest) (pair_id now : Nat) :
    (confirmProofOk db pair wr fr pair_id now).pairs =
      (updPair db pair_id (confirmPairStamp now)).pairs := by
  simp only [confirmProofOk]
  rw [apply_ite (fun d : DB => d.pairs)]
  simp only [updWithdrawal_pairs, ite_self]
  rw [apply_ite (fun d : DB => d.pairs)]
  simp only [updFunding_pairs, ite_self, withLogs_pairs, updWallet_pairs]

theorem confirmProofOk_findPair (db : DB) (pair : FundingMatchPair)
    (wr : WithdrawalRequest) (fr : FundingRequest) (pair_id now j : Nat) :
    findPair (confirmProofOk db pair wr fr pair_id now) j =
      findPair (updPair db pair_id (confirmPairStamp now)) j := by
  simp only [confirmProofOk]
  simp only [apply_ite (fun d => findPair d j), findPair_updWithdrawal,
    findPair_updFunding, findPair_withLogs, findPair_updWallet, ite_self]

theorem confirmProofOk_findFunding (db : DB) (pair : FundingMatchPair)
    (wr : WithdrawalRequest) (fr : FundingRequest) (pair_id now j : Nat) :
    findFunding (confirmProofOk db pair wr fr pair_id now) j =
      if ((updPair db pair_id (confirmPairStamp now)).pairs.filter
          (fun p => p.funding_request_id == fr.id)).all
          (fun p => p.proof_confirmed) then
        findFunding (updFunding db fr.id completeFunding) j
      else findFunding db j := by
  simp only [confirmProofOk]
  rw [apply_ite (fun d => findFunding d j)]
  simp only [findFunding_updWithdrawal, ite_self]
  simp only [apply_ite (fun d : DB => d.pairs), updFunding_pairs, ite_self,
    withLogs_pairs, updWallet_pairs, updPair_pairs]
  split <;> rfl

theorem confirmProofOk_findWithdrawal (db : DB) (pair : FundingMatchPair)
    (wr : WithdrawalRequest) (fr : FundingRequest) (pair_id now j : Nat) :
    findWithdrawal (confirmProofOk db pair wr fr pair_id now) j =
      if ((updPair db pair_id (confirmPairStamp now)).pairs.filter
          (fun p => p.withdrawal_request_id == wr.id)).all
          (fun p => p.proof_confirmed) then
        findWithdrawal (updWithdrawal db wr.id completeWithdrawal) j
      else findWithdrawal db j := by
  simp only [confirmProofOk]
  simp only [apply_ite (fun d : DB => d.pairs), updFunding_pairs, ite_self,
    withLogs_pairs, updWallet_pairs]
  simp only [apply_ite (fun d => findWithdrawal d j),
    apply_ite (fun d =>
      findWithdrawal (updWithdrawal d wr.id completeWithdrawal) j),
    findWithdrawal_updWithdrawal_complete, findWithdrawal_updFunding,
    findWithdrawal_updWallet, findWithdrawal_updPair,
    findWithdrawal_withLogs, ite_self]
  rfl

/-- Effects of a successful `confirm_proof`: response `ok`, funder wallet
credited, withdrawer wallet debited, pair confirmed, and each parent request
completed when all of its pairs are confirmed. -/
theorem confirm_ok_core
    (db : DB) (pair_id now : Nat) (pair : FundingMatchPair)
    (wr : WithdrawalRequest) (wwal : Wallet) (fr : FundingRequest)
    (fwal : Wallet)
    (hp : findPair db pair_id = some pair)
    (hwr : findWithdrawal db pair.withdrawal_request_id = some wr)
    (hww : findWallet db wr.wallet_id = some wwal)
    (hup : pair.proof_uploaded = true)
    (hnc : pair.proof_confirmed = false)
    (hdl : ∀ dl, pair.confirmation_deadline = some dl → now ≤ dl)
    (hfr : findFunding db pair.funding_request_id = some fr)
    (hfw : findWallet db fr.wallet_id = some fwal)
    (hne : fr.wallet_id ≠ wr.wallet_id) :
    (confirm_proof db pair_id now).2 = ConfirmProofResult.ok ∧
      ((findWallet (confirm_proof db pair_id now).1 fr.wallet_id).map
        (fun w => w.balance)) = some (fwal.balance + pair.amount) ∧
      ((findWallet (confirm_proof db pair_id now).1 wr.wallet_id).map
        (fun w => w.balance)) = some (wwal.balance - pair.amount) ∧
      ((findPair (confirm_proof db pair_id now).1 pair_id).map
        (fun p => p.proof_confirmed)) = some true ∧
      (((confirm_proof db pair_id now).1.pairs.filter
            (fun p => p.funding_request_id == fr.id)).all
          (fun p => p.proof_confirmed) = true →
        ((findFunding (confirm_proof db pair_id now).1 fr.id).map
          (fun r => r.is_completed)) = some true) ∧
      (((confirm_proof db pair_id now).1.pairs.filter
            (fun p => p.withdrawal_request_id == wr.id)).all
          (fun p => p.proof_confirmed) = true →
        ((findWithdrawal (confirm_proof db pair_id now).1 wr.id).map
          (fun r => r.is_completed)) = some true) := by
  have hdlb : (match pair.confirmation_deadline with
      | some dl => decide (now > dl)
      | none => false) = false := by
    cases h : pair.confirmation_deadline with
    | none => rfl
    | some dl =>
      simp only [decide_eq_false_iff_not, Nat.not_lt]
      exact hdl dl h
  have hpid : pair.id = pair_id := findPair_id hp
  have hwid : wr.id = pair.withdrawal_request_id := findWithdrawal_id hwr
  have hfid : fr.id = pair.funding_request_id := findFunding_id hfr
  have hwwid : wwal.id = wr.wallet_id := findWallet_id hww
  have hfwid : fwal.id = fr.wallet_id := findWallet_id hfw
  have hrun : confirm_proof db pair_id now =
      (confirmProofOk db pair wr fr pair_id now, ConfirmProofResult.ok) := by
    simp only [confirm_proof, hp, hwr, hww, hfr, hfw, hup, hnc, hdlb,
      Bool.not_true, Bool.false_eq_true, if_false, ite_false]
  have h2 : (findWallet (confirmProofOk db pair wr fr pair_id now)
      fr.wallet_id).map (fun w => w.balance) =
      some (fwal.balance + pair.amount) := by
    rw [confirmProofOk_findWallet,
      findWallet_updWallet _ wr.wallet_id fr.wallet_id
        (debitWallet pair.amount) (fun _ => rfl),
      findWallet_updWallet _ fr.wallet_id fr.wallet_id
        (creditWallet pair.amount) (fun _ => rfl),
      findWallet_updPair, hfw]
    simp [hfwid, hne, creditWallet, debitWallet]
  have h3 : (findWallet (confirmProofOk db pair wr fr pair_id now)
      wr.wallet_id).map (fun w => w.balance) =
      some (wwal.balance - pair.amount) := by
    rw [confirmProofOk_findWallet,
      findWallet_updWallet _ wr.wallet_id wr.wallet_id
        (debitWallet pair.amount) (fun _ => rfl),
      findWallet_updWallet _ fr.wallet_id wr.wallet_id
        (creditWallet pair.amount) (fun _ => rfl),
      findWallet_updPair, hww]
    simp [hwwid, Ne.symm hne, creditWallet, debitWallet]
  have h4 : (findPair (confirmProofOk db pair wr fr pair_id now)
      pair_id).map (fun p => p.proof_confirmed) = some true := by
    rw [confirmProofOk_findPair,
      findPair_updPair _ pair_id pair_id (confirmPairStamp now)
        (fun _ => rfl), hp]
    simp [hpid, confirmPairStamp]
  have h5 : ((confirmProofOk db pair wr fr pair_id now).pairs.filter
        (fun p => p.funding_request_id == fr.id)).all
        (fun p => p.proof_confirmed) = true →
      (findFunding (confirmProofOk db pair wr fr pair_id now) fr.id).map
        (fun r => r.is_completed) = some true := by
    intro h
    rw [confirmProofOk_pairs] at h
    rw [confirmProofOk_findFunding, if_pos h,
      findFunding_updFunding _ fr.id fr.id completeFunding (fun _ => rfl),
      hfid, hfr]
    simp [hfid, completeFunding]
  have h6 : ((confirmProofOk db pair wr fr pair_id now).pairs.filter
        (fun p => p.withdrawal_request_id == wr.id)).all
        (fun p => p.proof_confirmed) = true →
      (findWithdrawal (confirmProofOk db pair wr fr pair_id now) wr.id).map
        (fun r => r.is_completed) = some true := by
    intro h
    rw [confirmProofOk_pairs] at h
    rw [confirmProofOk_findWithdrawal, if_pos h,
      findWithdrawal_updWithdrawal_complete, hwid, hwr]
    simp [hwid, completeWithdrawal]
  exact ⟨by rw [hrun], by rw [hrun]; exact h2, by rw [hrun]; exact h3,
    by rw [hrun]; exact h4, by rw [hrun]; exact h5, by rw [hrun]; exact h6⟩

/-! ### The guard invariant: a confirmed pair always carries an uploaded
proof -/

/-- `proof_confirmed` implies `proof_uploaded` on every pair of the
state. -/
def pairsConfirmedUploaded (db : DB) : Prop :=
  ∀ q ∈ db.pairs, q.proof_confirmed = true → q.proof_uploaded = true

theorem uploadOk_pairsCU (db : DB) (pair_id now : Nat) (url : String)
    (h : pairsConfirmedUploaded db) :
    pairsConfirmedUploaded (uploadProofOk db pair_id now url).1 := by
  intro q hq
  rcases List.mem_map.mp hq with ⟨p, hmem, rfl⟩
  by_cases hc : (p.id == pair_id) = true <;>
    simp [hc, stampProofUploaded]
  exact h p hmem

theorem uploadLate_pairsCU (db : DB) (pair : FundingMatchPair)
    (funding_req : FundingRequest) (pair_id : Nat)
    (h : pairsConfirmedUploaded db) :
    pairsConfirmedUploaded (uploadProofLate db pair funding_req pair_id) := by
  intro q hq
  rw [uploadProofLate_pairs] at hq
  rcases List.mem_map.mp hq with ⟨p, hmem, rfl⟩
  by_cases hc : (p.id == pair_id) = true <;>
    simp [hc, flagFunderMissed]
  · exact h p hmem
  · exact h p hmem

theorem upload_pairsConfirmedUploaded (db : DB) (pair_id now : Nat)
    (url : String) (h : pairsConfirmedUploaded db) :
    pairsConfirmedUploaded (upload_proof db pair_id now url).1 := by
  unfold upload_proof
  cases hp : findPair db pair_id with
  | none => exact h
  | some pair =>
    dsimp only
    cases hfr : findFunding db pair.funding_request_id with
    | none => exact h
    | some funding_req =>
      dsimp only
      cases hfw : findWallet db funding_req.wallet_id with
      | none => exact h
      | some wallet =>
        dsimp only
        by_cases hu : pair.proof_uploaded = true
        · rw [if_pos hu]; exact h
        · rw [if_neg hu]
          cases hdl : pair.proof_deadline with
          | none => exact uploadOk_pairsCU db pair_id now url h
          | some dl =>
            dsimp only
            by_cases hnd : now > dl
            · rw [if_pos hnd]
              exact uploadLate_pairsCU db pair funding_req pair_id h
            · rw [if_neg hnd]
              exact uploadOk_pairsCU db pair_id now url h

theorem extension_pairsConfirmedUploaded (db : DB) (pair_id now : Nat)
    (h : pairsConfirmedUploaded db) :
    pairsConfirmedUploaded (request_extension db pair_id now).1 := by
  unfold request_extension
  cases hp : findPair db pair_id with
  | none => exact h
  | some pair =>
    dsimp only
    cases hfr : findFunding db pair.funding_request_id with
    | none => exact h
    | some funding_req =>
      dsimp only
      cases hfw : findWallet db funding_req.wallet_id with
      | none => exact h
      | some wallet =>
        dsimp only
        by_cases hreq : pair.extension_requested = true
        · rw [if_pos hreq]; exact h
        · rw [if_neg hreq]
          by_cases hu : pair.proof_uploaded = true
          · rw [if_pos hu]; exact h
          · rw [if_neg hu]
            cases hdl : pair.proof_deadline with
            | none => exact h
            | some dl =>
              dsimp only
              by_cases hnd : now > dl
              · rw [if_pos hnd]; exact h
              · rw [if_neg hnd]
                intro q hq
                rcases List.mem_map.mp hq with ⟨p, hmem, rfl⟩
                by_cases hc : (p.id == pair_id) = true <;>
                  simp [hc, grantExtension]
                · exact h p hmem
                · exact h p hmem

theorem confirmProofOk_pairsCU (db : DB) (pair : FundingMatchPair)
    (wr : WithdrawalRequest) (fr : FundingRequest) (pair_id now : Nat)
    (hpmem : pair ∈ db.pairs) (hpid : pair.id = pair_id)
    (hu : pair.proof_uploaded = true)
    (hnodup : (db.pairs.map (fun p => p.id)).Nodup)
    (h : pairsConfirmedUploaded db) :
    pairsConfirmedUploaded (confirmProofOk db pair wr fr pair_id now) := by
  intro q hq
  rw [confirmProofOk_pairs] at hq
  rcases List.mem_map.mp hq with ⟨p, hmem, rfl⟩
  by_cases hc : (p.id == pair_id) = true <;>
    simp [hc, confirmPairStamp]
  · have hpp : p = pair := by
      apply List.inj_on_of_nodup_map hnodup hmem hpmem
      rw [Nat.beq_eq_true_eq] at hc
      rw [hc, hpid]
    rw [hpp]
    exact hu
  · exact h p hmem

theorem confirm_pairsConfirmedUploaded (db : DB) (pair_id now : Nat)
    (hnodup : (db.pairs.map (fun p => p.id)).Nodup)
    (h : pairsConfirmedUploaded db) :
    pairsConfirmedUploaded (confirm_proof db pair_id now).1 := by
  unfold confirm_proof
  cases hp : findPair db pair_id with
  | none => exact h
  | some pair =>
    dsimp only
    cases hwr : findWithdrawal db pair.withdrawal_request_id with
    | none => exact h
    | some wr =>
      dsimp only
      cases hww : findWallet db wr.wallet_id with
      | none => exact h
      | some wwal =>
        dsimp only
        by_cases hu : (!pair.proof_uploaded) = true
        · rw [if_pos hu]; exact h
        · rw [if_neg hu]
          by_cases hcf : pair.proof_confirmed = true
          · rw [if_pos hcf]; exact h
          · rw [if_neg hcf]
            by_cases hdl : (match pair.confirmation_deadline with
                | some dl => decide (now > dl)
                | none => false) = true
            · rw [if_pos hdl]; exact h
            · rw [if_neg hdl]
              cases hfr : findFunding db pair.funding_request_id with
              | none => exact h
              | some fr =>
                dsimp only
                cases hfw : findWallet db fr.wallet_id with
                | none => exact h
                | some fwal =>
                  exact confirmProofOk_pairsCU db pair wr fr pair_id now
                    (findPair_mem hp) (findPair_id hp)
                    (by simpa using hu) hnodup h

theorem sweep_pairsConfirmedUploaded (db : DB) (now : Nat)
    (h : pairsConfirmedUploaded db) :
    pairsConfirmedUploaded (check_expired_deadlines db now) := by
  unfold check_expired_deadlines
  apply foldl_inv _ pairsConfirmedUploaded
  · intro d x hd
    intro q hq
    rw [expiredConfirmationStep_pairs] at hq
    rcases List.mem_map.mp hq with ⟨p, hmem, rfl⟩
    by_cases hc : (p.id == x) = true <;> simp [hc, flagWithdrawerMissed]
    · exact hd p hmem
    · exact hd p hmem
  · apply foldl_inv _ pairsConfirmedUploaded
    · intro d x hd
      intro q hq
      rw [expiredProofStep_pairs] at hq
      rcases List.mem_map.mp hq with ⟨p, hmem, rfl⟩
      by_cases hc : (p.id == x) = true <;> simp [hc, flagFunderMissed]
      · exact hd p hmem
      · exact hd p hmem
    · exact h

theorem cancelF_pairsConfirmedUploaded (db : DB) (request_id now : Nat)
    (h : pairsConfirmedUploaded db) :
    pairsConfirmedUploaded (cancel_funding_request db request_id now).1 := by
  unfold cancel_funding_request
  repeat' split
  all_goals exact h

theorem cancelW_pairsConfirmedUploaded (db : DB) (request_id now : Nat)
    (h : pairsConfirmedUploaded db) :
    pairsConfirmedUploaded
      (cancel_withdrawal_request db request_id now).1 := by
  unfold cancel_withdrawal_request
  repeat' split
  all_goals exact h

theorem applyMatch_pairsConfirmedUploaded (cycle_id now : Nat) (db : DB)
    (t : Nat × Nat × ℤ) (h : pairsConfirmedUploaded db) :
    pairsConfirmedUploaded (applyMatch cycle_id now db t) := by
  intro q hq
  rw [applyMatch_pairs] at hq
  rcases List.mem_append.mp hq with hmem | hmem
  · exact h q hmem
  · intro hc
    simp only [List.mem_singleton] at hmem
    subst hmem
    cases hc

theorem processCurrency_pairsConfirmedUploaded (cycle_id now : Nat)
    (db : DB) (currency : String) (h : pairsConfirmedUploaded db) :
    pairsConfirmedUploaded (processCurrency cycle_id now db currency) := by
  simp only [processCurrency]
  cases hc : findCycle db cycle_id with
  | none => exact h
  | some cycle =>
    dsimp only
    split
    · exact h
    · exact foldl_inv (applyMatch cycle_id now) pairsConfirmedUploaded
        (fun d x hd => applyMatch_pairsConfirmedUploaded cycle_id now d x hd)
        _ _ h

theorem merge_pairsConfirmedUploaded (db : DB) (cycle_id now : Nat)
    (h : pairsConfirmedUploaded db) :
    pairsConfirmedUploaded (run_merge_cycle db cycle_id now) := by
  simp only [run_merge_cycle]
  cases hc : findCycle db cycle_id with
  | none => exact h
  | some cycle =>
    dsimp only
    split
    · exact h
    · exact foldl_inv (processCurrency cycle_id now) pairsConfirmedUploaded
        (fun d x hd =>
          processCurrency_pairsConfirmedUploaded cycle_id now d x hd)
        _ _ h

/-- Every operation of the system preserves the invariant that a confirmed
pair carries an uploaded proof. -/
theorem applyOp_pairsConfirmedUploaded (op : Op) (db : DB)
    (hnodup : (db.pairs.map (fun p => p.id)).Nodup)
    (h : pairsConfirmedUploaded db) :
    pairsConfirmedUploaded (applyOp op db) := by
  cases op with
  | uploadProof pair_id now url =>
    exact upload_pairsConfirmedUploaded db pair_id now url h
  | confirmProof pair_id now =>
    exact confirm_pairsConfirmedUploaded db pair_id now hnodup h
  | requestExtension pair_id now =>
    exact extension_pairsConfirmedUploaded db pair_id now h
  | sweepDeadlines now => exact sweep_pairsConfirmedUploaded db now h
  | cancelFunding request_id now =>
    exact cancelF_pairsConfirmedUploaded db request_id now h
  | cancelWithdrawal request_id now =>
    exact cancelW_pairsConfirmedUploaded db request_id now h
  | mergeCycle cycle_id now =>
    exact merge_pairsConfirmedUploaded db cycle_id now h


/-! ### C9 and C10: the settlement transfer -/

/-- Pair of `dbPair` with proof uploaded and a pending confirmation
deadline. -/
def pairUp : FundingMatchPair :=
  { pairA with
    proof_uploaded := true
    proof_url := some "p.jpg"
    proof_uploaded_at := some 100
    confirmation_deadline := some 28800 }

/-- State awaiting confirmation. -/
def dbUploaded : DB := { dbPair with pairs := [pairUp] }

/-- C9.  For a pair with proof uploaded and not yet confirmed, a confirm
action before the confirmation deadline credits the funder wallet by the
pair amount, debits the withdrawer wallet by the same amount, marks the pair
confirmed, and sets `is_completed` on a parent request as soon as all of its
pairs are confirmed; moreover every operation of the system preserves the
invariant that `Confirmed` is reachable only with `proof_uploaded = true`. -/
theorem confirm_proof_settlement
    (db : DB) (pair_id now : Nat) (pair : FundingMatchPair)
    (wr : WithdrawalRequest) (wwal : Wallet) (fr : FundingRequest)
    (fwal : Wallet)
    (hp : findPair db pair_id = some pair)
    (hwr : findWithdrawal db pair.withdrawal_request_id = some wr)
    (hww : findWallet db wr.wallet_id = some wwal)
    (hup : pair.proof_uploaded = true)
    (hnc : pair.proof_confirmed = false)
    (hdl : ∀ dl, pair.confirmation_deadline = some dl → now ≤ dl)
    (hfr : findFunding db pair.funding_request_id = some fr)
    (hfw : findWallet db fr.wallet_id = some fwal)
    (hne : fr.wallet_id ≠ wr.wallet_id) :
    (confirm_proof db pair_id now).2 = ConfirmProofResult.ok ∧
      ((findWallet (confirm_proof db pair_id now).1 fr.wallet_id).map
        (fun w => w.balance)) = some (fwal.balance + pair.amount) ∧
      ((findWallet (confirm_proof db pair_id now).1 wr.wallet_id).map
        (fun w => w.balance)) = some (wwal.balance - pair.amount) ∧
      ((findPair (confirm_proof db pair_id now).1 pair_id).map
        (fun p => p.proof_confirmed)) = some true ∧
      (((confirm_proof db pair_id now).1.pairs.filter
            (fun p => p.funding_request_id == fr.id)).all
          (fun p => p.proof_confirmed) = true →
        ((findFunding (confirm_proof db pair_id now).1 fr.id).map
          (fun r => r.is_completed)) = some true) ∧
      (((confirm_proof db pair_id now).1.pairs.filter
            (fun p => p.withdrawal_request_id == wr.id)).all
          (fun p => p.proof_confirmed) = true →
        ((findWithdrawal (confirm_proof db pair_id now).1 wr.id).map
          (fun r => r.is_completed)) = some true) ∧
      (∀ (db2 : DB) (op : Op), (db2.pairs.map (fun p => p.id)).Nodup →
        pairsConfirmedUploaded db2 → pairsConfirmedUploaded (applyOp op db2)) := by
  obtain ⟨h1, h2, h3, h4, h5, h6⟩ :=
    confirm_ok_core db pair_id now pair wr wwal fr fwal hp hwr hww hup hnc
      hdl hfr hfw hne
  exact ⟨h1, h2, h3, h4, h5, h6,
    fun db2 op hn hinv => applyOp_pairsConfirmedUploaded op db2 hn hinv⟩

/-- Witness for C9 on the concrete `dbUploaded` state: confirmation at
`now = 20000`, before the deadline 28800. -/
theorem confirm_proof_settlement_witness :
    findPair dbUploaded 1 = some pairUp ∧
      pairUp.proof_uploaded = true ∧
      ((confirm_proof dbUploaded 1 20000).2 = ConfirmProofResult.ok ∧
        ((findWallet (confirm_proof dbUploaded 1 20000).1
            fundingA.wallet_id).map (fun w => w.balance)) =
          some (walletF.balance + pairUp.amount) ∧
        ((findWallet (confirm_proof dbUploaded 1 20000).1
            withdrawalA.wallet_id).map (fun w => w.balance)) =
          some (walletW.balance - pairUp.amount) ∧
        ((findPair (confirm_proof dbUploaded 1 20000).1 1).map
          (fun p => p.proof_confirmed)) = some true ∧
        (((confirm_proof dbUploaded 1 20000).1.pairs.filter
              (fun p => p.funding_request_id == fundingA.id)).all
            (fun p => p.proof_confirmed) = true →
          ((findFunding (confirm_proof dbUploaded 1 20000).1
            fundingA.id).map (fun r => r.is_completed)) = some true) ∧
        (((confirm_proof dbUploaded 1 20000).1.pairs.filter
              (fun p => p.withdrawal_request_id == withdrawalA.id)).all
            (fun p => p.proof_confirmed) = true →
          ((findWithdrawal (confirm_proof dbUploaded 1 20000).1
            withdrawalA.id).map (fun r => r.is_completed)) = some true) ∧
        (∀ (db2 : DB) (op : Op), (db2.pairs.map (fun p => p.id)).Nodup →
          pairsConfirmedUploaded db2 →
            pairsConfirmedUploaded (applyOp op db2))) :=
  ⟨by decide, by decide,
    confirm_proof_settlement dbUploaded 1 20000 pairUp withdrawalA walletW
      fundingA walletF (by decide) (by decide) (by decide) (by decide)
      (by decide)
      (fun dl hdla => by
        have : dl = 28800 := by
          have := hdla
          simp [pairUp, pairA] at this
          omega
        omega)
      (by decide) (by decide) (by decide)⟩

/-- C10.  `confirm_proof` places no lower bound on the withdrawer balance:
whenever the success guards hold and the withdrawer balance is below the
pair amount, the confirmation still succeeds and leaves the withdrawer
wallet negative; no error branch guards the debit. -/
theorem confirm_proof_no_balance_floor
    (db : DB) (pair_id now : Nat) (pair : FundingMatchPair)
    (wr : WithdrawalRequest) (wwal : Wallet) (fr : FundingRequest)
    (fwal : Wallet)
    (hp : findPair db pair_id = some pair)
    (hwr : findWithdrawal db pair.withdrawal_request_id = some wr)
    (hww : findWallet db wr.wallet_id = some wwal)
    (hup : pair.proof_uploaded = true)
    (hnc : pair.proof_confirmed = false)
    (hdl : ∀ dl, pair.confirmation_deadline = some dl → now ≤ dl)
    (hfr : findFunding db pair.funding_request_id = some fr)
    (hfw : findWallet db fr.wallet_id = some fwal)
    (hne : fr.wallet_id ≠ wr.wallet_id)
    (hlow : wwal.balance < pair.amount) :
    (confirm_proof db pair_id now).2 = ConfirmProofResult.ok ∧
      ((findWallet (confirm_proof db pair_id now).1 wr.wallet_id).map
        (fun w => w.balance)) = some (wwal.balance - pair.amount) ∧
      wwal.balance - pair.amount < 0 := by
  obtain ⟨h1, _, h3, _, _, _⟩ :=
    confirm_ok_core db pair_id now pair wr wwal fr fwal hp hwr hww hup hnc
      hdl hfr hfw hne
  exact ⟨h1, h3, by omega⟩

/-- Witness for C10: the withdrawer wallet holds 0 while the pair amount is
5000; confirmation succeeds and the balance lands at -5000. -/
theorem confirm_proof_no_balance_floor_witness :
    walletW.balance < pairUp.amount ∧
      ((confirm_proof dbUploaded 1 20000).2 = ConfirmProofResult.ok ∧
        ((findWallet (confirm_proof dbUploaded 1 20000).1
            withdrawalA.wallet_id).map (fun w => w.balance)) =
          some (walletW.balance - pairUp.amount) ∧
        walletW.balance - pairUp.amount < 0) :=
  ⟨by decide,
    confirm_proof_no_balance_floor dbUploaded 1 20000 pairUp withdrawalA
      walletW fundingA walletF (by decide) (by decide) (by decide)
      (by decide) (by decide)
      (fun dl hdla => by
        have : dl = 28800 := by
          have := hdla
          simp [pairUp, pairA] at this
          omega
        omega)
      (by decide) (by decide) (by decide) (by decide)⟩

/-! ### C8: cycle status is forward-only and non-pending cycles are inert -/

/-- Position of a cycle status on the `pending → processing →
\x7bcompleted, failed\x7d` axis. -/
def statusRank (s : String) : Nat :=
  if s == "pending" then 0
  else if s == "processing" then 1
  else 2

/-- The status of cycle `j`, when present. -/
def cycleStatus (db : DB) (j : Nat) : Option String :=
  (findCycle db j).map (fun c => c.status)

theorem statusRank_le_two (s : String) : statusRank s ≤ 2 := by
  simp only [statusRank]
  split
  · omega
  · split <;> omega

theorem cycleStatus_updCycle (db : DB) (i : Nat) (g : MergeCycle → MergeCycle)
    (hg : ∀ c, (g c).id = c.id) (hs : ∀ c, (g c).status = c.status) (j : Nat) :
    cycleStatus (updCycle db i g) j = cycleStatus db j := by
  simp only [cycleStatus]
  rw [findCycle_updCycle db i j g hg]
  cases findCycle db j with
  | none => rfl
  | some c =>
    simp only [Option.map_some']
    rw [apply_ite (fun x : MergeCycle => x.status), hs c, ite_self]

theorem cycleStatus_updCycle_counts1 (db : DB) (i A B j : Nat) :
    cycleStatus (updCycle db i (fun c =>
      { c with
        total_funding_requests := c.total_funding_requests + A
        total_withdrawal_requests := c.total_withdrawal_requests + B })) j =
      cycleStatus db j :=
  cycleStatus_updCycle db i
    (fun c =>
      { c with
        total_funding_requests := c.total_funding_requests + A
        total_withdrawal_requests := c.total_withdrawal_requests + B })
    (fun _ => rfl) (fun _ => rfl) j

theorem cycleStatus_updCycle_counts2 (db : DB) (i A B j : Nat) :
    cycleStatus (updCycle db i (fun c =>
      { c with
        unmatched_funding := c.unmatched_funding + A
        unmatched_withdrawal := c.unmatched_withdrawal + B })) j =
      cycleStatus db j :=
  cycleStatus_updCycle db i
    (fun c =>
      { c with
        unmatched_funding := c.unmatched_funding + A
        unmatched_withdrawal := c.unmatched_withdrawal + B })
    (fun _ => rfl) (fun _ => rfl) j

theorem cycleStatus_updCycle_matched (db : DB) (i j : Nat) :
    cycleStatus (updCycle db i (fun c =>
      { c with matched_pairs := c.matched_pairs + 1 })) j =
      cycleStatus db j :=
  cycleStatus_updCycle db i
    (fun c => { c with matched_pairs := c.matched_pairs + 1 })
    (fun _ => rfl) (fun _ => rfl) j

theorem applyMatch_cycleStatus (cycle_id now : Nat) (db : DB)
    (t : Nat × Nat × ℤ) (j : Nat) :
    cycleStatus (applyMatch cycle_id now db t) j = cycleStatus db j := by
  simp only [applyMatch]
  repeat' split
  all_goals rw [cycleStatus_updCycle_matched]
  all_goals rfl

theorem processCurrency_cycleStatus (cycle_id now : Nat) (db : DB)
    (currency : String) (j : Nat) :
    cycleStatus (processCurrency cycle_id now db currency) j =
      cycleStatus db j := by
  simp only [processCurrency]
  cases hfc : findCycle db cycle_id with
  | none => rfl
  | some cycle =>
    dsimp only
    split
    · rw [cycleStatus_updCycle_counts1]
    · rw [cycleStatus_updCycle_counts2]
      refine foldl_inv (applyMatch cycle_id now)
        (fun d => cycleStatus d j = cycleStatus db j)
        (fun d t h => Eq.trans (applyMatch_cycleStatus cycle_id now d t j) h)
        _ _ ?_
      dsimp only
      rw [cycleStatus_updCycle_counts1]

/-- C8.  A merge cycle whose status is not "pending" is inert: invoking
`run_merge_cycle` on it returns the store unchanged (so none of its counters
and no request moves); and one invocation never moves any cycle's status
backwards along `pending → processing → \x7bcompleted, failed\x7d`. -/
theorem merge_cycle_status_forward_and_idempotent
    (db : DB) (cycle_id now : Nat) :
    (∀ c, findCycle db cycle_id = some c → c.status ≠ "pending" →
      run_merge_cycle db cycle_id now = db) ∧
    (∀ j c, findCycle db j = some c →
      ∃ c', findCycle (run_merge_cycle db cycle_id now) j = some c' ∧
        statusRank c.status ≤ statusRank c'.status) := by
  constructor
  · intro c hc hs
    simp only [run_merge_cycle, hc]
    rw [if_pos (bne_iff_ne.mpr hs)]
  · intro j c hc
    simp only [run_merge_cycle]
    cases hfc : findCycle db cycle_id with
    | none => exact ⟨c, hc, le_refl _⟩
    | some cycle =>
      dsimp only
      by_cases hp : (cycle.status != "pending") = true
      · rw [if_pos hp]
        exact ⟨c, hc, le_refl _⟩
      · rw [if_neg hp]
        have hbase : cycleStatus (updCycle db cycle_id (fun c =>
            { c with
              status := "processing"
              started_at := some now })) j =
            some (if c.id == cycle_id then "processing" else c.status) := by
          simp only [cycleStatus]
          rw [findCycle_updCycle db cycle_id j
            (fun c => { c with
              status := "processing"
              started_at := some now })
            (fun _ => rfl), hc]
          simp only [Option.map_some']
          rw [apply_ite (fun x : MergeCycle => x.status)]
        have hR : cycleStatus (["NAIRA", "USDT"].foldl
            (processCurrency cycle_id now)
            (updCycle db cycle_id (fun c =>
              { c with
                status := "processing"
                started_at := some now }))) j =
            some (if c.id == cycle_id then "processing" else c.status) := by
          refine foldl_inv (processCurrency cycle_id now)
            (fun d => cycleStatus d j =
              some (if c.id == cycle_id then "processing" else c.status))
            (fun d x h => Eq.trans
              (processCurrency_cycleStatus cycle_id now d x j) h)
            _ _ hbase
        simp only [cycleStatus] at hR
        obtain ⟨c2, hc2, hs2⟩ := Option.map_eq_some'.mp hR
        have hid2 : c2.id = j := findCycle_id hc2
        rw [findCycle_updCycle _ cycle_id j
          (fun c => { c with
            status := "completed"
            completed_at := some now })
          (fun _ => rfl), hc2]
        simp only [Option.map_some']
        refine ⟨_, rfl, ?_⟩
        by_cases hj : (c2.id == cycle_id) = true
        · rw [if_pos hj]
          exact le_trans (statusRank_le_two c.status)
            (show (2 : Nat) ≤ statusRank "completed" by decide)
        · rw [if_neg hj]
          have hcid : c.id = j := findCycle_id hc
          have hguard : (c.id == cycle_id) = false := by
            rw [hcid]
            rw [hid2] at hj
            simpa using hj
          rw [hguard] at hs2
          simp at hs2
          rw [hs2]

/-- Fixture: an already completed cycle for the inertness half of C8. -/
def cycleDone : MergeCycle :=
  { cycleB with
    id := 201
    status := "completed" }

/-- Store holding only the completed cycle. -/
def dbDone : DB := { dbPartial with merge_cycles := [cycleDone] }

/-- Witness for C8: invoking the orchestrator on completed cycle 201 leaves
the store untouched, and invoking it on pending cycle 200 of `dbPartial`
never lowers that cycle's status rank. -/
theorem merge_cycle_status_forward_and_idempotent_witness :
    run_merge_cycle dbDone 201 99999 = dbDone ∧
      (∃ c', findCycle (run_merge_cycle dbPartial 200 99999) 200 = some c' ∧
        statusRank cycleB.status ≤ statusRank c'.status) :=
  ⟨(merge_cycle_status_forward_and_idempotent dbDone 201 99999).1 cycleDone
      (by decide) (by decide),
    (merge_cycle_status_forward_and_idempotent dbPartial 200 99999).2 200
      cycleB (by decide)⟩

/-! ### C7: the exact cancellation guard -/

theorem cancel_funding_spec (db : DB) (request_id now : Nat)
    (r : FundingRequest) (hr : findFunding db request_id = some r) :
    ((cancel_funding_request db request_id now).2 = CancelResult.ok ↔
      (r.is_completed = false ∧ r.is_fully_matched = false ∧
        r.matched_at = none ∧
        ∀ c, get_next_merge_cycle db now = some c → now < c.cutoff_time)) ∧
    ((cancel_funding_request db request_id now).2 ≠ CancelResult.ok →
      (cancel_funding_request db request_id now).1 = db) ∧
    ((cancel_funding_request db request_id now).2 = CancelResult.ok →
      (cancel_funding_request db request_id now).1 =
        { db with funding_requests :=
            db.funding_requests.filter (fun x => x.id != request_id) }) := by
  simp only [cancel_funding_request, hr]
  cases h1 : r.is_completed
  · cases h2 : r.is_fully_matched
    · cases h3 : r.matched_at with
      | none =>
        cases h4 : get_next_merge_cycle db now with
        | none => simp [h4]
        | some c =>
          by_cases h5 : now < c.cutoff_time
          · simp [h4, h5]
          · simp [h4, h5]
      | some t => simp
    · simp
  · simp

theorem cancel_withdrawal_spec (db : DB) (request_id now : Nat)
    (r : WithdrawalRequest) (hr : findWithdrawal db request_id = some r) :
    ((cancel_withdrawal_request db request_id now).2 = CancelResult.ok ↔
      (r.is_completed = false ∧ r.is_fully_matched = false ∧
        r.matched_at = none ∧
        ∀ c, get_next_merge_cycle db now = some c → now < c.cutoff_time)) ∧
    ((cancel_withdrawal_request db request_id now).2 ≠ CancelResult.ok →
      (cancel_withdrawal_request db request_id now).1 = db) ∧
    ((cancel_withdrawal_request db request_id now).2 = CancelResult.ok →
      (cancel_withdrawal_request db request_id now).1 =
        { db with withdrawal_requests :=
            db.withdrawal_requests.filter (fun x => x.id != request_id) }) := by
  simp only [cancel_withdrawal_request, hr]
  cases h1 : r.is_completed
  · cases h2 : r.is_fully_matched
    · cases h3 : r.matched_at with
      | none =>
        cases h4 : get_next_merge_cycle db now with
        | none => simp [h4]
        | some c =>
          by_cases h5 : now < c.cutoff_time
          · simp [h4, h5]
          · simp [h4, h5]
      | some t => simp
    · simp
  · simp

/-- C7 (corrected).  For a request present in the store, cancellation
succeeds exactly when the request is not completed, carries
`is_fully_matched = false` and `matched_at = none`, and the next merge
cycle, if any, has not passed its cutoff; every rejection leaves the store
unchanged and a success deletes exactly that request row.  The guard never
consults the pairs table, so a partially matched request (positive
`amount_remaining` after a real match, flags still unset) passes it. -/
theorem cancel_request_guard (db : DB) (fid wid now : Nat)
    (r : FundingRequest) (hr : findFunding db fid = some r)
    (w : WithdrawalRequest) (hw : findWithdrawal db wid = some w) :
    (((cancel_funding_request db fid now).2 = CancelResult.ok ↔
        (r.is_completed = false ∧ r.is_fully_matched = false ∧
          r.matched_at = none ∧
          ∀ c, get_next_merge_cycle db now = some c → now < c.cutoff_time)) ∧
      ((cancel_funding_request db fid now).2 ≠ CancelResult.ok →
        (cancel_funding_request db fid now).1 = db) ∧
      ((cancel_funding_request db fid now).2 = CancelResult.ok →
        (cancel_funding_request db fid now).1 =
          { db with funding_requests :=
              db.funding_requests.filter (fun x => x.id != fid) })) ∧
    (((cancel_withdrawal_request db wid now).2 = CancelResult.ok ↔
        (w.is_completed = false ∧ w.is_fully_matched = false ∧
          w.matched_at = none ∧
          ∀ c, get_next_merge_cycle db now = some c → now < c.cutoff_time)) ∧
      ((cancel_withdrawal_request db wid now).2 ≠ CancelResult.ok →
        (cancel_withdrawal_request db wid now).1 = db) ∧
      ((cancel_withdrawal_request db wid now).2 = CancelResult.ok →
        (cancel_withdrawal_request db wid now).1 =
          { db with withdrawal_requests :=
              db.withdrawal_requests.filter (fun x => x.id != wid) })) :=
  ⟨cancel_funding_spec db fid now r hr,
    cancel_withdrawal_spec db wid now w hw⟩

/-- Witness for C7 on `dbPartial`: the partially matched funding request 11
satisfies the guard characterization, and the fully matched withdrawal
request 20 is rejected with the store unchanged. -/
theorem cancel_request_guard_witness :
    ((cancel_funding_request dbPartial 11 100).2 = CancelResult.ok ↔
      (fundingB.is_completed = false ∧ fundingB.is_fully_matched = false ∧
        fundingB.matched_at = none ∧
        ∀ c, get_next_merge_cycle dbPartial 100 = some c →
          100 < c.cutoff_time)) ∧
    ((cancel_withdrawal_request dbPartial 20 100).2 ≠ CancelResult.ok →
      (cancel_withdrawal_request dbPartial 20 100).1 = dbPartial) :=
  ⟨(cancel_request_guard dbPartial 11 20 100 fundingB (by decide)
      withdrawalA (by decide)).1.1,
    (cancel_request_guard dbPartial 11 20 100 fundingB (by decide)
      withdrawalA (by decide)).2.2.1⟩

/-! ### C6: which conflict rejections leave the store unchanged -/

/-- C6 (corrected).  Conflict rejections are returned synchronously with the
store unchanged for every conflict class except one: upload-after-deadline.
Already-uploaded, not-yet-uploaded, already-confirmed, extension conflicts,
the confirm and extension deadline rejections, and both cancellation
conflicts all return the input store; the upload-proof deadline rejection is
excluded because its branch commits punitive mutations before raising. -/
theorem conflict_rejections_leave_state_unchanged
    (db : DB) (pair_id rid now : Nat) (url : String) :
    ((upload_proof db pair_id now url).2 = UploadProofResult.alreadyUploaded →
      (upload_proof db pair_id now url).1 = db) ∧
    (((confirm_proof db pair_id now).2 = ConfirmProofResult.noProofYet ∨
      (confirm_proof db pair_id now).2 = ConfirmProofResult.alreadyConfirmed ∨
      (confirm_proof db pair_id now).2 = ConfirmProofResult.deadlinePassed) →
      (confirm_proof db pair_id now).1 = db) ∧
    (((request_extension db pair_id now).2 =
        ExtensionResult.alreadyRequested ∨
      (request_extension db pair_id now).2 = ExtensionResult.alreadyUploaded ∨
      (request_extension db pair_id now).2 = ExtensionResult.deadlinePassed) →
      (request_extension db pair_id now).1 = db) ∧
    (((cancel_funding_request db rid now).2 = CancelResult.alreadyMatched ∨
      (cancel_funding_request db rid now).2 = CancelResult.cutoffPassed) →
      (cancel_funding_request db rid now).1 = db) ∧
    (((cancel_withdrawal_request db rid now).2 = CancelResult.alreadyMatched ∨
      (cancel_withdrawal_request db rid now).2 = CancelResult.cutoffPassed) →
      (cancel_withdrawal_request db rid now).1 = db) := by
  refine ⟨?_, ?_, ?_, ?_, ?_⟩
  · simp only [upload_proof]
    repeat' split
    all_goals simp [uploadProofOk]
  · simp only [confirm_proof]
    repeat' split
    all_goals simp
  · simp only [request_extension]
    repeat' split
    all_goals simp
  · simp only [cancel_funding_request]
    repeat' split
    all_goals simp
  · simp only [cancel_withdrawal_request]
    repeat' split
    all_goals simp

/-- Witness for C6: an already-uploaded rejection of `upload_proof` and an
already-matched rejection of `cancel_withdrawal_request`, both leaving the
store `dbUploaded` exactly as it was. -/
theorem conflict_rejections_leave_state_unchanged_witness :
    (upload_proof dbUploaded 1 100 "x").2 =
        UploadProofResult.alreadyUploaded ∧
      (upload_proof dbUploaded 1 100 "x").1 = dbUploaded ∧
      (cancel_withdrawal_request dbUploaded 20 100).2 =
        CancelResult.alreadyMatched ∧
      (cancel_withdrawal_request dbUploaded 20 100).1 = dbUploaded :=
  ⟨by decide,
    (conflict_rejections_leave_state_unchanged dbUploaded 1 20 100 "x").1
      (by decide),
    by decide,
    (conflict_rejections_leave_state_unchanged
        dbUploaded 1 20 100 "x").2.2.2.2 (Or.inl (by decide))⟩

/-! ### C3: the admin pool and the orchestrator -/

/-- Sum of the amounts of admin-as-funder matches. -/
def adminAmountsSum : List (String × Nat × ℤ) → ℤ
  | [] => 0
  | x :: xs => x.2.2 + adminAmountsSum xs

theorem adminAmountsSum_append (l : List (String × Nat × ℤ))
    (x : String × Nat × ℤ) :
    adminAmountsSum (l ++ [x]) = adminAmountsSum l + x.2.2 := by
  induction l with
  | nil => simp [adminAmountsSum]
  | cons y ys ih => simp [adminAmountsSum, ih]; ring

theorem adminFunderStep_inv (B : ℤ) :
    ∀ (ws : List WithdrawalRequest) (acc : List (String × Nat × ℤ) × ℤ),
      adminAmountsSum acc.1 + acc.2 = B → 0 ≤ acc.2 →
      adminAmountsSum (ws.foldl adminFunderStep acc).1 +
          (ws.foldl adminFunderStep acc).2 = B ∧
        0 ≤ (ws.foldl adminFunderStep acc).2 := by
  intro ws
  induction ws with
  | nil => intro acc h1 h2; exact ⟨h1, h2⟩
  | cons w ws ih =>
    intro acc h1 h2
    refine ih _ ?_ ?_
    · simp only [adminFunderStep]
      split
      · dsimp only
        rw [adminAmountsSum_append]
        dsimp only
        linarith
      · exact h1
    · simp only [adminFunderStep]
      split
      · rename_i hcond
        dsimp only
        linarith [hcond.2]
      · exact h2

theorem applyMatch_admin_wallets (cycle_id now : Nat) (db : DB)
    (t : Nat × Nat × ℤ) :
    (applyMatch cycle_id now db t).admin_wallets = db.admin_wallets := by
  simp only [applyMatch]
  repeat' split
  all_goals rfl

theorem processCurrency_admin_wallets (cycle_id now : Nat) (db : DB)
    (currency : String) :
    (processCurrency cycle_id now db currency).admin_wallets =
      db.admin_wallets := by
  simp only [processCurrency]
  cases hfc : findCycle db cycle_id with
  | none => rfl
  | some cycle =>
    dsimp only
    split
    · rfl
    · exact foldl_inv (applyMatch cycle_id now)
        (fun d => d.admin_wallets = db.admin_wallets)
        (fun d t h =>
          Eq.trans (applyMatch_admin_wallets cycle_id now d t) h)
        _ _ rfl

theorem run_merge_cycle_admin_wallets (db : DB) (cycle_id now : Nat) :
    (run_merge_cycle db cycle_id now).admin_wallets = db.admin_wallets := by
  simp only [run_merge_cycle]
  cases hfc : findCycle db cycle_id with
  | none => rfl
  | some cycle =>
    dsimp only
    split
    · rfl
    · exact foldl_inv (processCurrency cycle_id now)
        (fun d => d.admin_wallets = db.admin_wallets)
        (fun d x h =>
          Eq.trans (processCurrency_admin_wallets cycle_id now d x) h)
        _ _ rfl

/-- C3 (corrected).  The merge cycle never consults the Admin Liquidity
Pool: a full run leaves `admin_wallets` untouched, so leftover requests are
not satisfied from the pool.  The standalone helper
`match_with_admin_wallet` — dead code from the orchestrator's point of
view — does behave as the spec describes: it absorbs every funding request
with positive remainder in full, and the admin-as-funder matches it emits
never exceed the pool balance in total. -/
theorem admin_pool_fallback_not_wired (db : DB) (cycle_id now : Nat)
    (uf : List FundingRequest) (uw : List WithdrawalRequest)
    (currency : String) (aw : AdminWallet)
    (ha : findAdminWallet db "funding_pool" currency = some aw)
    (hb : 0 ≤ aw.balance) :
    (run_merge_cycle db cycle_id now).admin_wallets = db.admin_wallets ∧
      (∀ f ∈ uf, 0 < f.amount_remaining →
        (f.id, "admin", f.amount_remaining) ∈
          (match_with_admin_wallet uf uw currency db).1) ∧
      adminAmountsSum (match_with_admin_wallet uf uw currency db).2 ≤
        aw.balance := by
  refine ⟨run_merge_cycle_admin_wallets db cycle_id now, ?_, ?_⟩
  · intro f hf hpos
    simp only [match_with_admin_wallet, ha]
    exact List.mem_map_of_mem _
      (List.mem_filter.mpr ⟨hf, by simpa using hpos⟩)
  · simp only [match_with_admin_wallet, ha]
    have h := adminFunderStep_inv aw.balance uw ([], aw.balance)
      (by simp [adminAmountsSum]) hb
    linarith [h.1, h.2]

/-- Witness for C3 on `dbLeftover`: the NAIRA pool survives the cycle
unchanged, the leftover funding request 11 is absorbed in full by the
standalone helper, and its admin-as-funder output fits in the pool. -/
theorem admin_pool_fallback_not_wired_witness :
    0 ≤ adminNaira.balance ∧
      ((run_merge_cycle dbLeftover 100 99999).admin_wallets =
          dbLeftover.admin_wallets ∧
        (∀ f ∈ [fundingB], 0 < f.amount_remaining →
          (f.id, "admin", f.amount_remaining) ∈
            (match_with_admin_wallet [fundingB] [withdrawalC] "NAIRA"
              dbLeftover).1) ∧
        adminAmountsSum (match_with_admin_wallet [fundingB] [withdrawalC]
            "NAIRA" dbLeftover).2 ≤ adminNaira.balance) :=
  ⟨by decide,
    admin_pool_fallback_not_wired dbLeftover 100 99999 [fundingB]
      [withdrawalC] "NAIRA" adminNaira (by decide) (by decide)⟩

/-! ### C2: what one Deadline Enforcer sweep actually does -/

/-- Some pair row with id `j` carries `funder_missed_deadline = true`. -/
def flaggedPair (db : DB) (j : Nat) : Prop :=
  ∃ q ∈ db.pairs, q.id = j ∧ q.funder_missed_deadline = true

/-- Some wallet row with id `i` is blocked. -/
def blockedWallet (db : DB) (i : Nat) : Prop :=
  ∃ w ∈ db.wallets, w.id = i ∧ w.is_blocked = true

theorem flaggedPair_of_pairs_map (db db' : DB) (i : Nat)
    (g : FundingMatchPair → FundingMatchPair)
    (hg : ∀ p, (g p).id = p.id)
    (hk : ∀ p, p.funder_missed_deadline = true →
      (g p).funder_missed_deadline = true)
    (hsh : db'.pairs = db.pairs.map (fun p => if p.id == i then g p else p))
    (j : Nat) (h : flaggedPair db j) : flaggedPair db' j := by
  obtain ⟨q, hmem, hid, hfl⟩ := h
  refine ⟨if q.id == i then g q else q, ?_, ?_, ?_⟩
  · rw [hsh]
    exact List.mem_map_of_mem _ hmem
  · split
    · rw [hg q]; exact hid
    · exact hid
  · split
    · exact hk q hfl
    · exact hfl

theorem flaggedPair_of_pairs_append (db db' : DB)
    (xs : List FundingMatchPair) (hsh : db'.pairs = db.pairs ++ xs)
    (j : Nat) (h : flaggedPair db j) : flaggedPair db' j := by
  obtain ⟨q, hmem, hid, hfl⟩ := h
  exact ⟨q, by rw [hsh]; exact List.mem_append_left _ hmem, hid, hfl⟩

theorem blockedWallet_of_wallets_eq (db db' : DB)
    (hsh : db'.wallets = db.wallets) (i : Nat) (h : blockedWallet db i) :
    blockedWallet db' i := by
  obtain ⟨w, hmem, hid, hbl⟩ := h
  exact ⟨w, by rw [hsh]; exact hmem, hid, hbl⟩

theorem blockedWallet_of_wallets_map (db db' : DB) (i0 : Nat)
    (hsh : db'.wallets = db.wallets.map
      (fun w => if w.id == i0 then blockWallet w else w))
    (i : Nat) (h : blockedWallet db i) : blockedWallet db' i := by
  obtain ⟨w, hmem, hid, hbl⟩ := h
  refine ⟨if w.id == i0 then blockWallet w else w, ?_, ?_, ?_⟩
  · rw [hsh]
    exact List.mem_map_of_mem _ hmem
  · split
    · exact hid
    · exact hid
  · split
    · rfl
    · exact hbl

theorem expiredProofStep_funding_requests (d : DB) (x : Nat) :
    (expiredProofStep d x).funding_requests = d.funding_requests := by
  simp only [expiredProofStep]
  repeat' split
  all_goals rfl

theorem expiredProofStep_withdrawal_requests (d : DB) (x : Nat) :
    (expiredProofStep d x).withdrawal_requests = d.withdrawal_requests := by
  simp only [expiredProofStep]
  repeat' split
  all_goals rfl

theorem expiredConfirmationStep_withdrawal_requests (d : DB) (x : Nat) :
    (expiredConfirmationStep d x).withdrawal_requests =
      d.withdrawal_requests := by
  simp only [expiredConfirmationStep]
  repeat' split
  all_goals rfl

theorem expiredProofStep_wallets_cases (d : DB) (x : Nat) :
    (expiredProofStep d x).wallets = d.wallets ∨
      ∃ i, (expiredProofStep d x).wallets = d.wallets.map
        (fun w => if w.id == i then blockWallet w else w) := by
  simp only [expiredProofStep]
  repeat' split
  all_goals first
  | exact Or.inl rfl
  | exact Or.inr ⟨_, rfl⟩

theorem expiredConfirmationStep_wallets_cases (d : DB) (x : Nat) :
    (expiredConfirmationStep d x).wallets = d.wallets ∨
      ∃ i, (expiredConfirmationStep d x).wallets = d.wallets.map
        (fun w => if w.id == i then blockWallet w else w) := by
  simp only [expiredConfirmationStep]
  repeat' split
  all_goals first
  | exact Or.inl rfl
  | exact Or.inr ⟨_, rfl⟩

theorem expiredProofStep_flaggedPair (d : DB) (x j : Nat)
    (h : flaggedPair d j) : flaggedPair (expiredProofStep d x) j :=
  flaggedPair_of_pairs_map d _ x flagFunderMissed (fun _ => rfl)
    (fun _ _ => rfl) (expiredProofStep_pairs d x) j h

theorem expiredConfirmationStep_flaggedPair (d : DB) (x j : Nat)
    (h : flaggedPair d j) : flaggedPair (expiredConfirmationStep d x) j :=
  flaggedPair_of_pairs_map d _ x flagWithdrawerMissed (fun _ => rfl)
    (fun _ hq => hq) (expiredConfirmationStep_pairs d x) j h

theorem expiredProofStep_blockedWallet (d : DB) (x i : Nat)
    (h : blockedWallet d i) : blockedWallet (expiredProofStep d x) i := by
  rcases expiredProofStep_wallets_cases d x with hc | ⟨i0, hc⟩
  · exact blockedWallet_of_wallets_eq d _ hc i h
  · exact blockedWallet_of_wallets_map d _ i0 hc i h

theorem expiredConfirmationStep_blockedWallet (d : DB) (x i : Nat)
    (h : blockedWallet d i) :
    blockedWallet (expiredConfirmationStep d x) i := by
  rcases expiredConfirmationStep_wallets_cases d x with hc | ⟨i0, hc⟩
  · exact blockedWallet_of_wallets_eq d _ hc i h
  · exact blockedWallet_of_wallets_map d _ i0 hc i h

/-- A fold establishes a goal at the iteration for `x₀` and keeps it
afterwards, provided the auxiliary invariant `R` survives every step up to
that iteration. -/
theorem foldl_estab {β : Type} (step : DB → β → DB) (Q R : DB → Prop)
    (hkQ : ∀ d x, Q d → Q (step d x))
    (hkR : ∀ d x, R d → R (step d x))
    (x₀ : β) (hset : ∀ d, R d → Q (step d x₀)) :
    ∀ (xs : List β) (d : DB), x₀ ∈ xs → R d → Q (xs.foldl step d) := by
  intro xs
  induction xs with
  | nil =>
    intro d hmem
    exact absurd hmem (List.not_mem_nil x₀)
  | cons x xs ih =>
    intro d hmem hR
    rcases List.mem_cons.mp hmem with heq | hmem'
    · subst heq
      exact foldl_inv step Q hkQ xs _ (hset d hR)
    · exact ih (step d x) hmem' (hkR d x hR)

/-! Permanence of `funder_missed_deadline` under every operation. -/

theorem upload_flaggedPair (db : DB) (pair_id now : Nat) (url : String)
    (j : Nat) (h : flaggedPair db j) :
    flaggedPair (upload_proof db pair_id now url).1 j := by
  unfold upload_proof
  cases hp : findPair db pair_id with
  | none => exact h
  | some pair =>
    dsimp only
    cases hfr : findFunding db pair.funding_request_id with
    | none => exact h
    | some funding_req =>
      dsimp only
      cases hfw : findWallet db funding_req.wallet_id with
      | none => exact h
      | some wallet =>
        dsimp only
        by_cases hu : pair.proof_uploaded = true
        · rw [if_pos hu]; exact h
        · rw [if_neg hu]
          cases hdl : pair.proof_deadline with
          | none =>
            exact flaggedPair_of_pairs_map db _ pair_id
              (stampProofUploaded now url) (fun _ => rfl) (fun _ hq => hq)
              (updPair_pairs db pair_id (stampProofUploaded now url)) j h
          | some dl =>
            dsimp only
            by_cases hnd : now > dl
            · rw [if_pos hnd]
              exact flaggedPair_of_pairs_map db _ pair_id flagFunderMissed
                (fun _ => rfl) (fun _ _ => rfl)
                (uploadProofLate_pairs db pair funding_req pair_id) j h
            · rw [if_neg hnd]
              exact flaggedPair_of_pairs_map db _ pair_id
                (stampProofUploaded now url) (fun _ => rfl) (fun _ hq => hq)
                (updPair_pairs db pair_id (stampProofUploaded now url)) j h

theorem confirm_flaggedPair (db : DB) (pair_id now j : Nat)
    (h : flaggedPair db j) :
    flaggedPair (confirm_proof db pair_id now).1 j := by
  unfold confirm_proof
  cases hp : findPair db pair_id with
  | none => exact h
  | some pair =>
    dsimp only
    cases hwr : findWithdrawal db pair.withdrawal_request_id with
    | none => exact h
    | some wr =>
      dsimp only
      cases hww : findWallet db wr.wallet_id with
      | none => exact h
      | some wwal =>
        dsimp only
        by_cases hu : (!pair.proof_uploaded) = true
        · rw [if_pos hu]; exact h
        · rw [if_neg hu]
          by_cases hcf : pair.proof_confirmed = true
          · rw [if_pos hcf]; exact h
          · rw [if_neg hcf]
            by_cases hdl : (match pair.confirmation_deadline with
                | some dl => decide (now > dl)
                | none => false) = true
            · rw [if_pos hdl]; exact h
            · rw [if_neg hdl]
              cases hfr : findFunding db pair.funding_request_id with
              | none => exact h
              | some fr =>
                dsimp only
                cases hfw : findWallet db fr.wallet_id with
                | none => exact h
                | some fwal =>
                  exact flaggedPair_of_pairs_map db _ pair_id
                    (confirmPairStamp now) (fun _ => rfl) (fun _ hq => hq)
                    ((confirmProofOk_pairs db pair wr fr pair_id now).trans
                      (updPair_pairs db pair_id (confirmPairStamp now))) j h

theorem extension_flaggedPair (db : DB) (pair_id now j : Nat)
    (h : flaggedPair db j) :
    flaggedPair (request_extension db pair_id now).1 j := by
  unfold request_extension
  cases hp : findPair db pair_id with
  | none => exact h
  | some pair =>
    dsimp only
    cases hfr : findFunding db pair.funding_request_id with
    | none => exact h
    | some funding_req =>
      dsimp only
      cases hfw : findWallet db funding_req.wallet_id with
      | none => exact h
      | some wallet =>
        dsimp only
        by_cases hreq : pair.extension_requested = true
        · rw [if_pos hreq]; exact h
        · rw [if_neg hreq]
          by_cases hu : pair.proof_uploaded = true
          · rw [if_pos hu]; exact h
          · rw [if_neg hu]
            cases hdl : pair.proof_deadline with
            | none => exact h
            | some dl =>
              dsimp only
              by_cases hnd : now > dl
              · rw [if_pos hnd]; exact h
              · rw [if_neg hnd]
                exact flaggedPair_of_pairs_map db _ pair_id
                  (grantExtension dl) (fun _ => rfl) (fun _ hq => hq)
                  (updPair_pairs db pair_id (grantExtension dl)) j h

theorem sweep_flaggedPair (db : DB) (now j : Nat) (h : flaggedPair db j) :
    flaggedPair (check_expired_deadlines db now) j := by
  unfold check_expired_deadlines
  apply foldl_inv expiredConfirmationStep (fun d => flaggedPair d j)
    (fun d x hd => expiredConfirmationStep_flaggedPair d x j hd)
  apply foldl_inv expiredProofStep (fun d => flaggedPair d j)
    (fun d x hd => expiredProofStep_flaggedPair d x j hd)
  exact h

theorem cancelF_flaggedPair (db : DB) (request_id now j : Nat)
    (h : flaggedPair db j) :
    flaggedPair (cancel_funding_request db request_id now).1 j := by
  unfold cancel_funding_request
  repeat' split
  all_goals exact h

theorem cancelW_flaggedPair (db : DB) (request_id now j : Nat)
    (h : flaggedPair db j) :
    flaggedPair (cancel_withdrawal_request db request_id now).1 j := by
  unfold cancel_withdrawal_request
  repeat' split
  all_goals exact h

theorem applyMatch_flaggedPair (cycle_id now : Nat) (d : DB)
    (t : Nat × Nat × ℤ) (j : Nat) (h : flaggedPair d j) :
    flaggedPair (applyMatch cycle_id now d t) j :=
  flaggedPair_of_pairs_append d _ [newMatchPair cycle_id now d.next_id t]
    (applyMatch_pairs cycle_id now d t) j h

theorem processCurrency_flaggedPair (cycle_id now : Nat) (d : DB)
    (currency : String) (j : Nat) (h : flaggedPair d j) :
    flaggedPair (processCurrency cycle_id now d currency) j := by
  simp only [processCurrency]
  cases hc : findCycle d cycle_id with
  | none => exact h
  | some cycle =>
    dsimp only
    split
    · exact h
    · exact foldl_inv (applyMatch cycle_id now) (fun d2 => flaggedPair d2 j)
        (fun d2 t hd => applyMatch_flaggedPair cycle_id now d2 t j hd)
        _ _ h

theorem merge_flaggedPair (db : DB) (cycle_id now j : Nat)
    (h : flaggedPair db j) :
    flaggedPair (run_merge_cycle db cycle_id now) j := by
  simp only [run_merge_cycle]
  cases hc : findCycle db cycle_id with
  | none => exact h
  | some cycle =>
    dsimp only
    split
    · exact h
    · exact foldl_inv (processCurrency cycle_id now)
        (fun d2 => flaggedPair d2 j)
        (fun d2 x hd => processCurrency_flaggedPair cycle_id now d2 x j hd)
        _ _ h

/-- `funder_missed_deadline = true` is permanent: every operation of the
system preserves it. -/
theorem flaggedPair_applyOp (op : Op) (db : DB) (j : Nat)
    (h : flaggedPair db j) : flaggedPair (applyOp op db) j := by
  cases op with
  | uploadProof pair_id now url => exact upload_flaggedPair db pair_id now url j h
  | confirmProof pair_id now => exact confirm_flaggedPair db pair_id now j h
  | requestExtension pair_id now =>
    exact extension_flaggedPair db pair_id now j h
  | sweepDeadlines now => exact sweep_flaggedPair db now j h
  | cancelFunding request_id now =>
    exact cancelF_flaggedPair db request_id now j h
  | cancelWithdrawal request_id now =>
    exact cancelW_flaggedPair db request_id now j h
  | mergeCycle cycle_id now => exact merge_flaggedPair db cycle_id now j h

/-- C2 (corrected).  One Deadline Enforcer sweep over a pair whose proof
deadline has elapsed without an upload flags the pair with
`funder_missed_deadline = true` (and that flag is permanent across every
operation) and blocks the funder wallet — but it does NOT restore the pair
amount onto the withdrawal request: the sweep leaves the
`withdrawal_requests` table exactly as it was, so the restoration the spec
describes only happens in the late branch of `upload_proof`, never in the
sweep. -/
theorem deadline_sweep_effects
    (db : DB) (now pair_id dl : Nat) (pair : FundingMatchPair)
    (fr : FundingRequest) (w : Wallet)
    (hp : findPair db pair_id = some pair)
    (hdl : pair.proof_deadline = some dl) (hle : dl ≤ now)
    (hnup : pair.proof_uploaded = false)
    (hnfl : pair.funder_missed_deadline = false)
    (hfr : findFunding db pair.funding_request_id = some fr)
    (hfw : findWallet db fr.wallet_id = some w) :
    flaggedPair (check_expired_deadlines db now) pair_id ∧
      blockedWallet (check_expired_deadlines db now) fr.wallet_id ∧
      (check_expired_deadlines db now).withdrawal_requests =
        db.withdrawal_requests ∧
      ∀ (db2 : DB) (op : Op) (j : Nat), flaggedPair db2 j →
        flaggedPair (applyOp op db2) j := by
  have hcond : ((match pair.proof_deadline with
      | some dl2 => decide (dl2 ≤ now)
      | none => false) && !pair.proof_uploaded &&
        !pair.funder_missed_deadline) = true := by
    simp [hdl, hnup, hnfl, hle]
  have hmem_ids : pair_id ∈ (db.pairs.filter (fun p =>
      (match p.proof_deadline with
       | some dl2 => decide (dl2 ≤ now)
       | none => false) && !p.proof_uploaded &&
        !p.funder_missed_deadline)).map (fun p => p.id) :=
    List.mem_map.mpr ⟨pair, List.mem_filter.mpr ⟨findPair_mem hp, hcond⟩,
      findPair_id hp⟩
  have hkR : ∀ d x, ((∃ q, findPair d pair_id = some q ∧
        q.funding_request_id = pair.funding_request_id) ∧
      d.funding_requests = db.funding_requests ∧
      ∃ w', w' ∈ d.wallets ∧ w'.id = fr.wallet_id) →
      ((∃ q, findPair (expiredProofStep d x) pair_id = some q ∧
        q.funding_request_id = pair.funding_request_id) ∧
      (expiredProofStep d x).funding_requests = db.funding_requests ∧
      ∃ w', w' ∈ (expiredProofStep d x).wallets ∧
        w'.id = fr.wallet_id) := by
    intro d x hRd
    obtain ⟨⟨q, hq, hfid⟩, hR2, ⟨w', hwmem, hwid⟩⟩ := hRd
    refine ⟨?_, ?_, ?_⟩
    · have hfp : findPair (expiredProofStep d x) pair_id =
          (findPair d pair_id).map
            (fun p => if p.id == x then flagFunderMissed p else p) := by
        simp only [findPair]
        rw [expiredProofStep_pairs]
        exact find?_map_update d.pairs (fun p => p.id) x pair_id
          flagFunderMissed (fun _ => rfl)
      rw [hfp, hq]
      simp only [Option.map_some']
      refine ⟨_, rfl, ?_⟩
      split
      · exact hfid
      · exact hfid
    · rw [expiredProofStep_funding_requests]
      exact hR2
    · rcases expiredProofStep_wallets_cases d x with hc | ⟨i0, hc⟩
      · rw [hc]
        exact ⟨w', hwmem, hwid⟩
      · rw [hc]
        refine ⟨if w'.id == i0 then blockWallet w' else w',
          List.mem_map_of_mem _ hwmem, ?_⟩
        split
        · exact hwid
        · exact hwid
  have hset : ∀ d, ((∃ q, findPair d pair_id = some q ∧
        q.funding_request_id = pair.funding_request_id) ∧
      d.funding_requests = db.funding_requests ∧
      ∃ w', w' ∈ d.wallets ∧ w'.id = fr.wallet_id) →
      (flaggedPair (expiredProofStep d pair_id) pair_id ∧
        blockedWallet (expiredProofStep d pair_id) fr.wallet_id) := by
    intro d hRd
    obtain ⟨⟨q, hq, hfid⟩, hR2, ⟨w0, hwmem, hwid⟩⟩ := hRd
    have hqid : q.id = pair_id := findPair_id hq
    have hqmem : q ∈ d.pairs := findPair_mem hq
    simp only [expiredProofStep]
    have hq1 : findPair (updPair d pair_id flagFunderMissed) pair_id =
        some (flagFunderMissed q) := by
      rw [findPair_updPair d pair_id pair_id flagFunderMissed
        (fun _ => rfl), hq]
      simp [hqid]
    rw [hq1]
    dsimp only [flagFunderMissed]
    have hf1 : findFunding (updPair d pair_id flagFunderMissed)
        q.funding_request_id = some fr := by
      rw [findFunding_updPair, hfid]
      simp only [findFunding]
      rw [hR2]
      exact hfr
    rw [hf1]
    dsimp only
    have hw1 : ∃ w', findWallet (updPair d pair_id flagFunderMissed)
        fr.wallet_id = some w' := by
      rw [findWallet_updPair]
      have hsome : (findWallet d fr.wallet_id).isSome := by
        simp only [findWallet]
        rw [List.find?_isSome]
        exact ⟨w0, hwmem, by simp [hwid]⟩
      exact Option.isSome_iff_exists.mp hsome
    obtain ⟨w', hw1⟩ := hw1
    rw [hw1]
    dsimp only
    have hflag : flaggedPair (updPair d pair_id flagFunderMissed) pair_id := by
      refine ⟨flagFunderMissed q, ?_, ?_, rfl⟩
      · show flagFunderMissed q ∈ d.pairs.map
          (fun p => if p.id == pair_id then flagFunderMissed p else p)
        have himg := List.mem_map_of_mem
          (fun p => if p.id == pair_id then flagFunderMissed p else p) hqmem
        simpa [hqid] using himg
      · simp [flagFunderMissed, hqid]
    by_cases hbl : w'.is_blocked = true
    · rw [if_pos hbl]
      exact ⟨hflag, ⟨w', findWallet_mem hw1, findWallet_id hw1, hbl⟩⟩
    · rw [if_neg hbl]
      constructor
      · obtain ⟨qq, hq2, hq3, hq4⟩ := hflag
        exact ⟨qq, hq2, hq3, hq4⟩
      · refine ⟨blockWallet w', ?_, ?_, rfl⟩
        · show blockWallet w' ∈
            (updPair d pair_id flagFunderMissed).wallets.map
              (fun u => if u.id == fr.wallet_id then blockWallet u else u)
          have himg := List.mem_map_of_mem
            (fun u => if u.id == fr.wallet_id then blockWallet u else u)
            (findWallet_mem hw1)
          simpa [findWallet_id hw1] using himg
        · simp [blockWallet, findWallet_id hw1]
  have hQ : flaggedPair (check_expired_deadlines db now) pair_id ∧
      blockedWallet (check_expired_deadlines db now) fr.wallet_id := by
    simp only [check_expired_deadlines]
    apply foldl_inv expiredConfirmationStep
      (fun d => flaggedPair d pair_id ∧ blockedWallet d fr.wallet_id)
      (fun d x hq => ⟨expiredConfirmationStep_flaggedPair d x pair_id hq.1,
        expiredConfirmationStep_blockedWallet d x fr.wallet_id hq.2⟩)
    apply foldl_estab expiredProofStep
      (fun d => flaggedPair d pair_id ∧ blockedWallet d fr.wallet_id)
      (fun d => (∃ q, findPair d pair_id = some q ∧
          q.funding_request_id = pair.funding_request_id) ∧
        d.funding_requests = db.funding_requests ∧
        ∃ w', w' ∈ d.wallets ∧ w'.id = fr.wallet_id)
      (fun d x hq => ⟨expiredProofStep_flaggedPair d x pair_id hq.1,
        expiredProofStep_blockedWallet d x fr.wallet_id hq.2⟩)
      hkR pair_id hset
    · exact hmem_ids
    · exact ⟨⟨pair, hp, rfl⟩, rfl,
        ⟨w, findWallet_mem hfw, findWallet_id hfw⟩⟩
  have h3 : (check_expired_deadlines db now).withdrawal_requests =
      db.withdrawal_requests := by
    simp only [check_expired_deadlines]
    apply foldl_inv expiredConfirmationStep
      (fun d => d.withdrawal_requests = db.withdrawal_requests)
      (fun d x hd =>
        Eq.trans (expiredConfirmationStep_withdrawal_requests d x) hd)
    apply foldl_inv expiredProofStep
      (fun d => d.withdrawal_requests = db.withdrawal_requests)
      (fun d x hd =>
        Eq.trans (expiredProofStep_withdrawal_requests d x) hd)
    rfl
  exact ⟨hQ.1, hQ.2, h3, fun db2 op j h => flaggedPair_applyOp op db2 j h⟩

/-- Witness for C2: sweeping `dbPair` at `now = 20000` (deadline 14400
elapsed, proof never uploaded) flags pair 1, blocks wallet 1, and leaves the
withdrawal table unchanged. -/
theorem deadline_sweep_effects_witness :
    pairA.proof_deadline = some 14400 ∧ (14400 : Nat) ≤ 20000 ∧
      (flaggedPair (check_expired_deadlines dbPair 20000) 1 ∧
        blockedWallet (check_expired_deadlines dbPair 20000)
          fundingA.wallet_id ∧
        (check_expired_deadlines dbPair 20000).withdrawal_requests =
          dbPair.withdrawal_requests ∧
        ∀ (db2 : DB) (op : Op) (j : Nat), flaggedPair db2 j →
          flaggedPair (applyOp op db2) j) :=
  ⟨rfl, by decide,
    deadline_sweep_effects dbPair 20000 1 14400 pairA fundingA walletF
      (by decide) (by decide) (by decide) (by decide) (by decide) (by decide)
      (by decide)⟩

/-! ### C5: attribution of matched amounts to requests -/

/-- Total amount the match list attributes to funding request `fid`. -/
def attrF (fid : Nat) : List (Nat × Nat × ℤ) → ℤ
  | [] => 0
  | t :: ms => (if t.1 == fid then t.2.2 else 0) + attrF fid ms

/-- Total amount the match list attributes to withdrawal request `wid`. -/
def attrW (wid : Nat) : List (Nat × Nat × ℤ) → ℤ
  | [] => 0
  | t :: ms => (if t.2.1 == wid then t.2.2 else 0) + attrW wid ms

/-- Remainder carried by id `i` in a matching input list (0 when absent). -/
def lookupVal (i : Nat) (l : List (Nat × ℤ)) : ℤ :=
  match l.find? (fun x => x.1 == i) with
  | some x => x.2
  | none => 0

theorem attrF_eq_zero {fid : Nat} :
    ∀ {ms : List (Nat × Nat × ℤ)}, (∀ t ∈ ms, t.1 ≠ fid) →
      attrF fid ms = 0 := by
  intro ms
  induction ms with
  | nil => intro _; rfl
  | cons t ms ih =>
    intro h
    simp only [attrF]
    rw [if_neg (by simpa using h t (List.mem_cons_self t ms)),
      ih (fun x hx => h x (List.mem_cons_of_mem t hx))]
    simp

theorem attrW_eq_zero {wid : Nat} :
    ∀ {ms : List (Nat × Nat × ℤ)}, (∀ t ∈ ms, t.2.1 ≠ wid) →
      attrW wid ms = 0 := by
  intro ms
  induction ms with
  | nil => intro _; rfl
  | cons t ms ih =>
    intro h
    simp only [attrW]
    rw [if_neg (by simpa using h t (List.mem_cons_self t ms)),
      ih (fun x hx => h x (List.mem_cons_of_mem t hx))]
    simp

theorem lookupVal_cons (x : Nat × ℤ) (l : List (Nat × ℤ)) (i : Nat) :
    lookupVal i (x :: l) = if x.1 == i then x.2 else lookupVal i l := by
  simp only [lookupVal]
  by_cases hx : (x.1 == i) = true
  · rw [@List.find?_cons_of_pos _ (fun y => y.1 == i) x l hx, if_pos hx]
  · rw [@List.find?_cons_of_neg _ (fun y => y.1 == i) x l
      (by simpa using hx), if_neg hx]

theorem lookupVal_nonneg (i : Nat) (l : List (Nat × ℤ))
    (h : ∀ x ∈ l, 0 ≤ x.2) : 0 ≤ lookupVal i l := by
  simp only [lookupVal]
  cases hf : l.find? (fun x => x.1 == i) with
  | none => exact le_refl 0
  | some x => exact h x (List.mem_of_find?_eq_some hf)

/-- In a list with no duplicate ids, `find?` by id returns any member
carrying that id. -/
theorem find?_eq_of_mem_of_nodup {α : Type} (l : List α) (idOf : α → Nat)
    (hnodup : (l.map idOf).Nodup) (a : α) (hmem : a ∈ l) (i : Nat)
    (hid : idOf a = i) : l.find? (fun x => idOf x == i) = some a := by
  induction l with
  | nil => cases hmem
  | cons b l ih =>
    rw [List.map_cons, List.nodup_cons] at hnodup
    rcases List.mem_cons.mp hmem with rfl | hmem'
    · exact List.find?_cons_of_pos _ (by simp [hid])
    · have hne : idOf b ≠ i := by
        intro hEq
        exact hnodup.1 (by
          rw [hEq, ← hid]
          exact List.mem_map_of_mem idOf hmem')
      rw [@List.find?_cons_of_neg _ (fun x => idOf x == i) b l
        (by simpa using hne)]
      exact ih hnodup.2 hmem'

theorem lookupVal_eq_of_perm (l1 l2 : List (Nat × ℤ)) (hperm : l1.Perm l2)
    (hnodup : (l2.map (fun x => x.1)).Nodup) (i : Nat) :
    lookupVal i l1 = lookupVal i l2 := by
  simp only [lookupVal]
  cases h1 : l1.find? (fun x => x.1 == i) with
  | none =>
    cases h2 : l2.find? (fun x => x.1 == i) with
    | none => rfl
    | some x =>
      exfalso
      have hx := List.mem_of_find?_eq_some h2
      have hpx := List.find?_some h2
      exact (List.find?_eq_none.mp h1 x (hperm.mem_iff.mpr hx)) hpx
  | some x =>
    have hx := List.mem_of_find?_eq_some h1
    have hpx := List.find?_some h1
    rw [find?_eq_of_mem_of_nodup l2 (fun y => y.1) hnodup x
      (hperm.mem_iff.mp hx) i (by simpa using hpx)]

/-- Every emitted funding id comes from the funding input. -/
theorem smartMatchLoop_fids :
    ∀ fs ws : List (Nat × ℤ), ∀ t ∈ smartMatchLoop fs ws,
      t.1 ∈ fs.map (fun x => x.1) := by
  intro fs ws
  induction fs, ws using smartMatchLoop.induct with
  | case1 ws =>
    intro t ht
    rw [smartMatchLoop] at ht
    cases ht
  | case2 x fs =>
    intro t ht
    rw [smartMatchLoop] at ht
    cases ht
  | case3 fid f fs wid w ws m ih1 ih2 ih3 =>
    have hm : m = min f w := rfl
    rw [hm] at ih2 ih3
    intro t ht
    rw [smartMatchLoop] at ht
    rcases List.mem_cons.mp ht with rfl | ht'
    · simp
    · by_cases hf0 : f - min f w = 0
      · by_cases hw0 : w - min f w = 0
        · rw [if_pos hf0, if_pos hw0] at ht'
          simp only [List.map_cons]
          exact List.mem_cons_of_mem _ (ih1 t ht')
        · rw [if_pos hf0, if_neg hw0] at ht'
          simp only [List.map_cons]
          exact List.mem_cons_of_mem _ (ih2 t ht')
      · rw [if_neg hf0] at ht'
        simpa using ih3 t ht'

/-- Every emitted withdrawal id comes from the withdrawal input. -/
theorem smartMatchLoop_wids :
    ∀ fs ws : List (Nat × ℤ), ∀ t ∈ smartMatchLoop fs ws,
      t.2.1 ∈ ws.map (fun x => x.1) := by
  intro fs ws
  induction fs, ws using smartMatchLoop.induct with
  | case1 ws =>
    intro t ht
    rw [smartMatchLoop] at ht
    cases ht
  | case2 x fs =>
    intro t ht
    rw [smartMatchLoop] at ht
    cases ht
  | case3 fid f fs wid w ws m ih1 ih2 ih3 =>
    have hm : m = min f w := rfl
    rw [hm] at ih2 ih3
    intro t ht
    rw [smartMatchLoop] at ht
    rcases List.mem_cons.mp ht with rfl | ht'
    · simp
    · by_cases hf0 : f - min f w = 0
      · by_cases hw0 : w - min f w = 0
        · rw [if_pos hf0, if_pos hw0] at ht'
          simp only [List.map_cons]
          exact List.mem_cons_of_mem _ (ih1 t ht')
        · rw [if_pos hf0, if_neg hw0] at ht'
          simpa using ih2 t ht'
      · rw [if_neg hf0] at ht'
        simp only [List.map_cons]
        exact List.mem_cons_of_mem _ (ih3 t ht')

/-- Every emitted amount is nonnegative when both inputs are. -/
theorem smartMatchLoop_amounts_nonneg :
    ∀ fs ws : List (Nat × ℤ), (∀ x ∈ fs, 0 ≤ x.2) → (∀ x ∈ ws, 0 ≤ x.2) →
      ∀ t ∈ smartMatchLoop fs ws, 0 ≤ t.2.2 := by
  intro fs ws
  induction fs, ws using smartMatchLoop.induct with
  | case1 ws =>
    intro _ _ t ht
    rw [smartMatchLoop] at ht
    cases ht
  | case2 x fs =>
    intro _ _ t ht
    rw [smartMatchLoop] at ht
    cases ht
  | case3 fid f fs wid w ws m ih1 ih2 ih3 =>
    have hm : m = min f w := rfl
    rw [hm] at ih2 ih3
    intro hf hw
    have hfpos : 0 ≤ f := hf (fid, f) (by simp)
    have hwpos : 0 ≤ w := hw (wid, w) (by simp)
    have hftail : ∀ x ∈ fs, 0 ≤ x.2 := fun x hx => hf x (by simp [hx])
    have hwtail : ∀ x ∈ ws, 0 ≤ x.2 := fun x hx => hw x (by simp [hx])
    intro t ht
    rw [smartMatchLoop] at ht
    rcases List.mem_cons.mp ht with rfl | ht'
    · exact le_min hfpos hwpos
    · by_cases hf0 : f - min f w = 0
      · by_cases hw0 : w - min f w = 0
        · rw [if_pos hf0, if_pos hw0] at ht'
          exact ih1 hftail hwtail t ht'
        · rw [if_pos hf0, if_neg hw0] at ht'
          have hwtail2 : ∀ x ∈ (wid, w - min f w) :: ws, 0 ≤ x.2 := by
            intro x hx
            rcases List.mem_cons.mp hx with h | h
            · rw [h]
              dsimp only
              have := min_le_right f w
              linarith
            · exact hwtail x h
          exact ih2 hftail hwtail2 t ht'
      · rw [if_neg hf0] at ht'
        have hftail2 : ∀ x ∈ (fid, f - min f w) :: fs, 0 ≤ x.2 := by
          intro x hx
          rcases List.mem_cons.mp hx with h | h
          · rw [h]
            dsimp only
            have := min_le_left f w
            linarith
          · exact hftail x h
        exact ih3 hftail2 hwtail t ht'

/-- Per-funding attribution bound of the cursor loop: with no duplicate
funding ids and nonnegative remainders, the total amount attributed to a
funding id never exceeds its input remainder. -/
theorem smartMatchLoop_attrF_le :
    ∀ fs ws : List (Nat × ℤ), (fs.map (fun x => x.1)).Nodup →
      (∀ x ∈ fs, 0 ≤ x.2) → (∀ x ∈ ws, 0 ≤ x.2) →
      ∀ fid, attrF fid (smartMatchLoop fs ws) ≤ lookupVal fid fs := by
  intro fs ws
  induction fs, ws using smartMatchLoop.induct with
  | case1 ws =>
    intro _ _ hw fid
    rw [smartMatchLoop]
    simp [attrF, lookupVal]
  | case2 x fs =>
    intro hnd hf _ fid
    rw [smartMatchLoop]
    show (0 : ℤ) ≤ lookupVal fid (x :: fs)
    exact lookupVal_nonneg fid (x :: fs) hf
  | case3 fid0 f fs wid w ws m ih1 ih2 ih3 =>
    have hm : m = min f w := rfl
    rw [hm] at ih2 ih3
    intro hnd hf hw fid
    have hfpos : 0 ≤ f := hf (fid0, f) (by simp)
    have hwpos : 0 ≤ w := hw (wid, w) (by simp)
    have hftail : ∀ x ∈ fs, 0 ≤ x.2 := fun x hx => hf x (by simp [hx])
    have hwtail : ∀ x ∈ ws, 0 ≤ x.2 := fun x hx => hw x (by simp [hx])
    rw [List.map_cons, List.nodup_cons] at hnd
    have hfl2 : ∀ x ∈ (fid0, f - min f w) :: fs, 0 ≤ x.2 := by
      intro x hx
      rcases List.mem_cons.mp hx with h | h
      · rw [h]
        dsimp only
        have := min_le_left f w
        linarith
      · exact hftail x h
    have hwl2 : ∀ x ∈ (wid, w - min f w) :: ws, 0 ≤ x.2 := by
      intro x hx
      rcases List.mem_cons.mp hx with h | h
      · rw [h]
        dsimp only
        have := min_le_right f w
        linarith
      · exact hwtail x h
    have hnd2 : (((fid0, f - min f w) :: fs).map (fun x => x.1)).Nodup := by
      simp only [List.map_cons]
      exact List.nodup_cons.mpr ⟨hnd.1, hnd.2⟩
    rw [smartMatchLoop]
    simp only [attrF]
    rw [lookupVal_cons]
    dsimp only
    by_cases hg : (fid0 == fid) = true
    · have hfid : fid0 = fid := by simpa using hg
      rw [if_pos hg, if_pos hg]
      by_cases hf0 : f - min f w = 0
      · by_cases hw0 : w - min f w = 0
        · rw [if_pos hf0, if_pos hw0]
          have hz : attrF fid (smartMatchLoop fs ws) = 0 := by
            refine attrF_eq_zero ?_
            intro t ht hEq
            exact hnd.1 (by
              rw [← hfid] at hEq
              rw [← hEq]
              exact smartMatchLoop_fids fs ws t ht)
          rw [hz]
          have := min_le_left f w
          linarith
        · rw [if_pos hf0, if_neg hw0]
          have hz : attrF fid
              (smartMatchLoop fs ((wid, w - min f w) :: ws)) = 0 := by
            refine attrF_eq_zero ?_
            intro t ht hEq
            exact hnd.1 (by
              rw [← hfid] at hEq
              rw [← hEq]
              exact smartMatchLoop_fids fs _ t ht)
          rw [hz]
          have := min_le_left f w
          linarith
      · rw [if_neg hf0]
        have hb := ih3 hnd2 hfl2 hwtail fid
        rw [lookupVal_cons] at hb
        dsimp only at hb
        rw [if_pos hg] at hb
        linarith
    · rw [if_neg hg, if_neg hg]
      by_cases hf0 : f - min f w = 0
      · by_cases hw0 : w - min f w = 0
        · rw [if_pos hf0, if_pos hw0]
          have hb := ih1 hnd.2 hftail hwtail fid
          linarith
        · rw [if_pos hf0, if_neg hw0]
          have hb := ih2 hnd.2 hftail hwl2 fid
          linarith
      · rw [if_neg hf0]
        have hb := ih3 hnd2 hfl2 hwtail fid
        rw [lookupVal_cons] at hb
        dsimp only at hb
        rw [if_neg hg] at hb
        linarith

/-- Per-withdrawal attribution bound of the cursor loop. -/
theorem smartMatchLoop_attrW_le :
    ∀ fs ws : List (Nat × ℤ), (ws.map (fun x => x.1)).Nodup →
      (∀ x ∈ fs, 0 ≤ x.2) → (∀ x ∈ ws, 0 ≤ x.2) →
      ∀ wid, attrW wid (smartMatchLoop fs ws) ≤ lookupVal wid ws := by
  intro fs ws
  induction fs, ws using smartMatchLoop.induct with
  | case1 ws =>
    intro _ _ hw wid
    rw [smartMatchLoop]
    show (0 : ℤ) ≤ lookupVal wid ws
    exact lookupVal_nonneg wid ws hw
  | case2 x fs =>
    intro _ _ _ wid
    rw [smartMatchLoop]
    simp [attrW, lookupVal]
  | case3 fid0 f fs wid0 w ws m ih1 ih2 ih3 =>
    have hm : m = min f w := rfl
    rw [hm] at ih2 ih3
    intro hnd hf hw wid
    have hfpos : 0 ≤ f := hf (fid0, f) (by simp)
    have hwpos : 0 ≤ w := hw (wid0, w) (by simp)
    have hftail : ∀ x ∈ fs, 0 ≤ x.2 := fun x hx => hf x (by simp [hx])
    have hwtail : ∀ x ∈ ws, 0 ≤ x.2 := fun x hx => hw x (by simp [hx])
    rw [List.map_cons, List.nodup_cons] at hnd
    have hfl2 : ∀ x ∈ (fid0, f - min f w) :: fs, 0 ≤ x.2 := by
      intro x hx
      rcases List.mem_cons.mp hx with h | h
      · rw [h]
        dsimp only
        have := min_le_left f w
        linarith
      · exact hftail x h
    have hwl2 : ∀ x ∈ (wid0, w - min f w) :: ws, 0 ≤ x.2 := by
      intro x hx
      rcases List.mem_cons.mp hx with h | h
      · rw [h]
        dsimp only
        have := min_le_right f w
        linarith
      · exact hwtail x h
    have hnd2 : (((wid0, w - min f w) :: ws).map (fun x => x.1)).Nodup := by
      simp only [List.map_cons]
      exact List.nodup_cons.mpr ⟨hnd.1, hnd.2⟩
    rw [smartMatchLoop]
    simp only [attrW]
    rw [lookupVal_cons]
    dsimp only
    by_cases hg : (wid0 == wid) = true
    · have hwid : wid0 = wid := by simpa using hg
      rw [if_pos hg, if_pos hg]
      by_cases hf0 : f - min f w = 0
      · by_cases hw0 : w - min f w = 0
        · rw [if_pos hf0, if_pos hw0]
          have hz : attrW wid (smartMatchLoop fs ws) = 0 := by
            refine attrW_eq_zero ?_
            intro t ht hEq
            exact hnd.1 (by
              rw [← hwid] at hEq
              rw [← hEq]
              exact smartMatchLoop_wids fs ws t ht)
          rw [hz]
          have := min_le_right f w
          linarith
        · rw [if_pos hf0, if_neg hw0]
          have hb := ih2 hnd2 hftail hwl2 wid
          rw [lookupVal_cons] at hb
          dsimp only at hb
          rw [if_pos hg] at hb
          linarith
      · rw [if_neg hf0]
        have hz : attrW wid
            (smartMatchLoop ((fid0, f - min f w) :: fs) ws) = 0 := by
          refine attrW_eq_zero ?_
          intro t ht hEq
          exact hnd.1 (by
            rw [← hwid] at hEq
            rw [← hEq]
            exact smartMatchLoop_wids _ ws t ht)
        rw [hz]
        have := min_le_right f w
        linarith
    · rw [if_neg hg, if_neg hg]
      by_cases hf0 : f - min f w = 0
      · by_cases hw0 : w - min f w = 0
        · rw [if_pos hf0, if_pos hw0]
          have hb := ih1 hnd.2 hftail hwtail wid
          linarith
        · rw [if_pos hf0, if_neg hw0]
          have hb := ih2 hnd2 hftail hwl2 wid
          rw [lookupVal_cons] at hb
          dsimp only at hb
          rw [if_neg hg] at hb
          linarith
      · rw [if_neg hf0]
        have hb := ih3 hnd.2 hfl2 hwtail wid
        linarith

/-! Pointwise comparison of `amount_remaining` between two stores. -/

/-- Every funding request of `db'` evolved from one of `db` with the same id
and an `amount_remaining` that did not grow. -/
def fundingLe (db' db : DB) : Prop :=
  ∀ fid f', findFunding db' fid = some f' →
    ∃ f, findFunding db fid = some f ∧
      f'.amount_remaining ≤ f.amount_remaining

/-- Withdrawal-side analogue of `fundingLe`. -/
def withdrawalLe (db' db : DB) : Prop :=
  ∀ wid w', findWithdrawal db' wid = some w' →
    ∃ w, findWithdrawal db wid = some w ∧
      w'.amount_remaining ≤ w.amount_remaining

theorem fundingLe_refl (db : DB) : fundingLe db db :=
  fun _ f' h => ⟨f', h, le_refl _⟩

theorem withdrawalLe_refl (db : DB) : withdrawalLe db db :=
  fun _ w' h => ⟨w', h, le_refl _⟩

theorem findFunding_congr (d' d : DB)
    (h : d'.funding_requests = d.funding_requests) (i : Nat) :
    findFunding d' i = findFunding d i := by
  simp only [findFunding]
  rw [h]

theorem findWithdrawal_congr (d' d : DB)
    (h : d'.withdrawal_requests = d.withdrawal_requests) (i : Nat) :
    findWithdrawal d' i = findWithdrawal d i := by
  simp only [findWithdrawal]
  rw [h]

theorem fundingLe_of_eq (db' db : DB)
    (h : db'.funding_requests = db.funding_requests) : fundingLe db' db := by
  intro fid f' hf'
  rw [findFunding_congr db' db h] at hf'
  exact ⟨f', hf', le_refl _⟩

theorem withdrawalLe_of_eq (db' db : DB)
    (h : db'.withdrawal_requests = db.withdrawal_requests) :
    withdrawalLe db' db := by
  intro wid w' hw'
  rw [findWithdrawal_congr db' db h] at hw'
  exact ⟨w', hw', le_refl _⟩

theorem fundingLe_of_map (db' db : DB) (i : Nat)
    (g : FundingRequest → FundingRequest)
    (hg : ∀ r, (g r).id = r.id)
    (hle : ∀ r, (g r).amount_remaining ≤ r.amount_remaining)
    (hsh : db'.funding_requests = db.funding_requests.map
      (fun r => if r.id == i then g r else r)) : fundingLe db' db := by
  intro fid f' hf'
  have hff : findFunding db' fid = (findFunding db fid).map
      (fun r => if r.id == i then g r else r) := by
    simp only [findFunding]
    rw [hsh]
    exact find?_map_update db.funding_requests (fun r => r.id) i fid g hg
  rw [hff] at hf'
  cases hfd : findFunding db fid with
  | none =>
    rw [hfd] at hf'
    cases hf'
  | some f =>
    rw [hfd] at hf'
    simp only [Option.map_some'] at hf'
    refine ⟨f, rfl, ?_⟩
    rw [← Option.some_inj.mp hf']
    split
    · exact hle f
    · exact le_refl _

theorem withdrawalLe_of_map (db' db : DB) (i : Nat)
    (g : WithdrawalRequest → WithdrawalRequest)
    (hg : ∀ r, (g r).id = r.id)
    (hle : ∀ r, (g r).amount_remaining ≤ r.amount_remaining)
    (hsh : db'.withdrawal_requests = db.withdrawal_requests.map
      (fun r => if r.id == i then g r else r)) : withdrawalLe db' db := by
  intro wid w' hw'
  have hww : findWithdrawal db' wid = (findWithdrawal db wid).map
      (fun r => if r.id == i then g r else r) := by
    simp only [findWithdrawal]
    rw [hsh]
    exact find?_map_update db.withdrawal_requests (fun r => r.id) i wid g hg
  rw [hww] at hw'
  cases hwd : findWithdrawal db wid with
  | none =>
    rw [hwd] at hw'
    cases hw'
  | some w =>
    rw [hwd] at hw'
    simp only [Option.map_some'] at hw'
    refine ⟨w, rfl, ?_⟩
    rw [← Option.some_inj.mp hw']
    split
    · exact hle w
    · exact le_refl _

theorem fundingLe_of_filter (db' db : DB) (q : FundingRequest → Bool)
    (hnodup : (db.funding_requests.map (fun r => r.id)).Nodup)
    (hsh : db'.funding_requests = db.funding_requests.filter q) :
    fundingLe db' db := by
  intro fid f' hf'
  simp only [findFunding] at hf'
  rw [hsh] at hf'
  have hmem : f' ∈ db.funding_requests :=
    List.mem_filter.mp (List.mem_of_find?_eq_some hf') |>.1
  have hid : f'.id = fid := by simpa using List.find?_some hf'
  refine ⟨f', ?_, le_refl _⟩
  exact find?_eq_of_mem_of_nodup db.funding_requests (fun r => r.id) hnodup
    f' hmem fid hid

theorem withdrawalLe_of_filter (db' db : DB)
    (q : WithdrawalRequest → Bool)
    (hnodup : (db.withdrawal_requests.map (fun r => r.id)).Nodup)
    (hsh : db'.withdrawal_requests = db.withdrawal_requests.filter q) :
    withdrawalLe db' db := by
  intro wid w' hw'
  simp only [findWithdrawal] at hw'
  rw [hsh] at hw'
  have hmem : w' ∈ db.withdrawal_requests :=
    List.mem_filter.mp (List.mem_of_find?_eq_some hw') |>.1
  have hid : w'.id = wid := by simpa using List.find?_some hw'
  refine ⟨w', ?_, le_refl _⟩
  exact find?_eq_of_mem_of_nodup db.withdrawal_requests (fun r => r.id)
    hnodup w' hmem wid hid

theorem settleFundingSlice_id (cid now : Nat) (a : ℤ) (f : FundingRequest) :
    (settleFundingSlice cid now a f).id = f.id := by
  simp only [settleFundingSlice]
  split <;> rfl

theorem settleFundingSlice_amount_remaining (cid now : Nat) (a : ℤ)
    (f : FundingRequest) :
    (settleFundingSlice cid now a f).amount_remaining =
      f.amount_remaining - a := by
  simp only [settleFundingSlice]
  split <;> rfl

theorem settleWithdrawalSlice_id (cid now : Nat) (a : ℤ)
    (w : WithdrawalRequest) :
    (settleWithdrawalSlice cid now a w).id = w.id := by
  simp only [settleWithdrawalSlice]
  split <;> rfl

theorem settleWithdrawalSlice_amount_remaining (cid now : Nat) (a : ℤ)
    (w : WithdrawalRequest) :
    (settleWithdrawalSlice cid now a w).amount_remaining =
      w.amount_remaining - a := by
  simp only [settleWithdrawalSlice]
  split <;> rfl

/-- What one `applyMatch` does to the funding table: unchanged when the
funding lookup misses, else one id-guarded settle. -/
theorem applyMatch_funding_cases (cid now : Nat) (d : DB)
    (t : Nat × Nat × ℤ) :
    ((applyMatch cid now d t).funding_requests = d.funding_requests ∧
      findFunding d t.1 = none) ∨
    (applyMatch cid now d t).funding_requests = d.funding_requests.map
      (fun r => if r.id == t.1 then settleFundingSlice cid now t.2.2 r
        else r) := by
  cases hc : findFunding d t.1 with
  | none =>
    left
    refine ⟨?_, rfl⟩
    simp only [findFunding] at hc
    simp only [applyMatch, findFunding]
    rw [hc]
    dsimp only
    repeat' split
    all_goals rfl
  | some g =>
    right
    simp only [findFunding] at hc
    simp only [applyMatch, findFunding]
    rw [hc]
    dsimp only
    repeat' split
    all_goals rfl

/-- What one `applyMatch` does to the withdrawal table. -/
theorem applyMatch_withdrawal_cases (cid now : Nat) (d : DB)
    (t : Nat × Nat × ℤ) :
    ((applyMatch cid now d t).withdrawal_requests =
        d.withdrawal_requests ∧ findWithdrawal d t.2.1 = none) ∨
    (applyMatch cid now d t).withdrawal_requests =
      d.withdrawal_requests.map
        (fun r => if r.id == t.2.1 then settleWithdrawalSlice cid now t.2.2 r
          else r) := by
  cases hc : findWithdrawal d t.2.1 with
  | none =>
    left
    refine ⟨?_, rfl⟩
    simp only [findWithdrawal] at hc
    simp only [applyMatch]
    split
    · split
      · rfl
      · rfl
    · rename_i wreq heq
      exfalso
      split at heq
      · simp only [findWithdrawal] at heq
        rw [hc] at heq
        cases heq
      · simp only [findWithdrawal, updFunding] at heq
        rw [hc] at heq
        cases heq
  | some g =>
    right
    simp only [findWithdrawal] at hc
    simp only [applyMatch]
    split
    · rename_i heq
      exfalso
      split at heq
      · simp only [findWithdrawal] at heq
        rw [hc] at heq
        cases heq
      · simp only [findWithdrawal, updFunding] at heq
        rw [hc] at heq
        cases heq
    · split
      · rfl
      · rfl

/-- One `applyMatch` step, seen from a single funding request: its
remainder drops by exactly the amount the triple attributes to it. -/
theorem applyMatch_findFunding_step (cid now : Nat) (d : DB)
    (t : Nat × Nat × ℤ) (fid : Nat) (f : FundingRequest)
    (hf : findFunding d fid = some f) :
    ∃ f', findFunding (applyMatch cid now d t) fid = some f' ∧
      f'.amount_remaining =
        f.amount_remaining - (if t.1 == fid then t.2.2 else 0) := by
  rcases applyMatch_funding_cases cid now d t with ⟨hc, hnone⟩ | hc
  · have hne : (t.1 == fid) = false := by
      cases hb : (t.1 == fid) with
      | false => rfl
      | true =>
        have ht1 : t.1 = fid := by simpa using hb
        rw [ht1, hf] at hnone
        cases hnone
    refine ⟨f, ?_, ?_⟩
    · rw [findFunding_congr _ d hc]
      exact hf
    · rw [hne]
      simp
  · have hff : findFunding (applyMatch cid now d t) fid =
        (findFunding d fid).map
          (fun r => if r.id == t.1 then settleFundingSlice cid now t.2.2 r
            else r) := by
      simp only [findFunding]
      rw [hc]
      exact find?_map_update d.funding_requests (fun r => r.id) t.1 fid
        (settleFundingSlice cid now t.2.2)
        (fun r => settleFundingSlice_id cid now t.2.2 r)
    rw [hff, hf]
    simp only [Option.map_some']
    refine ⟨_, rfl, ?_⟩
    have hfid : f.id = fid := findFunding_id hf
    by_cases hg : t.1 = fid
    · rw [if_pos (by simp [hfid, hg]), if_pos (by simp [hg])]
      rw [settleFundingSlice_amount_remaining]
    · rw [if_neg (by simp [hfid]; omega), if_neg (by simp [hg])]
      simp

/-- One `applyMatch` step, seen from a single withdrawal request. -/
theorem applyMatch_findWithdrawal_step (cid now : Nat) (d : DB)
    (t : Nat × Nat × ℤ) (wid : Nat) (w : WithdrawalRequest)
    (hw : findWithdrawal d wid = some w) :
    ∃ w', findWithdrawal (applyMatch cid now d t) wid = some w' ∧
      w'.amount_remaining =
        w.amount_remaining - (if t.2.1 == wid then t.2.2 else 0) := by
  rcases applyMatch_withdrawal_cases cid now d t with ⟨hc, hnone⟩ | hc
  · have hne : (t.2.1 == wid) = false := by
      cases hb : (t.2.1 == wid) with
      | false => rfl
      | true =>
        have ht1 : t.2.1 = wid := by simpa using hb
        rw [ht1, hw] at hnone
        cases hnone
    refine ⟨w, ?_, ?_⟩
    · rw [findWithdrawal_congr _ d hc]
      exact hw
    · rw [hne]
      simp
  · have hww : findWithdrawal (applyMatch cid now d t) wid =
        (findWithdrawal d wid).map
          (fun r => if r.id == t.2.1 then
            settleWithdrawalSlice cid now t.2.2 r else r) := by
      simp only [findWithdrawal]
      rw [hc]
      exact find?_map_update d.withdrawal_requests (fun r => r.id) t.2.1 wid
        (settleWithdrawalSlice cid now t.2.2)
        (fun r => settleWithdrawalSlice_id cid now t.2.2 r)
    rw [hww, hw]
    simp only [Option.map_some']
    refine ⟨_, rfl, ?_⟩
    have hwid : w.id = wid := findWithdrawal_id hw
    by_cases hg : t.2.1 = wid
    · rw [if_pos (by simp [hwid, hg]), if_pos (by simp [hg])]
      rw [settleWithdrawalSlice_amount_remaining]
    · rw [if_neg (by simp [hwid]; omega), if_neg (by simp [hg])]
      simp

/-- Replay of a whole match list over the funding table. -/
theorem foldl_applyMatch_findFunding (cid now : Nat) :
    ∀ (ms : List (Nat × Nat × ℤ)) (d : DB) (fid : Nat)
      (f : FundingRequest), findFunding d fid = some f →
      ∃ f', findFunding (ms.foldl (applyMatch cid now) d) fid = some f' ∧
        f'.amount_remaining = f.amount_remaining - attrF fid ms := by
  intro ms
  induction ms with
  | nil =>
    intro d fid f hf
    exact ⟨f, hf, by simp [attrF]⟩
  | cons t ms ih =>
    intro d fid f hf
    obtain ⟨f1, hf1, he1⟩ := applyMatch_findFunding_step cid now d t fid f hf
    obtain ⟨f', hf', he'⟩ := ih (applyMatch cid now d t) fid f1 hf1
    refine ⟨f', hf', ?_⟩
    rw [he', he1]
    simp only [attrF]
    ring

/-- Replay of a whole match list over the withdrawal table. -/
theorem foldl_applyMatch_findWithdrawal (cid now : Nat) :
    ∀ (ms : List (Nat × Nat × ℤ)) (d : DB) (wid : Nat)
      (w : WithdrawalRequest), findWithdrawal d wid = some w →
      ∃ w', findWithdrawal (ms.foldl (applyMatch cid now) d) wid = some w' ∧
        w'.amount_remaining = w.amount_remaining - attrW wid ms := by
  intro ms
  induction ms with
  | nil =>
    intro d wid w hw
    exact ⟨w, hw, by simp [attrW]⟩
  | cons t ms ih =>
    intro d wid w hw
    obtain ⟨w1, hw1, he1⟩ :=
      applyMatch_findWithdrawal_step cid now d t wid w hw
    obtain ⟨w', hw', he'⟩ := ih (applyMatch cid now d t) wid w1 hw1
    refine ⟨w', hw', ?_⟩
    rw [he', he1]
    simp only [attrW]
    ring

/-- `applyMatch` never changes the list of funding ids. -/
theorem applyMatch_funding_ids (cid now : Nat) (d : DB)
    (t : Nat × Nat × ℤ) :
    (applyMatch cid now d t).funding_requests.map (fun f => f.id) =
      d.funding_requests.map (fun f => f.id) := by
  rcases applyMatch_funding_cases cid now d t with ⟨hc, _⟩ | hc
  · rw [hc]
  · rw [hc, List.map_map]
    have hcomp : ((fun f : FundingRequest => f.id) ∘
        (fun r => if r.id == t.1 then settleFundingSlice cid now t.2.2 r
          else r)) = (fun f : FundingRequest => f.id) := by
      funext r
      by_cases hr : (r.id == t.1) = true <;>
        simp [Function.comp, hr, settleFundingSlice_id]
    rw [hcomp]

/-- `applyMatch` never changes the list of withdrawal ids. -/
theorem applyMatch_withdrawal_ids (cid now : Nat) (d : DB)
    (t : Nat × Nat × ℤ) :
    (applyMatch cid now d t).withdrawal_requests.map (fun w => w.id) =
      d.withdrawal_requests.map (fun w => w.id) := by
  rcases applyMatch_withdrawal_cases cid now d t with ⟨hc, _⟩ | hc
  · rw [hc]
  · rw [hc, List.map_map]
    have hcomp : ((fun w : WithdrawalRequest => w.id) ∘
        (fun r => if r.id == t.2.1 then settleWithdrawalSlice cid now t.2.2 r
          else r)) = (fun w : WithdrawalRequest => w.id) := by
      funext r
      by_cases hr : (r.id == t.2.1) = true <;>
        simp [Function.comp, hr, settleWithdrawalSlice_id]
    rw [hcomp]

theorem fundingLe_trans (d2 d1 d0 : DB) (h21 : fundingLe d2 d1)
    (h10 : fundingLe d1 d0) : fundingLe d2 d0 := by
  intro fid f2 h2
  obtain ⟨f1, h1, le1⟩ := h21 fid f2 h2
  obtain ⟨f0, h0, le0⟩ := h10 fid f1 h1
  exact ⟨f0, h0, le_trans le1 le0⟩

theorem withdrawalLe_trans (d2 d1 d0 : DB) (h21 : withdrawalLe d2 d1)
    (h10 : withdrawalLe d1 d0) : withdrawalLe d2 d0 := by
  intro wid w2 h2
  obtain ⟨w1, h1, le1⟩ := h21 wid w2 h2
  obtain ⟨w0, h0, le0⟩ := h10 wid w1 h1
  exact ⟨w0, h0, le_trans le1 le0⟩

theorem smart_match_amounts_nonneg (fs ws : List (Nat × ℤ))
    (hf : ∀ x ∈ fs, 0 ≤ x.2) (hw : ∀ x ∈ ws, 0 ≤ x.2) :
    ∀ t ∈ smart_match_requests fs ws, 0 ≤ t.2.2 :=
  fun t ht => smartMatchLoop_amounts_nonneg _ _
    (fun x hx => hf x (mem_sortByRemaining.mp hx))
    (fun x hx => hw x (mem_sortByRemaining.mp hx)) t ht

theorem smart_match_attrF_le (fs ws : List (Nat × ℤ))
    (hnodup : (fs.map (fun x => x.1)).Nodup)
    (hf : ∀ x ∈ fs, 0 ≤ x.2) (hw : ∀ x ∈ ws, 0 ≤ x.2) (fid : Nat) :
    attrF fid (smart_match_requests fs ws) ≤ lookupVal fid fs := by
  have hndS : ((sortByRemaining fs).map (fun x => x.1)).Nodup :=
    (List.Perm.nodup_iff ((List.perm_insertionSort _ fs).map _)).mpr hnodup
  have hb := smartMatchLoop_attrF_le (sortByRemaining fs)
    (sortByRemaining ws) hndS
    (fun x hx => hf x (mem_sortByRemaining.mp hx))
    (fun x hx => hw x (mem_sortByRemaining.mp hx)) fid
  calc attrF fid (smart_match_requests fs ws) ≤
        lookupVal fid (sortByRemaining fs) := hb
    _ = lookupVal fid fs :=
        lookupVal_eq_of_perm _ _ (List.perm_insertionSort _ fs) hnodup fid

theorem smart_match_attrW_le (fs ws : List (Nat × ℤ))
    (hnodup : (ws.map (fun x => x.1)).Nodup)
    (hf : ∀ x ∈ fs, 0 ≤ x.2) (hw : ∀ x ∈ ws, 0 ≤ x.2) (wid : Nat) :
    attrW wid (smart_match_requests fs ws) ≤ lookupVal wid ws := by
  have hndS : ((sortByRemaining ws).map (fun x => x.1)).Nodup :=
    (List.Perm.nodup_iff ((List.perm_insertionSort _ ws).map _)).mpr hnodup
  have hb := smartMatchLoop_attrW_le (sortByRemaining fs)
    (sortByRemaining ws) hndS
    (fun x hx => hf x (mem_sortByRemaining.mp hx))
    (fun x hx => hw x (mem_sortByRemaining.mp hx)) wid
  calc attrW wid (smart_match_requests fs ws) ≤
        lookupVal wid (sortByRemaining ws) := hb
    _ = lookupVal wid ws :=
        lookupVal_eq_of_perm _ _ (List.perm_insertionSort _ ws) hnodup wid

theorem lookupVal_eligible_le_funding (l : List FundingRequest)
    (q : FundingRequest → Bool)
    (hnodup : (l.map (fun r => r.id)).Nodup) (fid : Nat)
    (f : FundingRequest) (hf : l.find? (fun r => r.id == fid) = some f)
    (hnn : 0 ≤ f.amount_remaining) :
    lookupVal fid ((l.filter q).map
      (fun r => (r.id, r.amount_remaining))) ≤ f.amount_remaining := by
  simp only [lookupVal]
  cases hx : ((l.filter q).map (fun r => (r.id, r.amount_remaining))).find?
      (fun x => x.1 == fid) with
  | none => exact hnn
  | some x =>
    have hxm := List.mem_of_find?_eq_some hx
    have hxp := List.find?_some hx
    rcases List.mem_map.mp hxm with ⟨g, hg, rfl⟩
    have hgid : g.id = fid := by simpa using hxp
    have hgmem : g ∈ l := (List.mem_filter.mp hg).1
    have hfind : l.find? (fun r => r.id == fid) = some g :=
      find?_eq_of_mem_of_nodup l (fun r => r.id) hnodup g hgmem fid hgid
    rw [hf] at hfind
    rw [← Option.some_inj.mp hfind]

theorem lookupVal_eligible_le_withdrawal (l : List WithdrawalRequest)
    (q : WithdrawalRequest → Bool)
    (hnodup : (l.map (fun r => r.id)).Nodup) (wid : Nat)
    (w : WithdrawalRequest) (hw : l.find? (fun r => r.id == wid) = some w)
    (hnn : 0 ≤ w.amount_remaining) :
    lookupVal wid ((l.filter q).map
      (fun r => (r.id, r.amount_remaining))) ≤ w.amount_remaining := by
  simp only [lookupVal]
  cases hx : ((l.filter q).map (fun r => (r.id, r.amount_remaining))).find?
      (fun x => x.1 == wid) with
  | none => exact hnn
  | some x =>
    have hxm := List.mem_of_find?_eq_some hx
    have hxp := List.find?_some hx
    rcases List.mem_map.mp hxm with ⟨g, hg, rfl⟩
    have hgid : g.id = wid := by simpa using hxp
    have hgmem : g ∈ l := (List.mem_filter.mp hg).1
    have hfind : l.find? (fun r => r.id == wid) = some g :=
      find?_eq_of_mem_of_nodup l (fun r => r.id) hnodup g hgmem wid hgid
    rw [hw] at hfind
    rw [← Option.some_inj.mp hfind]

theorem foldl_applyMatch_funding_ids (cid now : Nat)
    (ms : List (Nat × Nat × ℤ)) :
    ∀ d : DB, ((ms.foldl (applyMatch cid now) d).funding_requests.map
      (fun f => f.id)) = d.funding_requests.map (fun f => f.id) := by
  induction ms with
  | nil => intro d; rfl
  | cons t ms ih =>
    intro d
    rw [List.foldl_cons]
    exact (ih (applyMatch cid now d t)).trans
      (applyMatch_funding_ids cid now d t)

theorem foldl_applyMatch_withdrawal_ids (cid now : Nat)
    (ms : List (Nat × Nat × ℤ)) :
    ∀ d : DB, ((ms.foldl (applyMatch cid now) d).withdrawal_requests.map
      (fun w => w.id)) = d.withdrawal_requests.map (fun w => w.id) := by
  induction ms with
  | nil => intro d; rfl
  | cons t ms ih =>
    intro d
    rw [List.foldl_cons]
    exact (ih (applyMatch cid now d t)).trans
      (applyMatch_withdrawal_ids cid now d t)

theorem processCurrency_funding_ids (cid now : Nat) (d : DB)
    (currency : String) :
    (processCurrency cid now d currency).funding_requests.map
      (fun f => f.id) = d.funding_requests.map (fun f => f.id) := by
  simp only [processCurrency]
  cases hfc : findCycle d cid with
  | none => rfl
  | some cycle =>
    dsimp only
    split
    · rfl
    · exact foldl_applyMatch_funding_ids cid now _ _

theorem processCurrency_withdrawal_ids (cid now : Nat) (d : DB)
    (currency : String) :
    (processCurrency cid now d currency).withdrawal_requests.map
      (fun w => w.id) = d.withdrawal_requests.map (fun w => w.id) := by
  simp only [processCurrency]
  cases hfc : findCycle d cid with
  | none => rfl
  | some cycle =>
    dsimp only
    split
    · rfl
    · exact foldl_applyMatch_withdrawal_ids cid now _ _

/-- One currency pass, seen from a single funding request: the remainder
does not grow and stays nonnegative. -/
theorem processCurrency_findFunding (cid now : Nat) (d : DB)
    (currency : String)
    (hF : ∀ f ∈ d.funding_requests, 0 ≤ f.amount_remaining)
    (hW : ∀ w ∈ d.withdrawal_requests, 0 ≤ w.amount_remaining)
    (hnodupF : (d.funding_requests.map (fun f => f.id)).Nodup)
    (fid : Nat) (f : FundingRequest) (hf : findFunding d fid = some f) :
    ∃ f', findFunding (processCurrency cid now d currency) fid = some f' ∧
      0 ≤ f'.amount_remaining ∧
      f'.amount_remaining ≤ f.amount_remaining := by
  have hfnn : 0 ≤ f.amount_remaining := hF f (findFunding_mem hf)
  simp only [processCurrency]
  cases hfc : findCycle d cid with
  | none => exact ⟨f, hf, hfnn, le_refl _⟩
  | some cycle =>
    dsimp only
    split
    · exact ⟨f, hf, hfnn, le_refl _⟩
    · obtain ⟨f', hf', he⟩ := foldl_applyMatch_findFunding cid now
        (smart_match_requests
          ((eligibleFunding d currency cycle.cutoff_time).map
            (fun f => (f.id, f.amount_remaining)))
          ((eligibleWithdrawal d currency cycle.cutoff_time).map
            (fun w => (w.id, w.amount_remaining))))
        (updCycle d cid (fun c =>
          { c with
            total_funding_requests :=
              c.total_funding_requests +
                (eligibleFunding d currency cycle.cutoff_time).length
            total_withdrawal_requests :=
              c.total_withdrawal_requests +
                (eligibleWithdrawal d currency cycle.cutoff_time).length }))
        fid f hf
      have hFlnn : ∀ x ∈ (eligibleFunding d currency
          cycle.cutoff_time).map (fun f => (f.id, f.amount_remaining)),
          0 ≤ x.2 := by
        intro x hx
        rcases List.mem_map.mp hx with ⟨g, hg, rfl⟩
        refine hF g ?_
        simp only [eligibleFunding] at hg
        exact (List.mem_filter.mp hg).1
      have hWlnn : ∀ x ∈ (eligibleWithdrawal d currency
          cycle.cutoff_time).map (fun w => (w.id, w.amount_remaining)),
          0 ≤ x.2 := by
        intro x hx
        rcases List.mem_map.mp hx with ⟨g, hg, rfl⟩
        refine hW g ?_
        simp only [eligibleWithdrawal] at hg
        exact (List.mem_filter.mp hg).1
      have hndFl : (((eligibleFunding d currency cycle.cutoff_time).map
          (fun f => (f.id, f.amount_remaining))).map
            (fun x => x.1)).Nodup := by
        rw [List.map_map]
        have hcomp : ((fun x : Nat × ℤ => x.1) ∘
            (fun f : FundingRequest => (f.id, f.amount_remaining))) =
            (fun f : FundingRequest => f.id) := rfl
        rw [hcomp]
        refine List.Nodup.sublist ?_ hnodupF
        simp only [eligibleFunding]
        exact List.Sublist.map _ (List.filter_sublist _)
      have hattr := smart_match_attrF_le
        ((eligibleFunding d currency cycle.cutoff_time).map
          (fun f => (f.id, f.amount_remaining)))
        ((eligibleWithdrawal d currency cycle.cutoff_time).map
          (fun w => (w.id, w.amount_remaining)))
        hndFl hFlnn hWlnn fid
      have hlook : lookupVal fid ((eligibleFunding d currency
          cycle.cutoff_time).map (fun f => (f.id, f.amount_remaining))) ≤
          f.amount_remaining := by
        simp only [eligibleFunding]
        exact lookupVal_eligible_le_funding d.funding_requests _ hnodupF
          fid f hf hfnn
      refine ⟨f', hf', ?_, ?_⟩
      · rw [he]
        linarith
      · rw [he]
        have hattr_nn : 0 ≤ attrF fid (smart_match_requests
            ((eligibleFunding d currency cycle.cutoff_time).map
              (fun f => (f.id, f.amount_remaining)))
            ((eligibleWithdrawal d currency cycle.cutoff_time).map
              (fun w => (w.id, w.amount_remaining)))) := by
          have hnn := smart_match_amounts_nonneg
            ((eligibleFunding d currency cycle.cutoff_time).map
              (fun f => (f.id, f.amount_remaining)))
            ((eligibleWithdrawal d currency cycle.cutoff_time).map
              (fun w => (w.id, w.amount_remaining))) hFlnn hWlnn
          clear he hf' hattr hlook
          generalize smart_match_requests _ _ = ms at hnn ⊢
          induction ms with
          | nil => simp [attrF]
          | cons t ms ih =>
            simp only [attrF]
            have h1 := hnn t (List.mem_cons_self t ms)
            have h2 := ih (fun x hx => hnn x (List.mem_cons_of_mem t hx))
            split
            · linarith
            · linarith
        linarith

/-- One currency pass, seen from a single withdrawal request. -/
theorem processCurrency_findWithdrawal (cid now : Nat) (d : DB)
    (currency : String)
    (hF : ∀ f ∈ d.funding_requests, 0 ≤ f.amount_remaining)
    (hW : ∀ w ∈ d.withdrawal_requests, 0 ≤ w.amount_remaining)
    (hnodupW : (d.withdrawal_requests.map (fun w => w.id)).Nodup)
    (wid : Nat) (w : WithdrawalRequest)
    (hw : findWithdrawal d wid = some w) :
    ∃ w', findWithdrawal (processCurrency cid now d currency) wid =
        some w' ∧
      0 ≤ w'.amount_remaining ∧
      w'.amount_remaining ≤ w.amount_remaining := by
  have hwnn : 0 ≤ w.amount_remaining := hW w (findWithdrawal_mem hw)
  simp only [processCurrency]
  cases hfc : findCycle d cid with
  | none => exact ⟨w, hw, hwnn, le_refl _⟩
  | some cycle =>
    dsimp only
    split
    · exact ⟨w, hw, hwnn, le_refl _⟩
    · obtain ⟨w', hw', he⟩ := foldl_applyMatch_findWithdrawal cid now
        (smart_match_requests
          ((eligibleFunding d currency cycle.cutoff_time).map
            (fun f => (f.id, f.amount_remaining)))
          ((eligibleWithdrawal d currency cycle.cutoff_time).map
            (fun w => (w.id, w.amount_remaining))))
        (updCycle d cid (fun c =>
          { c with
            total_funding_requests :=
              c.total_funding_requests +
                (eligibleFunding d currency cycle.cutoff_time).length
            total_withdrawal_requests :=
              c.total_withdrawal_requests +
                (eligibleWithdrawal d currency cycle.cutoff_time).length }))
        wid w hw
      have hFlnn : ∀ x ∈ (eligibleFunding d currency
          cycle.cutoff_time).map (fun f => (f.id, f.amount_remaining)),
          0 ≤ x.2 := by
        intro x hx
        rcases List.mem_map.mp hx with ⟨g, hg, rfl⟩
        refine hF g ?_
        simp only [eligibleFunding] at hg
        exact (List.mem_filter.mp hg).1
      have hWlnn : ∀ x ∈ (eligibleWithdrawal d currency
          cycle.cutoff_time).map (fun w => (w.id, w.amount_remaining)),
          0 ≤ x.2 := by
        intro x hx
        rcases List.mem_map.mp hx with ⟨g, hg, rfl⟩
        refine hW g ?_
        simp only [eligibleWithdrawal] at hg
        exact (List.mem_filter.mp hg).1
      have hndWl : (((eligibleWithdrawal d currency cycle.cutoff_time).map
          (fun w => (w.id, w.amount_remaining))).map
            (fun x => x.1)).Nodup := by
        rw [List.map_map]
        have hcomp : ((fun x : Nat × ℤ => x.1) ∘
            (fun w : WithdrawalRequest => (w.id, w.amount_remaining))) =
            (fun w : WithdrawalRequest => w.id) := rfl
        rw [hcomp]
        refine List.Nodup.sublist ?_ hnodupW
        simp only [eligibleWithdrawal]
        exact List.Sublist.map _ (List.filter_sublist _)
      have hattr := smart_match_attrW_le
        ((eligibleFunding d currency cycle.cutoff_time).map
          (fun f => (f.id, f.amount_remaining)))
        ((eligibleWithdrawal d currency cycle.cutoff_time).map
          (fun w => (w.id, w.amount_remaining)))
        hndWl hFlnn hWlnn wid
      have hlook : lookupVal wid ((eligibleWithdrawal d currency
          cycle.cutoff_time).map (fun w => (w.id, w.amount_remaining))) ≤
          w.amount_remaining := by
        simp only [eligibleWithdrawal]
        exact lookupVal_eligible_le_withdrawal d.withdrawal_requests _
          hnodupW wid w hw hwnn
      refine ⟨w', hw', ?_, ?_⟩
      · rw [he]
        linarith
      · rw [he]
        have hattr_nn : 0 ≤ attrW wid (smart_match_requests
            ((eligibleFunding d currency cycle.cutoff_time).map
              (fun f => (f.id, f.amount_remaining)))
            ((eligibleWithdrawal d currency cycle.cutoff_time).map
              (fun w => (w.id, w.amount_remaining)))) := by
          have hnn := smart_match_amounts_nonneg
            ((eligibleFunding d currency cycle.cutoff_time).map
              (fun f => (f.id, f.amount_remaining)))
            ((eligibleWithdrawal d currency cycle.cutoff_time).map
              (fun w => (w.id, w.amount_remaining))) hFlnn hWlnn
          clear he hw' hattr hlook
          generalize smart_match_requests _ _ = ms at hnn ⊢
          induction ms with
          | nil => simp [attrW]
          | cons t ms ih =>
            simp only [attrW]
            have h1 := hnn t (List.mem_cons_self t ms)
            have h2 := ih (fun x hx => hnn x (List.mem_cons_of_mem t hx))
            split
            · linarith
            · linarith
        linarith

/-- Bundled per-store properties of one currency pass. -/
theorem processCurrency_props (cid now : Nat) (d : DB) (currency : String)
    (hF : ∀ f ∈ d.funding_requests, 0 ≤ f.amount_remaining)
    (hW : ∀ w ∈ d.withdrawal_requests, 0 ≤ w.amount_remaining)
    (hnodupF : (d.funding_requests.map (fun f => f.id)).Nodup)
    (hnodupW : (d.withdrawal_requests.map (fun w => w.id)).Nodup) :
    fundingLe (processCurrency cid now d currency) d ∧
      withdrawalLe (processCurrency cid now d currency) d ∧
      (∀ f ∈ (processCurrency cid now d currency).funding_requests,
        0 ≤ f.amount_remaining) ∧
      (∀ w ∈ (processCurrency cid now d currency).withdrawal_requests,
        0 ≤ w.amount_remaining) := by
  have hidsF := processCurrency_funding_ids cid now d currency
  have hidsW := processCurrency_withdrawal_ids cid now d currency
  have hndF' : ((processCurrency cid now d currency).funding_requests.map
      (fun f => f.id)).Nodup := by
    rw [hidsF]
    exact hnodupF
  have hndW' : ((processCurrency cid now d
      currency).withdrawal_requests.map (fun w => w.id)).Nodup := by
    rw [hidsW]
    exact hnodupW
  have keyF : ∀ f2 ∈ (processCurrency cid now d currency).funding_requests,
      findFunding (processCurrency cid now d currency) f2.id = some f2 ∧
      ∃ f0, findFunding d f2.id = some f0 ∧ 0 ≤ f2.amount_remaining ∧
        f2.amount_remaining ≤ f0.amount_remaining := by
    intro f2 hmem
    have hfind : findFunding (processCurrency cid now d currency) f2.id =
        some f2 :=
      find?_eq_of_mem_of_nodup
        (processCurrency cid now d currency).funding_requests
        (fun r => r.id) hndF' f2 hmem f2.id rfl
    have hidmem : f2.id ∈ d.funding_requests.map (fun r => r.id) := by
      rw [← hidsF]
      exact List.mem_map_of_mem _ hmem
    rcases List.mem_map.mp hidmem with ⟨f0, hf0mem, hf0id⟩
    have hf0 : findFunding d f2.id = some f0 :=
      find?_eq_of_mem_of_nodup d.funding_requests
        (fun r => r.id) hnodupF f0 hf0mem f2.id hf0id
    obtain ⟨f', hf', hnn, hle⟩ := processCurrency_findFunding cid now d
      currency hF hW hnodupF f2.id f0 hf0
    rw [hfind] at hf'
    have hf2 : f2 = f' := Option.some_inj.mp hf'
    exact ⟨hfind, f0, hf0, by rw [hf2]; exact hnn,
      by rw [hf2]; exact hle⟩
  have keyW : ∀ w2 ∈
      (processCurrency cid now d currency).withdrawal_requests,
      findWithdrawal (processCurrency cid now d currency) w2.id =
        some w2 ∧
      ∃ w0, findWithdrawal d w2.id = some w0 ∧ 0 ≤ w2.amount_remaining ∧
        w2.amount_remaining ≤ w0.amount_remaining := by
    intro w2 hmem
    have hfind : findWithdrawal (processCurrency cid now d currency)
        w2.id = some w2 :=
      find?_eq_of_mem_of_nodup
        (processCurrency cid now d currency).withdrawal_requests
        (fun r => r.id) hndW' w2 hmem w2.id rfl
    have hidmem : w2.id ∈ d.withdrawal_requests.map (fun r => r.id) := by
      rw [← hidsW]
      exact List.mem_map_of_mem _ hmem
    rcases List.mem_map.mp hidmem with ⟨w0, hw0mem, hw0id⟩
    have hw0 : findWithdrawal d w2.id = some w0 :=
      find?_eq_of_mem_of_nodup d.withdrawal_requests
        (fun r => r.id) hnodupW w0 hw0mem w2.id hw0id
    obtain ⟨w', hw', hnn, hle⟩ := processCurrency_findWithdrawal cid now d
      currency hF hW hnodupW w2.id w0 hw0
    rw [hfind] at hw'
    have hw2 : w2 = w' := Option.some_inj.mp hw'
    exact ⟨hfind, w0, hw0, by rw [hw2]; exact hnn,
      by rw [hw2]; exact hle⟩
  refine ⟨?_, ?_, ?_, ?_⟩
  · intro fid f' hf'
    have hmem := findFunding_mem hf'
    have hid := findFunding_id hf'
    obtain ⟨_, f0, hf0, _, hle⟩ := keyF f' hmem
    rw [hid] at hf0
    exact ⟨f0, hf0, hle⟩
  · intro wid w' hw'
    have hmem := findWithdrawal_mem hw'
    have hid := findWithdrawal_id hw'
    obtain ⟨_, w0, hw0, _, hle⟩ := keyW w' hmem
    rw [hid] at hw0
    exact ⟨w0, hw0, hle⟩
  · intro f2 hmem
    obtain ⟨_, _, _, hnn, _⟩ := keyF f2 hmem
    exact hnn
  · intro w2 hmem
    obtain ⟨_, _, _, hnn, _⟩ := keyW w2 hmem
    exact hnn

/-- Full merge cycle: request remainders never grow and stay
nonnegative. -/
theorem run_merge_cycle_request_props (d : DB) (cid now : Nat)
    (hF : ∀ f ∈ d.funding_requests, 0 ≤ f.amount_remaining)
    (hW : ∀ w ∈ d.withdrawal_requests, 0 ≤ w.amount_remaining)
    (hnodupF : (d.funding_requests.map (fun f => f.id)).Nodup)
    (hnodupW : (d.withdrawal_requests.map (fun w => w.id)).Nodup) :
    fundingLe (run_merge_cycle d cid now) d ∧
      withdrawalLe (run_merge_cycle d cid now) d ∧
      (∀ f ∈ (run_merge_cycle d cid now).funding_requests,
        0 ≤ f.amount_remaining) ∧
      (∀ w ∈ (run_merge_cycle d cid now).withdrawal_requests,
        0 ≤ w.amount_remaining) := by
  simp only [run_merge_cycle]
  cases hfc : findCycle d cid with
  | none => exact ⟨fundingLe_refl d, withdrawalLe_refl d, hF, hW⟩
  | some cycle =>
    dsimp only
    split
    · exact ⟨fundingLe_refl d, withdrawalLe_refl d, hF, hW⟩
    · simp only [List.foldl_cons, List.foldl_nil]
      obtain ⟨hLe1F, hLe1W, hnn1F, hnn1W⟩ := processCurrency_props cid now
        (updCycle d cid (fun c =>
          { c with
            status := "processing"
            started_at := some now })) "NAIRA" hF hW hnodupF hnodupW
      have hids1F := processCurrency_funding_ids cid now
        (updCycle d cid (fun c =>
          { c with
            status := "processing"
            started_at := some now })) "NAIRA"
      have hids1W := processCurrency_withdrawal_ids cid now
        (updCycle d cid (fun c =>
          { c with
            status := "processing"
            started_at := some now })) "NAIRA"
      obtain ⟨hLe2F, hLe2W, hnn2F, hnn2W⟩ := processCurrency_props cid now
        (processCurrency cid now
          (updCycle d cid (fun c =>
            { c with
              status := "processing"
              started_at := some now })) "NAIRA") "USDT" hnn1F hnn1W
        (by rw [hids1F]; exact hnodupF)
        (by rw [hids1W]; exact hnodupW)
      exact ⟨fundingLe_trans _ _ _ hLe2F hLe1F,
        withdrawalLe_trans _ _ _ hLe2W hLe1W, hnn2F, hnn2W⟩

/-! Remaining-amount behaviour of the non-merge operations. -/

theorem uploadProofLate_funding_requests (db : DB)
    (pair : FundingMatchPair) (freq : FundingRequest) (pid : Nat) :
    (uploadProofLate db pair freq pid).funding_requests =
      db.funding_requests := by
  simp only [uploadProofLate]
  repeat' split
  all_goals rfl

theorem upload_funding_requests (db : DB) (pid now : Nat) (url : String) :
    (upload_proof db pid now url).1.funding_requests =
      db.funding_requests := by
  unfold upload_proof
  repeat' split
  all_goals first
  | rfl
  | exact uploadProofLate_funding_requests _ _ _ _

/-- What the late branch does to the withdrawal table. -/
theorem uploadProofLate_withdrawal_cases (db : DB)
    (pair : FundingMatchPair) (freq : FundingRequest) (pid : Nat) :
    ((uploadProofLate db pair freq pid).withdrawal_requests =
        db.withdrawal_requests ∧
      findWithdrawal db pair.withdrawal_request_id = none) ∨
    (uploadProofLate db pair freq pid).withdrawal_requests =
      db.withdrawal_requests.map
        (fun r => if r.id == pair.withdrawal_request_id then
          requeueWithdrawal pair.amount r else r) := by
  cases hc : findWithdrawal db pair.withdrawal_request_id with
  | none =>
    left
    refine ⟨?_, rfl⟩
    simp only [findWithdrawal] at hc
    simp only [uploadProofLate, findWithdrawal, updWallet]
    rw [hc]
    rfl
  | some g =>
    right
    simp only [findWithdrawal] at hc
    simp only [uploadProofLate, findWithdrawal, updWallet]
    rw [hc]
    rfl

/-- Withdrawal-side behaviour of `upload_proof`: nonnegative remainders are
preserved, and the only increase is the punitive restoration of exactly
`pair.amount` in the late branch. -/
theorem upload_withdrawal_props (db : DB) (pid now : Nat) (url : String)
    (hW : ∀ w ∈ db.withdrawal_requests, 0 ≤ w.amount_remaining)
    (hP : ∀ p ∈ db.pairs, 0 ≤ p.amount) :
    (∀ w2 ∈ (upload_proof db pid now url).1.withdrawal_requests,
      0 ≤ w2.amount_remaining) ∧
    (∀ wid w', findWithdrawal (upload_proof db pid now url).1 wid =
        some w' →
      ∃ w, findWithdrawal db wid = some w ∧
        (w'.amount_remaining ≤ w.amount_remaining ∨
          ∃ pair, findPair db pid = some pair ∧
            pair.withdrawal_request_id = wid ∧
            (upload_proof db pid now url).2 =
              UploadProofResult.deadlinePassed ∧
            w'.amount_remaining = w.amount_remaining + pair.amount)) := by
  unfold upload_proof
  cases hp : findPair db pid with
  | none => exact ⟨hW, fun wid w' hw' => ⟨w', hw', Or.inl (le_refl _)⟩⟩
  | some pair =>
    dsimp only
    cases hfr : findFunding db pair.funding_request_id with
    | none => exact ⟨hW, fun wid w' hw' => ⟨w', hw', Or.inl (le_refl _)⟩⟩
    | some freq =>
      dsimp only
      cases hfw : findWallet db freq.wallet_id with
      | none => exact ⟨hW, fun wid w' hw' => ⟨w', hw', Or.inl (le_refl _)⟩⟩
      | some wal =>
        dsimp only
        by_cases hu : pair.proof_uploaded = true
        · rw [if_pos hu]
          exact ⟨hW, fun wid w' hw' => ⟨w', hw', Or.inl (le_refl _)⟩⟩
        · rw [if_neg hu]
          cases hdl : pair.proof_deadline with
          | none =>
            exact ⟨hW, fun wid w' hw' => ⟨w', hw', Or.inl (le_refl _)⟩⟩
          | some dl =>
            dsimp only
            by_cases hnd : now > dl
            · rw [if_pos hnd]
              dsimp only
              constructor
              · intro w2 hmem
                rcases uploadProofLate_withdrawal_cases db pair freq pid
                  with ⟨hc, _⟩ | hc
                · rw [hc] at hmem
                  exact hW w2 hmem
                · rw [hc] at hmem
                  rcases List.mem_map.mp hmem with ⟨r, hr, rfl⟩
                  by_cases hg : (r.id == pair.withdrawal_request_id) = true
                  · rw [if_pos hg]
                    show 0 ≤ r.amount_remaining + pair.amount
                    have h1 := hW r hr
                    have h2 := hP pair (findPair_mem hp)
                    linarith
                  · rw [if_neg hg]
                    exact hW r hr
              · intro wid w' hw'
                rcases uploadProofLate_withdrawal_cases db pair freq pid
                  with ⟨hc, _⟩ | hc
                · rw [findWithdrawal_congr _ db hc] at hw'
                  exact ⟨w', hw', Or.inl (le_refl _)⟩
                · have hmap : findWithdrawal
                      (uploadProofLate db pair freq pid) wid =
                      (findWithdrawal db wid).map
                        (fun r => if r.id == pair.withdrawal_request_id
                          then requeueWithdrawal pair.amount r else r) := by
                    simp only [findWithdrawal]
                    rw [hc]
                    exact find?_map_update db.withdrawal_requests
                      (fun r => r.id) pair.withdrawal_request_id wid
                      (requeueWithdrawal pair.amount) (fun r => rfl)
                  rw [hmap] at hw'
                  cases hwd : findWithdrawal db wid with
                  | none =>
                    rw [hwd] at hw'
                    cases hw'
                  | some w =>
                    rw [hwd] at hw'
                    simp only [Option.map_some'] at hw'
                    have hweq := Option.some_inj.mp hw'
                    refine ⟨w, rfl, ?_⟩
                    by_cases hg : (w.id == pair.withdrawal_request_id) =
                        true
                    · right
                      refine ⟨pair, rfl, ?_, rfl, ?_⟩
                      · have h1 : w.id = pair.withdrawal_request_id := by
                          simpa using hg
                        rw [← h1]
                        exact findWithdrawal_id hwd
                      · rw [← hweq, if_pos hg]
                        rfl
                    · left
                      rw [← hweq, if_neg hg]
            · rw [if_neg hnd]
              exact ⟨hW, fun wid w' hw' => ⟨w', hw', Or.inl (le_refl _)⟩⟩

theorem confirmProofOk_funding_cases (db : DB) (pair : FundingMatchPair)
    (wr : WithdrawalRequest) (fr : FundingRequest) (pid now : Nat) :
    (confirmProofOk db pair wr fr pid now).funding_requests =
      db.funding_requests ∨
    (confirmProofOk db pair wr fr pid now).funding_requests =
      db.funding_requests.map
        (fun r => if r.id == fr.id then completeFunding r else r) := by
  simp only [confirmProofOk]
  repeat' split
  all_goals first
  | exact Or.inl rfl
  | exact Or.inr rfl

theorem confirmProofOk_withdrawal_cases (db : DB)
    (pair : FundingMatchPair) (wr : WithdrawalRequest)
    (fr : FundingRequest) (pid now : Nat) :
    (confirmProofOk db pair wr fr pid now).withdrawal_requests =
      db.withdrawal_requests ∨
    (confirmProofOk db pair wr fr pid now).withdrawal_requests =
      db.withdrawal_requests.map
        (fun r => if r.id == wr.id then completeWithdrawal r else r) := by
  simp only [confirmProofOk]
  repeat' split
  all_goals first
  | exact Or.inl rfl
  | exact Or.inr rfl

theorem confirm_request_props (db : DB) (pid now : Nat)
    (hF : ∀ f ∈ db.funding_requests, 0 ≤ f.amount_remaining)
    (hW : ∀ w ∈ db.withdrawal_requests, 0 ≤ w.amount_remaining) :
    fundingLe (confirm_proof db pid now).1 db ∧
      withdrawalLe (confirm_proof db pid now).1 db ∧
      (∀ f ∈ (confirm_proof db pid now).1.funding_requests,
        0 ≤ f.amount_remaining) ∧
      (∀ w ∈ (confirm_proof db pid now).1.withdrawal_requests,
        0 ≤ w.amount_remaining) := by
  unfold confirm_proof
  cases hp : findPair db pid with
  | none => exact ⟨fundingLe_refl db, withdrawalLe_refl db, hF, hW⟩
  | some pair =>
    dsimp only
    cases hwr : findWithdrawal db pair.withdrawal_request_id with
    | none => exact ⟨fundingLe_refl db, withdrawalLe_refl db, hF, hW⟩
    | some wr =>
      dsimp only
      cases hww : findWallet db wr.wallet_id with
      | none => exact ⟨fundingLe_refl db, withdrawalLe_refl db, hF, hW⟩
      | some wwal =>
        dsimp only
        by_cases hu : (!pair.proof_uploaded) = true
        · rw [if_pos hu]
          exact ⟨fundingLe_refl db, withdrawalLe_refl db, hF, hW⟩
        · rw [if_neg hu]
          by_cases hcf : pair.proof_confirmed = true
          · rw [if_pos hcf]
            exact ⟨fundingLe_refl db, withdrawalLe_refl db, hF, hW⟩
          · rw [if_neg hcf]
            by_cases hdl : (match pair.confirmation_deadline with
                | some dl => decide (now > dl)
                | none => false) = true
            · rw [if_pos hdl]
              exact ⟨fundingLe_refl db, withdrawalLe_refl db, hF, hW⟩
            · rw [if_neg hdl]
              cases hfr : findFunding db pair.funding_request_id with
              | none =>
                exact ⟨fundingLe_refl db, withdrawalLe_refl db, hF, hW⟩
              | some fr =>
                dsimp only
                cases hfw : findWallet db fr.wallet_id with
                | none =>
                  exact ⟨fundingLe_refl db, withdrawalLe_refl db, hF, hW⟩
                | some fwal =>
                  dsimp only
                  refine ⟨?_, ?_, ?_, ?_⟩
                  · rcases confirmProofOk_funding_cases db pair wr fr pid
                      now with hc | hc
                    · exact fundingLe_of_eq _ _ hc
                    · exact fundingLe_of_map _ _ fr.id completeFunding
                        (fun _ => rfl) (fun _ => le_refl _) hc
                  · rcases confirmProofOk_withdrawal_cases db pair wr fr
                      pid now with hc | hc
                    · exact withdrawalLe_of_eq _ _ hc
                    · exact withdrawalLe_of_map _ _ wr.id
                        completeWithdrawal (fun _ => rfl)
                        (fun _ => le_refl _) hc
                  · intro f2 hmem
                    rcases confirmProofOk_funding_cases db pair wr fr pid
                      now with hc | hc
                    · rw [hc] at hmem
                      exact hF f2 hmem
                    · rw [hc] at hmem
                      rcases List.mem_map.mp hmem with ⟨r, hr, rfl⟩
                      by_cases hg : (r.id == fr.id) = true
                      · rw [if_pos hg]
                        exact hF r hr
                      · rw [if_neg hg]
                        exact hF r hr
                  · intro w2 hmem
                    rcases confirmProofOk_withdrawal_cases db pair wr fr
                      pid now with hc | hc
                    · rw [hc] at hmem
                      exact hW w2 hmem
                    · rw [hc] at hmem
                      rcases List.mem_map.mp hmem with ⟨r, hr, rfl⟩
                      by_cases hg : (r.id == wr.id) = true
                      · rw [if_pos hg]
                        exact hW r hr
                      · rw [if_neg hg]
                        exact hW r hr

theorem extension_tables (db : DB) (pid now : Nat) :
    (request_extension db pid now).1.funding_requests =
        db.funding_requests ∧
      (request_extension db pid now).1.withdrawal_requests =
        db.withdrawal_requests := by
  unfold request_extension
  repeat' split
  all_goals exact ⟨rfl, rfl⟩

theorem expiredConfirmationStep_funding_requests (d : DB) (x : Nat) :
    (expiredConfirmationStep d x).funding_requests =
      d.funding_requests := by
  simp only [expiredConfirmationStep]
  repeat' split
  all_goals rfl

theorem sweep_funding_requests (db : DB) (now : Nat) :
    (check_expired_deadlines db now).funding_requests =
      db.funding_requests := by
  simp only [check_expired_deadlines]
  apply foldl_inv expiredConfirmationStep
    (fun d => d.funding_requests = db.funding_requests)
    (fun d x hd =>
      Eq.trans (expiredConfirmationStep_funding_requests d x) hd)
  apply foldl_inv expiredProofStep
    (fun d => d.funding_requests = db.funding_requests)
    (fun d x hd => Eq.trans (expiredProofStep_funding_requests d x) hd)
  rfl

theorem sweep_withdrawal_requests (db : DB) (now : Nat) :
    (check_expired_deadlines db now).withdrawal_requests =
      db.withdrawal_requests := by
  simp only [check_expired_deadlines]
  apply foldl_inv expiredConfirmationStep
    (fun d => d.withdrawal_requests = db.withdrawal_requests)
    (fun d x hd =>
      Eq.trans (expiredConfirmationStep_withdrawal_requests d x) hd)
  apply foldl_inv expiredProofStep
    (fun d => d.withdrawal_requests = db.withdrawal_requests)
    (fun d x hd => Eq.trans (expiredProofStep_withdrawal_requests d x) hd)
  rfl

theorem cancelF_tables (db : DB) (rid now : Nat) :
    ((cancel_funding_request db rid now).1.funding_requests =
        db.funding_requests ∨
      (cancel_funding_request db rid now).1.funding_requests =
        db.funding_requests.filter (fun r => r.id != rid)) ∧
      (cancel_funding_request db rid now).1.withdrawal_requests =
        db.withdrawal_requests := by
  unfold cancel_funding_request
  repeat' split
  all_goals first
  | exact ⟨Or.inl rfl, rfl⟩
  | exact ⟨Or.inr rfl, rfl⟩

theorem cancelW_tables (db : DB) (rid now : Nat) :
    ((cancel_withdrawal_request db rid now).1.withdrawal_requests =
        db.withdrawal_requests ∨
      (cancel_withdrawal_request db rid now).1.withdrawal_requests =
        db.withdrawal_requests.filter (fun r => r.id != rid)) ∧
      (cancel_withdrawal_request db rid now).1.funding_requests =
        db.funding_requests := by
  unfold cancel_withdrawal_request
  repeat' split
  all_goals first
  | exact ⟨Or.inl rfl, rfl⟩
  | exact ⟨Or.inr rfl, rfl⟩

/-- C5 (corrected).  Under the store invariants (nonnegative remainders and
pair amounts, no duplicate request ids), no operation of the system ever
increases a funding request's `amount_remaining`, and every remainder stays
nonnegative on both sides; a withdrawal request's `amount_remaining` is
increased by exactly one operation: the punitive late branch of
`upload_proof`, which adds the pair amount back onto the matched withdrawal
request — so withdrawal remainders are NOT monotonically non-increasing, and
repeated late uploads push `amount_remaining` above the original `amount`. -/
theorem amount_remaining_dichotomy (db : DB) (op : Op)
    (hF : ∀ f ∈ db.funding_requests, 0 ≤ f.amount_remaining)
    (hW : ∀ w ∈ db.withdrawal_requests, 0 ≤ w.amount_remaining)
    (hP : ∀ p ∈ db.pairs, 0 ≤ p.amount)
    (hnodupF : (db.funding_requests.map (fun f => f.id)).Nodup)
    (hnodupW : (db.withdrawal_requests.map (fun w => w.id)).Nodup) :
    fundingLe (applyOp op db) db ∧
      (∀ f ∈ (applyOp op db).funding_requests, 0 ≤ f.amount_remaining) ∧
      (∀ w ∈ (applyOp op db).withdrawal_requests,
        0 ≤ w.amount_remaining) ∧
      (∀ wid w', findWithdrawal (applyOp op db) wid = some w' →
        ∃ w, findWithdrawal db wid = some w ∧
          (w'.amount_remaining ≤ w.amount_remaining ∨
            ∃ pid now url pair, op = Op.uploadProof pid now url ∧
              findPair db pid = some pair ∧
              pair.withdrawal_request_id = wid ∧
              (upload_proof db pid now url).2 =
                UploadProofResult.deadlinePassed ∧
              w'.amount_remaining = w.amount_remaining + pair.amount)) := by
  cases op with
  | uploadProof pid now url =>
    simp only [applyOp]
    obtain ⟨hnn, hdich⟩ := upload_withdrawal_props db pid now url hW hP
    refine ⟨?_, ?_, hnn, ?_⟩
    · exact fundingLe_of_eq _ _ (upload_funding_requests db pid now url)
    · show ∀ f ∈ (upload_proof db pid now url).1.funding_requests,
        0 ≤ f.amount_remaining
      rw [upload_funding_requests db pid now url]
      exact hF
    · intro wid w' hw'
      obtain ⟨w, hww, hc⟩ := hdich wid w' hw'
      refine ⟨w, hww, ?_⟩
      rcases hc with hle | ⟨pair, h1, h2, h3, h4⟩
      · exact Or.inl hle
      · exact Or.inr ⟨pid, now, url, pair, rfl, h1, h2, h3, h4⟩
  | confirmProof pid now =>
    simp only [applyOp]
    obtain ⟨hLeF, hLeW, hnnF, hnnW⟩ := confirm_request_props db pid now hF hW
    refine ⟨hLeF, hnnF, hnnW, ?_⟩
    intro wid w' hw'
    obtain ⟨w, hww, hle⟩ := hLeW wid w' hw'
    exact ⟨w, hww, Or.inl hle⟩
  | requestExtension pid now =>
    simp only [applyOp]
    obtain ⟨h1, h2⟩ := extension_tables db pid now
    refine ⟨fundingLe_of_eq _ _ h1, ?_, ?_, ?_⟩
    · show ∀ f ∈ (request_extension db pid now).1.funding_requests,
        0 ≤ f.amount_remaining
      rw [h1]
      exact hF
    · show ∀ w ∈ (request_extension db pid now).1.withdrawal_requests,
        0 ≤ w.amount_remaining
      rw [h2]
      exact hW
    · intro wid w' hw'
      rw [findWithdrawal_congr _ db h2] at hw'
      exact ⟨w', hw', Or.inl (le_refl _)⟩
  | sweepDeadlines now =>
    simp only [applyOp]
    have h1 := sweep_funding_requests db now
    have h2 := sweep_withdrawal_requests db now
    refine ⟨fundingLe_of_eq _ _ h1, ?_, ?_, ?_⟩
    · show ∀ f ∈ (check_expired_deadlines db now).funding_requests,
        0 ≤ f.amount_remaining
      rw [h1]
      exact hF
    · show ∀ w ∈ (check_expired_deadlines db now).withdrawal_requests,
        0 ≤ w.amount_remaining
      rw [h2]
      exact hW
    · intro wid w' hw'
      rw [findWithdrawal_congr _ db h2] at hw'
      exact ⟨w', hw', Or.inl (le_refl _)⟩
  | cancelFunding rid now =>
    simp only [applyOp]
    obtain ⟨hc, h2⟩ := cancelF_tables db rid now
    refine ⟨?_, ?_, ?_, ?_⟩
    · rcases hc with hc | hc
      · exact fundingLe_of_eq _ _ hc
      · exact fundingLe_of_filter _ _ _ hnodupF hc
    · intro f2 hmem
      rcases hc with hc | hc
      · rw [hc] at hmem
        exact hF f2 hmem
      · rw [hc] at hmem
        exact hF f2 (List.mem_filter.mp hmem).1
    · show ∀ w ∈ (cancel_funding_request db rid now).1.withdrawal_requests,
        0 ≤ w.amount_remaining
      rw [h2]
      exact hW
    · intro wid w' hw'
      rw [findWithdrawal_congr _ db h2] at hw'
      exact ⟨w', hw', Or.inl (le_refl _)⟩
  | cancelWithdrawal rid now =>
    simp only [applyOp]
    obtain ⟨hc, h2⟩ := cancelW_tables db rid now
    refine ⟨fundingLe_of_eq _ _ h2, ?_, ?_, ?_⟩
    · show ∀ f ∈ (cancel_withdrawal_request db rid now).1.funding_requests,
        0 ≤ f.amount_remaining
      rw [h2]
      exact hF
    · intro w2 hmem
      rcases hc with hc | hc
      · rw [hc] at hmem
        exact hW w2 hmem
      · rw [hc] at hmem
        exact hW w2 (List.mem_filter.mp hmem).1
    · intro wid w' hw'
      have hLe : withdrawalLe (cancel_withdrawal_request db rid now).1
          db := by
        rcases hc with hc | hc
        · exact withdrawalLe_of_eq _ _ hc
        · exact withdrawalLe_of_filter _ _ _ hnodupW hc
      obtain ⟨w, hww, hle⟩ := hLe wid w' hw'
      exact ⟨w, hww, Or.inl hle⟩
  | mergeCycle cid now =>
    simp only [applyOp]
    obtain ⟨hLeF, hLeW, hnnF, hnnW⟩ := run_merge_cycle_request_props db cid
      now hF hW hnodupF hnodupW
    refine ⟨hLeF, hnnF, hnnW, ?_⟩
    intro wid w' hw'
    obtain ⟨w, hww, hle⟩ := hLeW wid w' hw'
    exact ⟨w, hww, Or.inl hle⟩

/-- Witness for C5: the late upload on `dbPair` (all invariants hold there)
realizes the exceptional branch of the dichotomy — withdrawal request 20 is
restored by exactly the pair amount. -/
theorem amount_remaining_dichotomy_witness :
    (∀ f ∈ dbPair.funding_requests, 0 ≤ f.amount_remaining) ∧
      (∀ p ∈ dbPair.pairs, 0 ≤ p.amount) ∧
      (fundingLe (applyOp (Op.uploadProof 1 15000 "p.jpg") dbPair) dbPair ∧
        (∀ f ∈ (applyOp (Op.uploadProof 1 15000 "p.jpg")
            dbPair).funding_requests, 0 ≤ f.amount_remaining) ∧
        (∀ w ∈ (applyOp (Op.uploadProof 1 15000 "p.jpg")
            dbPair).withdrawal_requests, 0 ≤ w.amount_remaining) ∧
        (∀ wid w', findWithdrawal
            (applyOp (Op.uploadProof 1 15000 "p.jpg") dbPair) wid =
              some w' →
          ∃ w, findWithdrawal dbPair wid = some w ∧
            (w'.amount_remaining ≤ w.amount_remaining ∨
              ∃ pid now url pair,
                Op.uploadProof 1 15000 "p.jpg" =
                  Op.uploadProof pid now url ∧
                findPair dbPair pid = some pair ∧
                pair.withdrawal_request_id = wid ∧
                (upload_proof dbPair pid now url).2 =
                  UploadProofResult.deadlinePassed ∧
                w'.amount_remaining =
                  w.amount_remaining + pair.amount))) :=
  ⟨by decide, by decide,
    amount_remaining_dichotomy dbPair (Op.uploadProof 1 15000 "p.jpg")
      (by decide) (by decide) (by decide) (by decide) (by decide)⟩

end TwoAside
